import Mathlib

/-!
# A shallow embedding of `arena.h`

The allocator of `src/arena.h` is a pointer program: an `Arena` record points to
`ArenaNode` headers that sit at the start of regions obtained from a memory
backend (`malloc`/`free`/`realloc`, or `mmap`/`munmap`/`mremap` in
`src/arena-linux.c`).  The embedding below keeps the program's own shape.

* Addresses and `size_t` values are natural numbers below `2 ^ 64`; every
  pointer or size computation of the source is reduced modulo `2 ^ 64`.
* A node header is a record stored at its address in `Heap.nodes`; the payload
  bytes live in the flat byte memory `Heap.mem`.
* Dereferencing an address that holds no live header has no defined behaviour
  in C; the embedding returns `none` there.
* The backend is the environment.  The address it hands out is an argument
  (`fresh`) of every operation that may call it; `0` stands for a failed
  request.  The backend state records the regions that are live together with
  the sizes they were requested with, and a log of every call.
* `Arena_alloc_traced` repeats `Arena_alloc` statement by statement but keeps
  the state in which a statement faults; it returns what `Arena_alloc` returns
  (`Arena_alloc_traced_toOption`).
* `Arena_backend_resize` is the stand-in of `arena.h` for a backend without a
  resize of its own (`src/arena-windows.c`); `ARENA_BACKEND_RESIZE` is the
  resize of `realloc` and `mremap`.
-/

namespace ArenaSpec

/-! ## Machine words -/

/-- Number of values of a machine word (`uintptr_t`, `size_t`, `char *`). -/
def WORD : Nat := 2 ^ 64

/-- Addition of machine words. -/
def wadd (a b : Nat) : Nat := (a + b) % WORD

/-- Subtraction of machine words. -/
def wsub (a b : Nat) : Nat := (a + (WORD - b % WORD)) % WORD

/-- Negation of a machine word. -/
def wneg (a : Nat) : Nat := (WORD - a % WORD) % WORD

/-! ## Configuration macros -/

/-- The two configuration macros of `arena.h`. -/
structure Config where
  /-- The macro `ARENA_MAX_SIZE` (default `16384`). -/
  ARENA_MAX_SIZE : Nat
  /-- The macro `ARENA_ALIGNMENT` (default `sizeof(void*)`, that is `8`). -/
  ARENA_ALIGNMENT : Nat
deriving DecidableEq, Repr

/-- The configuration obtained when no macro is overridden. -/
def defaultConfig : Config := { ARENA_MAX_SIZE := 16384, ARENA_ALIGNMENT := 8 }

/-- The value `sizeof(ArenaNode)`: four pointers; `data` is a flexible array member. -/
def sizeof_ArenaNode : Nat := 32

/-- The macro `ARENA_ALIGN(p)`, that is `-(uintptr_t)p & (ARENA_ALIGNMENT - 1)`. -/
def ARENA_ALIGN (cfg : Config) (p : Nat) : Nat :=
  wneg p &&& (wsub cfg.ARENA_ALIGNMENT 1)

/-- The macro `ARENA_NODE_SIZE`. -/
def ARENA_NODE_SIZE (cfg : Config) : Nat :=
  wadd sizeof_ArenaNode (ARENA_ALIGN cfg sizeof_ArenaNode)

/-! ## Data model -/

/-- The header `struct ArenaNode`; the field `end` is spelled `end_`. -/
structure ArenaNode where
  prev : Nat
  next : Nat
  pos : Nat
  end_ : Nat
deriving DecidableEq, Repr

/-- The address `node->data` of the payload of the node at address `node`. -/
def data (node : Nat) : Nat := wadd node sizeof_ArenaNode

/-- The record `Arena` of the header file. -/
structure Arena where
  free : Nat
  current : Nat
  last : Nat
  last_allocation : Nat
deriving DecidableEq, Repr

/-- One call of a backend macro, with the address it returned where it returns one. -/
inductive BackendCall where
  | alloc (size : Nat) (ret : Nat)
  | dealloc (ptr : Nat) (size : Nat)
  | resize (ptr : Nat) (old_size : Nat) (new_size : Nat) (ret : Nat)
deriving DecidableEq, Repr

/-- Everything the arena points into: headers, bytes, and the backend. -/
structure Heap where
  /-- The header stored at an address, `none` where no live region starts. -/
  nodes : Nat → Option ArenaNode
  /-- The byte stored at an address. -/
  mem : Nat → Nat
  /-- The regions the backend has handed out and not taken back: address and size. -/
  live : List (Nat × Nat)
  /-- The backend calls made so far, most recent first. -/
  log : List BackendCall

/-- The arena record together with the heap it points into. -/
structure State extends Arena, Heap

/-! ## Field access through a node pointer -/

/-- Store a header at the address of a live node. -/
def State.setNode (s : State) (a : Nat) (n : ArenaNode) : State :=
  { s with nodes := Function.update s.nodes a (some n) }

/-- The statement `a->prev = v`. -/
def State.setPrev (s : State) (a v : Nat) : Option State :=
  (s.nodes a).map fun n => s.setNode a { n with prev := v }

/-- The statement `a->next = v`. -/
def State.setNext (s : State) (a v : Nat) : Option State :=
  (s.nodes a).map fun n => s.setNode a { n with next := v }

/-- The statement `a->pos = v`. -/
def State.setPos (s : State) (a v : Nat) : Option State :=
  (s.nodes a).map fun n => s.setNode a { n with pos := v }

/-- The statement `a->end = v`. -/
def State.setEnd (s : State) (a v : Nat) : Option State :=
  (s.nodes a).map fun n => s.setNode a { n with end_ := v }

/-! ## The backend and `memcpy` -/

/-- The macro `ARENA_BACKEND_ALLOC(size)` when the backend answers with `ret`.
A null answer hands out nothing. Any other answer is taken for a region, also the
`MAP_FAILED` of a failed `mmap`, on which the program faults as on a null answer; the
statements about valid states exclude it (`FreshFor` keeps answers below `ADDR_LIMIT`).  A new region starts with a zeroed header
(anonymous mappings are zero filled; the arena writes every field it later
reads). -/
def ARENA_BACKEND_ALLOC (s : State) (size ret : Nat) : State :=
  if ret = 0 then { s with log := BackendCall.alloc size ret :: s.log }
  else
    { s with
      nodes := Function.update s.nodes ret (some ⟨0, 0, 0, 0⟩)
      live := (ret, size) :: s.live
      log := BackendCall.alloc size ret :: s.log }

/-- The macro `ARENA_BACKEND_DEALLOC(ptr, size)`; releasing an address that is
not live has no defined behaviour. -/
def ARENA_BACKEND_DEALLOC (s : State) (ptr size : Nat) : Option State :=
  match s.nodes ptr with
  | none => none
  | some _ =>
    some { s with
      nodes := Function.update s.nodes ptr none
      live := s.live.filter fun r => r.1 ≠ ptr
      log := BackendCall.dealloc ptr size :: s.log }

/-- The call `ARENA_MEMCPY(dst, src, n)`. The embedding keeps the headers apart from the
bytes, so the copy writes `mem` only; it is the copy of the program as long as it runs
over no header (`HeadersClear`), which statements about whole runs require. -/
def ARENA_MEMCPY (s : State) (dst src n : Nat) : State :=
  { s with mem := fun a => if dst ≤ a ∧ a < dst + n then s.mem (src + (a - dst)) else s.mem a }

/-- The macro `ARENA_BACKEND_RESIZE(ptr, old_size, new_size)` (`realloc`, `mremap`)
when the backend answers with `ret`: the region moves to `ret` (possibly the
same address) with the first `min old_size new_size` bytes of its contents,
header included. A null answer leaves the old region in place. -/
def ARENA_BACKEND_RESIZE (s : State) (ptr old_size new_size ret : Nat) : Option State :=
  match s.nodes ptr with
  | none => none
  | some n =>
    if ret = 0 then some { s with log := BackendCall.resize ptr old_size new_size ret :: s.log }
    else
      some { s with
        nodes := Function.update (Function.update s.nodes ptr none) ret (some n)
        mem := fun a =>
          if data ret ≤ a ∧ a < ret + min old_size new_size then s.mem (ptr + (a - ret))
          else s.mem a
        live := (ret, new_size) :: s.live.filter fun r => r.1 ≠ ptr
        log := BackendCall.resize ptr old_size new_size ret :: s.log }

/-! ## The functions of `arena.h` -/

/-- The function `Arena_create_node`. -/
def Arena_create_node (cfg : Config) (s : State) (size fresh : Nat) : Option (Nat × State) :=
  let allocate (s : State) : Option (Nat × State) :=
    -- ArenaNode *node = ARENA_BACKEND_ALLOC(ARENA_NODE_SIZE + size);
    let node := fresh
    let s := ARENA_BACKEND_ALLOC s (wadd (ARENA_NODE_SIZE cfg) size) node
    -- node->end = node->data + size;
    (s.setEnd node (wadd (data node) size)).map fun s => (node, s)
  if s.free ≠ 0 then
    -- ArenaNode *node = arena->free;
    let node := s.free
    match s.nodes node with
    | none => none
    | some n =>
      -- arena->free = node->prev;
      let s := { s with free := n.prev }
      -- if (node->end - node->data >= size) return node;
      if wsub n.end_ (data node) ≥ size then some (node, s)
      else
        -- ARENA_BACKEND_DEALLOC(node, ARENA_NODE_SIZE + node->end - node->data);
        (ARENA_BACKEND_DEALLOC s node
          (wsub (wadd (ARENA_NODE_SIZE cfg) n.end_) (data node))).bind allocate
  else allocate s

/-- The function `Arena_create`; `fresh` is the backend's answer. -/
def Arena_create (cfg : Config) (h : Heap) (fresh : Nat) : Option State :=
  let s : State := { free := 0, current := 0, last := 0, last_allocation := 0, toHeap := h }
  -- ArenaNode *node = ARENA_BACKEND_ALLOC(ARENA_NODE_SIZE + ARENA_MAX_SIZE);
  let node := fresh
  let s := ARENA_BACKEND_ALLOC s (wadd (ARENA_NODE_SIZE cfg) cfg.ARENA_MAX_SIZE) node
  do
    let s ← s.setPrev node 0
    let s ← s.setNext node 0
    let s ← s.setPos node (data node)
    let s ← s.setEnd node (wadd (data node) cfg.ARENA_MAX_SIZE)
    pure { s with free := 0, current := node, last := node, last_allocation := 0 }

/-- The function `Arena_alloc`; `fresh` is the backend's answer should it be asked. -/
def Arena_alloc (cfg : Config) (s : State) (size fresh : Nat) : Option (Nat × State) :=
  if size ≥ cfg.ARENA_MAX_SIZE then do
    -- ArenaNode *node = Arena_create_node(arena, size);
    let (node, s) ← Arena_create_node cfg s size fresh
    -- node->pos = node->data + size;
    let s ← s.setPos node (wadd (data node) size)
    -- ArenaNode *prev = arena->current->prev;
    let cur ← s.nodes s.current
    let prev := cur.prev
    -- arena->current->prev = node;
    let s ← s.setPrev s.current node
    -- node->next = arena->current;
    let s ← s.setNext node s.current
    -- node->prev = prev;
    let s ← s.setPrev node prev
    -- if (prev) prev->next = node; else arena->last = node;
    let s ← if prev ≠ 0 then s.setNext prev node else some { s with last := node }
    -- arena->last_allocation = node->data; return node->data;
    pure (data node, { s with last_allocation := data node })
  else do
    -- arena->current->pos += ARENA_ALIGN(arena->current->pos);
    let cur ← s.nodes s.current
    let s ← s.setPos s.current (wadd cur.pos (ARENA_ALIGN cfg cur.pos))
    -- if (arena->current->pos + size > arena->current->end) { ... }
    let cur ← s.nodes s.current
    let s ←
      if wadd cur.pos size > cur.end_ then do
        -- ArenaNode *node = Arena_create_node(arena, ARENA_MAX_SIZE);
        let (node, s) ← Arena_create_node cfg s cfg.ARENA_MAX_SIZE fresh
        -- node->pos = node->data; node->next = NULL; node->prev = arena->current;
        let s ← s.setPos node (data node)
        let s ← s.setNext node 0
        let s ← s.setPrev node s.current
        -- arena->current->next = node; arena->current = node;
        let s ← s.setNext s.current node
        pure { s with current := node }
      else pure s
    -- void *data = arena->current->pos; arena->current->pos += size;
    let cur ← s.nodes s.current
    let p := cur.pos
    let s ← s.setPos s.current (wadd cur.pos size)
    -- arena->last_allocation = data; return data;
    pure (p, { s with last_allocation := p })

/-- The function `Arena_resize`; `fresh` is the backend's answer should it be asked. -/
def Arena_resize (cfg : Config) (s : State) (ptr old_size new_size fresh : Nat) :
    Option (Nat × State) :=
  if old_size ≥ cfg.ARENA_MAX_SIZE ∧ new_size > cfg.ARENA_MAX_SIZE then do
    -- ArenaNode *old_node = (ArenaNode*)((char*)ptr - ARENA_NODE_SIZE);
    let old_node := wsub ptr (ARENA_NODE_SIZE cfg)
    let old ← s.nodes old_node
    -- size_t old_node_size = ARENA_NODE_SIZE + old_node->end - old_node->data;
    let old_node_size := wsub (wadd (ARENA_NODE_SIZE cfg) old.end_) (data old_node)
    -- size_t new_node_size = new_size + ARENA_NODE_SIZE;
    let new_node_size := wadd new_size (ARENA_NODE_SIZE cfg)
    -- ArenaNode *new_node = ARENA_BACKEND_RESIZE(old_node, old_node_size, new_node_size);
    let new_node := fresh
    let s ← ARENA_BACKEND_RESIZE s old_node old_node_size new_node_size new_node
    -- new_node->end = new_node->data + new_size;
    let s ← s.setEnd new_node (wadd (data new_node) new_size)
    -- if (new_node->prev) new_node->prev->next = new_node; else arena->last = new_node;
    let n ← s.nodes new_node
    let s ← if n.prev ≠ 0 then s.setNext n.prev new_node else some { s with last := new_node }
    -- if (new_node->next) new_node->next->prev = new_node; else arena->current = new_node;
    let n ← s.nodes new_node
    let s ← if n.next ≠ 0 then s.setPrev n.next new_node else some { s with current := new_node }
    -- new_node->pos = new_node->data + new_size; return new_node->data;
    let s ← s.setPos new_node (wadd (data new_node) new_size)
    pure (data new_node, s)
  else do
    -- if (ptr && ptr == arena->last_allocation) { ... }
    let inplace : Option (Option Nat × State) :=
      if ptr ≠ 0 ∧ ptr = s.last_allocation then do
        -- arena->current->pos -= old_size;
        let cur ← s.nodes s.current
        let s ← s.setPos s.current (wsub cur.pos old_size)
        -- if (arena->current->pos + new_size <= arena->current->end) { ... return ptr; }
        let cur ← s.nodes s.current
        if wadd cur.pos new_size ≤ cur.end_ then do
          let s ← s.setPos s.current (wadd cur.pos new_size)
          pure (some ptr, s)
        else pure (none, s)
      else pure (none, s)
    let (returned, s) ← inplace
    match returned with
    | some p => pure (p, s)
    | none =>
      -- void *new_ptr = Arena_alloc(arena, new_size);
      let (new_ptr, s) ← Arena_alloc cfg s new_size fresh
      -- ARENA_MEMCPY(new_ptr, ptr, old_size); return new_ptr;
      pure (new_ptr, ARENA_MEMCPY s new_ptr ptr old_size)

/-- The function `Arena_reset`. -/
def Arena_reset (s : State) : Option State := do
  let s ←
    if s.current ≠ s.last then do
      -- arena->last->prev = arena->free;
      let s ← s.setPrev s.last s.free
      -- arena->free = arena->current->prev;
      let cur ← s.nodes s.current
      let s := { s with free := cur.prev }
      -- arena->current->prev = NULL; arena->current->next = NULL;
      let s ← s.setPrev s.current 0
      let s ← s.setNext s.current 0
      -- arena->last = arena->current;
      pure { s with last := s.current }
    else pure s
  -- arena->last_allocation = NULL;
  let s := { s with last_allocation := 0 }
  -- arena->current->pos = arena->current->data;
  s.setPos s.current (data s.current)

/-- The loop of `Arena_destroy`, run for at most `fuel` iterations; `none` when
the fuel does not suffice or a header is read after its region was released. -/
def Arena_destroy_loop (cfg : Config) : Nat → State → Nat → Option State
  | 0, s, node => if node = 0 then some s else none
  | fuel + 1, s, node =>
    -- while (node) {
    if node = 0 then some s
    else
      match s.nodes node with
      | none => none
      | some n =>
        -- ArenaNode *prev = node->prev;
        let prev := n.prev
        -- ARENA_BACKEND_DEALLOC(node, ARENA_NODE_SIZE + node->end - node->data);
        (ARENA_BACKEND_DEALLOC s node
          (wsub (wadd (ARENA_NODE_SIZE cfg) n.end_) (data node))).bind
          fun s => Arena_destroy_loop cfg fuel s prev

/-- The function `Arena_destroy`, its loop bounded by `fuel`. -/
def Arena_destroy (cfg : Config) (fuel : Nat) (s : State) : Option State := do
  -- if (arena.last) arena.last->prev = arena.free;
  let s ← if s.last ≠ 0 then s.setPrev s.last s.free else some s
  -- ArenaNode *node = arena.current; while (node) { ... }
  Arena_destroy_loop cfg fuel s s.current

/-- A heap in which the backend has handed out nothing yet; byte `a` holds `a % 256`. -/
def emptyHeap : Heap := { nodes := fun _ => none, mem := fun a => a % 256, live := [], log := [] }

/-! ## Vocabulary of the statements -/

/-- The cursor after `pos += ARENA_ALIGN(pos)`. -/
def alignUp (cfg : Config) (p : Nat) : Nat := wadd p (ARENA_ALIGN cfg p)

/-- Configurations the statements cover: the alignment is a power of two that
divides `sizeof(ArenaNode)`, so that the payload starts `ARENA_NODE_SIZE` bytes
after the header as `Arena_resize` presupposes; the chunk size is far from
overflowing a word. -/
def Config.Valid (cfg : Config) : Prop :=
  (cfg.ARENA_ALIGNMENT = 1 ∨ cfg.ARENA_ALIGNMENT = 2 ∨ cfg.ARENA_ALIGNMENT = 4 ∨
    cfg.ARENA_ALIGNMENT = 8 ∨ cfg.ARENA_ALIGNMENT = 16 ∨ cfg.ARENA_ALIGNMENT = 32) ∧
  cfg.ARENA_MAX_SIZE < 2 ^ 62

/-- Addresses of regions stay below this limit (the lower half of the address space). -/
def ADDR_LIMIT : Nat := 2 ^ 63

/-- The predicate `PrevPath nodes a l`: following `prev` links from `a` visits exactly the
nodes of `l`, each one live, and then reaches the null pointer. -/
def PrevPath (nodes : Nat → Option ArenaNode) : Nat → List Nat → Prop
  | a, [] => a = 0
  | a, b :: l => a = b ∧ a ≠ 0 ∧ ∃ n, nodes a = some n ∧ PrevPath nodes n.prev l

/-- A valid arena state with chunk chain `chain` (from `current` down to `last`)
and free list `fl` (from `free`). -/
structure ValidWith (cfg : Config) (s : State) (chain fl : List Nat) : Prop where
  chain_path : PrevPath s.nodes s.current chain
  free_path : PrevPath s.nodes s.free fl
  nodup : (chain ++ fl).Nodup
  last_eq : chain.getLast? = some s.last
  cur_next : ∀ c, s.nodes s.current = some c → c.next = 0
  node_ok : ∀ a ∈ chain ++ fl, ∀ n, s.nodes a = some n →
    a + sizeof_ArenaNode ≤ n.end_ ∧ n.end_ < ADDR_LIMIT
  cur_pos : ∀ c, s.nodes s.current = some c →
    s.current + sizeof_ArenaNode ≤ c.pos ∧ c.pos ≤ c.end_

/-- A valid arena state. -/
def State.Valid (cfg : Config) (s : State) : Prop :=
  ∃ chain fl, ValidWith cfg s chain fl

/-- The backend's answer `fresh` to a request for a chunk of `size` payload bytes
is a region it may hand out: not null, below the address limit, and not a chunk
the arena still holds. The head of the free list is excepted:
`Arena_create_node` releases it before it asks. -/
def FreshFor (size : Nat) (chain fl : List Nat) (fresh : Nat) : Prop :=
  fresh ≠ 0 ∧ fresh + sizeof_ArenaNode + size < ADDR_LIMIT ∧ fresh ∉ chain ∧ fresh ∉ fl.tail

/-- The state `Arena_create` returns when the backend answers with the non-null
address `node` (theorem `Arena_create_eq`). -/
def Arena_created (cfg : Config) (h : Heap) (node : Nat) : State :=
  { free := 0, current := node, last := node, last_allocation := 0
    nodes := Function.update h.nodes node
      (some ⟨0, 0, data node, wadd (data node) cfg.ARENA_MAX_SIZE⟩)
    mem := h.mem
    live := (node, wadd (ARENA_NODE_SIZE cfg) cfg.ARENA_MAX_SIZE) :: h.live
    log := BackendCall.alloc (wadd (ARENA_NODE_SIZE cfg) cfg.ARENA_MAX_SIZE) node :: h.log }

/-- An example state with two chunks: a fresh default arena after one request of
`ARENA_MAX_SIZE` bytes, the backend answering with the addresses `1048576` and
`2097152`. -/
def twoChunkArena : State :=
  ((Arena_alloc defaultConfig (Arena_created defaultConfig emptyHeap 1048576) 16384
    2097152).map Prod.snd).getD (Arena_created defaultConfig emptyHeap 1048576)

/-- The configuration of the end-to-end scenario: `ARENA_MAX_SIZE` is `4096`. -/
def scenarioConfig : Config := { ARENA_MAX_SIZE := 4096, ARENA_ALIGNMENT := 8 }

/-- The end-to-end scenario: create; `A = alloc(100)`; `B = alloc(50)`;
`C = resize(A, 100, 60)`; reset; `D = alloc(4096)`. The backend answers with
`node` at creation and with `f1`, `f2`, `f3`, `f4` in the four later calls
should it be asked. The result lists `A`, `B`, `C`, `D`, the backend log as
it stands before the last call, and the final state. -/
def endToEnd (h : Heap) (node f1 f2 f3 f4 : Nat) :
    Option (Nat × Nat × Nat × Nat × List BackendCall × State) := do
  let s ← Arena_create scenarioConfig h node
  let (a, s) ← Arena_alloc scenarioConfig s 100 f1
  let (b, s) ← Arena_alloc scenarioConfig s 50 f2
  let (c, s) ← Arena_resize scenarioConfig s a 100 60 f3
  let s ← Arena_reset s
  let before := s.log
  let (d, s) ← Arena_alloc scenarioConfig s 4096 f4
  pure (a, b, c, d, before, s)

/-- The fresh arena of `Arena_created` after small allocations that stayed in
the initial chunk: the cursor is `pos`, the last allocation `la`, and the
bytes are `mem`. -/
def singleChunk (cfg : Config) (h : Heap) (node pos la : Nat) (mem : Nat → Nat) : State :=
  { free := 0, current := node, last := node, last_allocation := la
    nodes := Function.update h.nodes node
      (some ⟨0, 0, pos, wadd (data node) cfg.ARENA_MAX_SIZE⟩)
    mem := mem
    live := (node, wadd (ARENA_NODE_SIZE cfg) cfg.ARENA_MAX_SIZE) :: h.live
    log := BackendCall.alloc (wadd (ARENA_NODE_SIZE cfg) cfg.ARENA_MAX_SIZE) node :: h.log }

/-- A run of valid calls in the default configuration after which one chunk is
both the tail of the chain and the head of the free list. The backend answers
as a top-down `mmap` does: the initial chunk at `1048576`, the next region
(`32 + 16384` bytes, five pages) at `1048576 - 20480 = 1028096`, the one after
(`32 + 20488` bytes, six pages) at `1028096 - 24576 = 1003520`, and the resize
from `16416` to `16417` bytes in place. -/
def sharedChunkRun : Option State := do
  let s ← Arena_create defaultConfig emptyHeap 1048576
  let (_, s) ← Arena_alloc defaultConfig s 16384 1028096
  let (_, s) ← Arena_alloc defaultConfig s 20488 1003520
  let s ← Arena_reset s
  let (l, s) ← Arena_alloc defaultConfig s 20488 0
  let (_, s) ← Arena_resize defaultConfig s l 20488 8 0
  let (p, s) ← Arena_alloc defaultConfig s 8 0
  let (p, s) ← Arena_resize defaultConfig s p 8 16384 0
  let (_, s) ← Arena_resize defaultConfig s p 16384 16385 1028096
  pure s

/-- The size of the backend region of the chunk at `a`: header plus capacity. -/
def chunkBytes (s : State) (a : Nat) : Nat :=
  match s.nodes a with
  | some n => sizeof_ArenaNode + (n.end_ - data a)
  | none => 0

/-- A run of `Arena_alloc` calls, one per request `(size, fresh)`; the result
lists the returned addresses in call order. -/
def alloc_seq (cfg : Config) : State → List (Nat × Nat) → Option (List Nat × State)
  | s, [] => some ([], s)
  | s, (size, fresh) :: rest =>
    (Arena_alloc cfg s size fresh).bind fun r =>
      (alloc_seq cfg r.2 rest).map fun q => (r.1 :: q.1, q.2)

/-! ## The fallback for `ARENA_BACKEND_RESIZE` -/

/-- The function `Arena_backend_resize` of `arena.h`, which stands in for
`ARENA_BACKEND_RESIZE` when the backend defines none (as `src/arena-windows.c`); `fresh`
is the answer of `ARENA_BACKEND_ALLOC`. Copying through a null answer or from a region
that is not live has no defined behaviour. The copy carries the header at `ptr` along
when it reaches past it. A copy shorter than the header would carry a part of it, which
the embedding does not represent: there the new header is left as it is. `Arena_resize`
asks for at least the header size. -/
def Arena_backend_resize (s : State) (ptr old_size new_size fresh : Nat) :
    Option (Nat × State) :=
  -- void *new_ptr = ARENA_BACKEND_ALLOC(new_size);
  let new_ptr := fresh
  let s := ARENA_BACKEND_ALLOC s new_size new_ptr
  match s.nodes new_ptr, s.nodes ptr with
  | some _, some n =>
    -- ARENA_MEMCPY(new_ptr, ptr, old_size);
    let s := if sizeof_ArenaNode ≤ old_size then s.setNode new_ptr n else s
    let s := ARENA_MEMCPY s new_ptr ptr old_size
    -- ARENA_BACKEND_DEALLOC(ptr, old_size); return new_ptr;
    (ARENA_BACKEND_DEALLOC s ptr old_size).map fun s => (new_ptr, s)
  | _, _ => none

/-! ## The allocation functions with the faulting state kept -/

/-- A step that may have no defined behaviour, keeping the state `s` in which it is
attempted: `Except.error s` when the step faults there. -/
def traced {α : Type} (s : State) (r : Option α) : Except State α :=
  match r with
  | some x => Except.ok x
  | none => Except.error s

/-- The function `Arena_create_node` once more, statement by statement as
`Arena_create_node`, but keeping the state in which a fault occurs. -/
def Arena_create_node_traced (cfg : Config) (s : State) (size fresh : Nat) :
    Except State (Nat × State) :=
  let allocate (s : State) : Except State (Nat × State) :=
    -- ArenaNode *node = ARENA_BACKEND_ALLOC(ARENA_NODE_SIZE + size);
    let node := fresh
    let s := ARENA_BACKEND_ALLOC s (wadd (ARENA_NODE_SIZE cfg) size) node
    -- node->end = node->data + size;
    (traced s (s.setEnd node (wadd (data node) size))).map fun s => (node, s)
  if s.free ≠ 0 then
    -- ArenaNode *node = arena->free;
    let node := s.free
    match s.nodes node with
    | none => Except.error s
    | some n =>
      -- arena->free = node->prev;
      let s := { s with free := n.prev }
      -- if (node->end - node->data >= size) return node;
      if wsub n.end_ (data node) ≥ size then Except.ok (node, s)
      else
        -- ARENA_BACKEND_DEALLOC(node, ARENA_NODE_SIZE + node->end - node->data);
        (traced s (ARENA_BACKEND_DEALLOC s node
          (wsub (wadd (ARENA_NODE_SIZE cfg) n.end_) (data node)))).bind allocate
  else allocate s

/-- The function `Arena_alloc` once more, statement by statement as `Arena_alloc`, but
keeping the state in which a fault occurs: what the arena looks like at the moment the
call runs into undefined behaviour. -/
def Arena_alloc_traced (cfg : Config) (s : State) (size fresh : Nat) :
    Except State (Nat × State) :=
  if size ≥ cfg.ARENA_MAX_SIZE then do
    -- ArenaNode *node = Arena_create_node(arena, size);
    let (node, s) ← Arena_create_node_traced cfg s size fresh
    -- node->pos = node->data + size;
    let s ← traced s (s.setPos node (wadd (data node) size))
    -- ArenaNode *prev = arena->current->prev;
    let cur ← traced s (s.nodes s.current)
    let prev := cur.prev
    -- arena->current->prev = node;
    let s ← traced s (s.setPrev s.current node)
    -- node->next = arena->current;
    let s ← traced s (s.setNext node s.current)
    -- node->prev = prev;
    let s ← traced s (s.setPrev node prev)
    -- if (prev) prev->next = node; else arena->last = node;
    let s ← if prev ≠ 0 then traced s (s.setNext prev node) else pure { s with last := node }
    -- arena->last_allocation = node->data; return node->data;
    pure (data node, { s with last_allocation := data node })
  else do
    -- arena->current->pos += ARENA_ALIGN(arena->current->pos);
    let cur ← traced s (s.nodes s.current)
    let s ← traced s (s.setPos s.current (wadd cur.pos (ARENA_ALIGN cfg cur.pos)))
    -- if (arena->current->pos + size > arena->current->end) { ... }
    let cur ← traced s (s.nodes s.current)
    let s ←
      if wadd cur.pos size > cur.end_ then do
        -- ArenaNode *node = Arena_create_node(arena, ARENA_MAX_SIZE);
        let (node, s) ← Arena_create_node_traced cfg s cfg.ARENA_MAX_SIZE fresh
        -- node->pos = node->data; node->next = NULL; node->prev = arena->current;
        let s ← traced s (s.setPos node (data node))
        let s ← traced s (s.setNext node 0)
        let s ← traced s (s.setPrev node s.current)
        -- arena->current->next = node; arena->current = node;
        let s ← traced s (s.setNext s.current node)
        pure { s with current := node }
      else pure s
    -- void *data = arena->current->pos; arena->current->pos += size;
    let cur ← traced s (s.nodes s.current)
    let p := cur.pos
    let s ← traced s (s.setPos s.current (wadd cur.pos size))
    -- arena->last_allocation = data; return data;
    pure (p, { s with last_allocation := p })

/-! ## Vocabulary of the later statements -/

/-- The macro `ARENA_ALIGN(p)`, that is `-(uintptr_t)p & (A - 1)`, for the alignment `A` on
a machine whose words have `w` bits; `ARENA_ALIGN cfg` is the case `w = 64`. -/
def ARENA_ALIGN_w (w A p : Nat) : Nat :=
  ((2 ^ w - p % 2 ^ w) % 2 ^ w) &&& ((A + (2 ^ w - 1 % 2 ^ w)) % 2 ^ w)

/-- Two states hold the same live headers up to their links: every header of `t` is a
header of `s` with the same `pos` and `end`, and conversely. -/
def SameCursors (s t : State) : Prop :=
  ∀ x, (∀ n, s.nodes x = some n → ∃ m, t.nodes x = some m ∧ m.pos = n.pos ∧ m.end_ = n.end_) ∧
    (∀ m, t.nodes x = some m → ∃ n, s.nodes x = some n ∧ m.pos = n.pos ∧ m.end_ = n.end_)

/-- The predicate `NextLinked nodes up l`: every node of `l` is live and its `next` link
is the node before it in `l`, and `up` for the first one. Together with `PrevPath` it
says that `l` is doubly linked. -/
def NextLinked (nodes : Nat → Option ArenaNode) : Nat → List Nat → Prop
  | _, [] => True
  | up, b :: l => (∃ n, nodes b = some n ∧ n.next = up) ∧ NextLinked nodes b l

/-- A copy of `n` bytes to `dst` stays clear of the headers: it does not run past the end
of the address space and touches no byte of the header of a live chunk. The embedding keeps
headers apart from bytes, so `ARENA_MEMCPY` is the copy of the program only then. -/
def HeadersClear (s : State) (dst n : Nat) : Prop :=
  dst + n ≤ WORD ∧ ∀ a h, s.nodes a = some h → a + sizeof_ArenaNode ≤ dst ∨ dst + n ≤ a

/-- The call `Arena_resize(ptr, old_size, new_size)` in the state `s` makes no call of
`ARENA_MEMCPY`: it takes the large path, where the backend moves the region, or it finds
`ptr` to be `last_allocation` and the new size to fit, and resizes in place. -/
def ResizeWithoutCopy (cfg : Config) (s : State) (ptr old_size new_size : Nat) : Prop :=
  (cfg.ARENA_MAX_SIZE ≤ old_size ∧ cfg.ARENA_MAX_SIZE < new_size) ∨
  (ptr ≠ 0 ∧ ptr = s.last_allocation ∧
    ∃ c, s.nodes s.current = some c ∧ wadd (wsub c.pos old_size) new_size ≤ c.end_)

/-- The states an arena reaches from `Arena_create`, on a heap without chunks, through
calls of `Arena_alloc`, `Arena_resize` and `Arena_reset` that return, whatever their
arguments. Sizes are `size_t` values. The backend resizes a region itself
(`ARENA_BACKEND_RESIZE`, as `realloc` and `mremap` do). A call of `Arena_resize` that
copies, with `ARENA_MEMCPY(p, ptr, old_size)`, copies clear of the headers. -/
inductive Reachable (cfg : Config) : State → Prop
  | create (h : Heap) (fresh : Nat) (s : State) (hempty : ∀ a, h.nodes a = none)
      (hs : Arena_create cfg h fresh = some s) : Reachable cfg s
  | alloc (s t : State) (size fresh p : Nat) (hs : Reachable cfg s) (hsize : size < WORD)
      (h : Arena_alloc cfg s size fresh = some (p, t)) : Reachable cfg t
  | resize (s t : State) (ptr old_size new_size fresh p : Nat) (hs : Reachable cfg s)
      (hsize : new_size < WORD)
      (h : Arena_resize cfg s ptr old_size new_size fresh = some (p, t))
      (hcopy : ResizeWithoutCopy cfg s ptr old_size new_size ∨ HeadersClear t p old_size) :
      Reachable cfg t
  | reset (s t : State) (hs : Reachable cfg s) (h : Arena_reset s = some t) : Reachable cfg t

/-- The renaming of the chain when the chunk `N` moves to `ret`: `N` becomes `ret`, every
other address stays. -/
def moved (N ret : Nat) (x : Nat) : Nat := if x = N then ret else x

/-- An example state with three chunks and a used cursor: the two-chunk example state
after a request of `100` bytes, served by `current`, and a request of `20000` bytes, served
by a new region at `3145728`. -/
def threeChunkArena : State :=
  (((Arena_alloc defaultConfig twoChunkArena 100 0).bind fun r =>
    Arena_alloc defaultConfig r.2 20000 3145728).map Prod.snd).getD twoChunkArena

/-- An example state with a cached chunk: a fresh default arena after a request of `32768`
bytes, served by a region at `2097152`, and a reset. -/
def cachedChunkArena : State :=
  (((Arena_alloc defaultConfig (Arena_created defaultConfig emptyHeap 1048576) 32768
    2097152).bind fun r => Arena_reset r.2)).getD (Arena_created defaultConfig emptyHeap 1048576)

/-- An example state after a copy: a fresh default arena after `A = alloc(100)`,
`B = alloc(50)` and `resize(A, 100, 60)`, which allocates at `1048768` and copies `100`
bytes from `A`. -/
def copiedArena : State :=
  singleChunk defaultConfig emptyHeap 1048576 1048828 1048768
    (fun a => if 1048768 ≤ a ∧ a < 1048768 + 100 then emptyHeap.mem (1048608 + (a - 1048768))
      else emptyHeap.mem a)

/-- An example state for the fallback resize: a default arena over a heap whose byte `a`
holds `a % 251`, after a request of `32768` bytes served by a region at `2097152`. -/
def largeChunkArena : State :=
  ((Arena_alloc defaultConfig
    (Arena_created defaultConfig { emptyHeap with mem := fun a => a % 251 } 1048576) 32768
    2097152).map Prod.snd).getD (Arena_created defaultConfig emptyHeap 1048576)

/-! ## Machine word lemmas -/

/-- The number of machine words, as a numeral. -/
theorem WORD_eq : WORD = 18446744073709551616 := by decide

/-- The address limit, as a numeral. -/
theorem ADDR_LIMIT_eq : ADDR_LIMIT = 9223372036854775808 := by decide

/-- Word addition is addition when the sum fits a word. -/
theorem wadd_eq {a b : Nat} (h : a + b < WORD) : wadd a b = a + b := by
  unfold wadd; exact Nat.mod_eq_of_lt h

/-- Word subtraction is subtraction when nothing is borrowed. -/
theorem wsub_eq {a b : Nat} (hb : b ≤ a) (ha : a < WORD) : wsub a b = a - b := by
  unfold wsub; rw [WORD_eq] at *; omega

/-- Subtracting what was added gives the word back, wrapped or not. -/
theorem wsub_wadd_cancel {p n : Nat} (hp : p < WORD) : wsub (wadd p n) n = p := by
  unfold wsub wadd; rw [WORD_eq] at *; omega

/-- The payload starts 32 bytes after the header. -/
theorem data_eq {a : Nat} (h : a + 32 < WORD) : data a = a + 32 := by
  unfold data sizeof_ArenaNode; exact wadd_eq h

/-- Masking with `2 ^ k - 1` is the remainder modulo `2 ^ k`. -/
theorem land_mask (x k : Nat) (hk : k ≤ 5) : x &&& wsub (2 ^ k) 1 = x % 2 ^ k := by
  have h2 : wsub (2 ^ k) 1 = 2 ^ k - 1 := by
    apply wsub_eq
    · exact Nat.one_le_two_pow
    · calc 2 ^ k ≤ 2 ^ 5 := Nat.pow_le_pow_right (by decide) hk
        _ < WORD := by decide
  rw [h2, Nat.and_pow_two_sub_one_eq_mod]

/-- The macro `ARENA_ALIGN` as a remainder. -/
theorem ARENA_ALIGN_eq_mod {cfg : Config} (hc : cfg.Valid) (p : Nat) :
    ARENA_ALIGN cfg p = (WORD - p % WORD) % cfg.ARENA_ALIGNMENT := by
  obtain ⟨hA, -⟩ := hc
  unfold ARENA_ALIGN
  rcases hA with h | h | h | h | h | h <;> rw [h]
  · have := land_mask (wneg p) 0 (by decide); simp only [pow_zero] at this; rw [this]; simp [Nat.mod_one]
  · have := land_mask (wneg p) 1 (by decide); simp only [pow_one] at this; rw [this]; unfold wneg; rw [WORD_eq]; omega
  · have := land_mask (wneg p) 2 (by decide); norm_num at this; rw [this]; unfold wneg; rw [WORD_eq]; omega
  · have := land_mask (wneg p) 3 (by decide); norm_num at this; rw [this]; unfold wneg; rw [WORD_eq]; omega
  · have := land_mask (wneg p) 4 (by decide); norm_num at this; rw [this]; unfold wneg; rw [WORD_eq]; omega
  · have := land_mask (wneg p) 5 (by decide); norm_num at this; rw [this]; unfold wneg; rw [WORD_eq]; omega

/-- The macro `ARENA_NODE_SIZE` is 32 in every valid configuration. -/
theorem ARENA_NODE_SIZE_eq {cfg : Config} (hc : cfg.Valid) : ARENA_NODE_SIZE cfg = 32 := by
  unfold ARENA_NODE_SIZE
  rw [ARENA_ALIGN_eq_mod hc]
  obtain ⟨hA, -⟩ := hc
  unfold wadd sizeof_ArenaNode
  rw [WORD_eq]
  rcases hA with h | h | h | h | h | h <;> rw [h]

/-- The padding is less than the alignment. -/
theorem ARENA_ALIGN_lt {cfg : Config} (hc : cfg.Valid) (p : Nat) :
    ARENA_ALIGN cfg p < cfg.ARENA_ALIGNMENT ∧ ARENA_ALIGN cfg p < 32 := by
  rw [ARENA_ALIGN_eq_mod hc]
  obtain ⟨hA, -⟩ := hc
  rw [WORD_eq]
  rcases hA with h | h | h | h | h | h <;> rw [h] <;> omega

/-- Aligning a cursor below the address limit does not wrap. -/
theorem alignUp_eq {cfg : Config} (hc : cfg.Valid) {p : Nat} (hp : p < ADDR_LIMIT) :
    alignUp cfg p = p + ARENA_ALIGN cfg p := by
  have := (ARENA_ALIGN_lt hc p).2
  unfold alignUp
  apply wadd_eq
  rw [WORD_eq]; rw [ADDR_LIMIT_eq] at hp; omega

/-- The aligned cursor is a multiple of the alignment. -/
theorem alignUp_dvd {cfg : Config} (hc : cfg.Valid) {p : Nat} (hp : p < ADDR_LIMIT) :
    cfg.ARENA_ALIGNMENT ∣ alignUp cfg p := by
  rw [alignUp_eq hc hp, ARENA_ALIGN_eq_mod hc]
  obtain ⟨hA, -⟩ := hc
  rw [WORD_eq]; rw [ADDR_LIMIT_eq] at hp
  rcases hA with h | h | h | h | h | h <;> rw [h] <;> omega

/-- An aligned address needs no padding. -/
theorem ARENA_ALIGN_of_dvd {cfg : Config} (hc : cfg.Valid) {p : Nat}
    (hd : cfg.ARENA_ALIGNMENT ∣ p) : ARENA_ALIGN cfg p = 0 := by
  rw [ARENA_ALIGN_eq_mod hc]
  obtain ⟨hA, -⟩ := hc
  rw [WORD_eq]
  rcases hA with h | h | h | h | h | h <;> rw [h] at hd ⊢ <;> omega

/-- The padding of `p + n` for an aligned `p` is the padding of `n`. -/
theorem ARENA_ALIGN_add {cfg : Config} (hc : cfg.Valid) {p n : Nat}
    (hd : cfg.ARENA_ALIGNMENT ∣ p) : ARENA_ALIGN cfg (p + n) = ARENA_ALIGN cfg n := by
  rw [ARENA_ALIGN_eq_mod hc, ARENA_ALIGN_eq_mod hc]
  obtain ⟨hA, -⟩ := hc
  rw [WORD_eq]
  rcases hA with h | h | h | h | h | h <;> rw [h] at hd ⊢ <;> omega

/-- The default configuration is valid. -/
theorem defaultConfig_valid : defaultConfig.Valid :=
  ⟨Or.inr (Or.inr (Or.inr (Or.inl rfl))), by decide⟩

/-- The configuration of the end-to-end scenario is valid. -/
theorem scenarioConfig_valid : scenarioConfig.Valid :=
  ⟨Or.inr (Or.inr (Or.inr (Or.inl rfl))), by decide⟩

/-! ## The operations in closed form -/

/-- The function `Arena_create` when the backend answers with a non-null address. -/
theorem Arena_create_eq (cfg : Config) (h : Heap) {fresh : Nat} (hf : fresh ≠ 0) :
    Arena_create cfg h fresh = some (Arena_created cfg h fresh) := by
  simp [Arena_create, Arena_created, ARENA_BACKEND_ALLOC, hf, State.setPrev, State.setNext,
    State.setPos, State.setEnd, State.setNode, bind, Option.bind]

/-- The function `Arena_create_node` with an empty free list: a new region. -/
theorem create_node_fresh (cfg : Config) (s : State) (size : Nat) {fresh : Nat}
    (hfree : s.free = 0) (hf : fresh ≠ 0) :
    Arena_create_node cfg s size fresh = some (fresh,
      { s with
        nodes := Function.update s.nodes fresh (some ⟨0, 0, 0, wadd (data fresh) size⟩)
        live := (fresh, wadd (ARENA_NODE_SIZE cfg) size) :: s.live
        log := BackendCall.alloc (wadd (ARENA_NODE_SIZE cfg) size) fresh :: s.log }) := by
  simp [Arena_create_node, hfree, ARENA_BACKEND_ALLOC, hf, State.setEnd, State.setNode]

/-- The function `Arena_create_node` when the head of the free list is large enough. -/
theorem create_node_reuse (cfg : Config) (s : State) (size fresh : Nat) (n : ArenaNode)
    (hfree : s.free ≠ 0) (hn : s.nodes s.free = some n)
    (hcap : size ≤ wsub n.end_ (data s.free)) :
    Arena_create_node cfg s size fresh = some (s.free, { s with free := n.prev }) := by
  simp [Arena_create_node, hfree, hn, hcap]

/-- The function `Arena_create_node` when the head of the free list is too small: it is
released, and a new region is obtained. -/
theorem create_node_evict (cfg : Config) (s : State) (size : Nat) {fresh : Nat} (n : ArenaNode)
    (hfree : s.free ≠ 0) (hn : s.nodes s.free = some n)
    (hcap : ¬ size ≤ wsub n.end_ (data s.free)) (hf : fresh ≠ 0) :
    Arena_create_node cfg s size fresh = some (fresh,
      { s with
        free := n.prev
        nodes := Function.update (Function.update s.nodes s.free none) fresh
          (some ⟨0, 0, 0, wadd (data fresh) size⟩)
        live := (fresh, wadd (ARENA_NODE_SIZE cfg) size) :: s.live.filter fun r => r.1 ≠ s.free
        log := BackendCall.alloc (wadd (ARENA_NODE_SIZE cfg) size) fresh ::
          BackendCall.dealloc s.free (wsub (wadd (ARENA_NODE_SIZE cfg) n.end_) (data s.free)) ::
          s.log }) := by
  simp [Arena_create_node, hfree, hn, hcap, ARENA_BACKEND_DEALLOC, ARENA_BACKEND_ALLOC, hf,
    State.setEnd, State.setNode]

/-- The small path of `Arena_alloc` when the request fits the current chunk. -/
theorem alloc_small_fit (cfg : Config) (s : State) (size fresh : Nat) (c : ArenaNode)
    (hsz : size < cfg.ARENA_MAX_SIZE) (hc : s.nodes s.current = some c)
    (hfit : wadd (alignUp cfg c.pos) size ≤ c.end_) :
    Arena_alloc cfg s size fresh =
      some (alignUp cfg c.pos,
        { s with
          last_allocation := alignUp cfg c.pos
          nodes := Function.update s.nodes s.current
            (some { c with pos := wadd (alignUp cfg c.pos) size }) }) := by
  unfold alignUp at *
  unfold Arena_alloc
  rw [if_neg (by omega)]
  simp [State.setPos, State.setNode, hc, bind, Option.bind, Nat.not_lt.mpr hfit]

/-- The small path of `Arena_alloc` when the request does not fit the current chunk, in terms
of the state `t` that `Arena_create_node` leaves. -/
theorem alloc_small_new (cfg : Config) (s : State) (size fresh : Nat) (c : ArenaNode)
    (node : Nat) (t : State) (n d : ArenaNode)
    (hsz : size < cfg.ARENA_MAX_SIZE) (hc : s.nodes s.current = some c)
    (hfit : ¬ wadd (alignUp cfg c.pos) size ≤ c.end_)
    (hcreate : Arena_create_node cfg (s.setNode s.current { c with pos := alignUp cfg c.pos })
      cfg.ARENA_MAX_SIZE fresh = some (node, t))
    (hn : t.nodes node = some n) (hd : t.nodes t.current = some d) (hne : node ≠ t.current) :
    Arena_alloc cfg s size fresh = some (data node,
      { t with
        current := node
        last_allocation := data node
        nodes := Function.update (Function.update t.nodes t.current (some { d with next := node }))
          node (some ⟨t.current, 0, wadd (data node) size, n.end_⟩) }) := by
  unfold alignUp at *
  unfold Arena_alloc
  rw [if_neg (by omega)]
  simp only [State.setNode] at hcreate
  simp [State.setPos, State.setNext, State.setPrev, State.setNode, hc, bind, Option.bind,
    Nat.lt_of_not_le hfit, hcreate, hn, hd, hne, Ne.symm hne, Function.update_noteq]
  rw [Function.update_comm hne, Function.update_idem]

/-- The large path of `Arena_alloc` when `current` has no predecessor. -/
theorem alloc_large_last (cfg : Config) (s : State) (size fresh : Nat)
    (node : Nat) (t : State) (n c : ArenaNode)
    (hsz : cfg.ARENA_MAX_SIZE ≤ size)
    (hcreate : Arena_create_node cfg s size fresh = some (node, t))
    (hn : t.nodes node = some n) (hc : t.nodes t.current = some c) (hne : node ≠ t.current)
    (hprev : c.prev = 0) :
    Arena_alloc cfg s size fresh = some (data node,
      { t with
        last := node
        last_allocation := data node
        nodes := Function.update (Function.update t.nodes t.current (some { c with prev := node }))
          node (some ⟨0, t.current, wadd (data node) size, n.end_⟩) }) := by
  unfold Arena_alloc
  rw [if_pos hsz]
  simp [State.setPos, State.setNext, State.setPrev, State.setNode, hc, bind, Option.bind,
    hcreate, hn, hne, Ne.symm hne, Function.update_noteq, hprev]
  rw [Function.update_comm hne, Function.update_idem]

/-- The large path of `Arena_alloc` when `current` has a predecessor. -/
theorem alloc_large_mid (cfg : Config) (s : State) (size fresh : Nat)
    (node : Nat) (t : State) (n c q : ArenaNode)
    (hsz : cfg.ARENA_MAX_SIZE ≤ size)
    (hcreate : Arena_create_node cfg s size fresh = some (node, t))
    (hn : t.nodes node = some n) (hc : t.nodes t.current = some c) (hne : node ≠ t.current)
    (hprev : c.prev ≠ 0) (hq : t.nodes c.prev = some q) (hqn : c.prev ≠ node)
    (hqc : c.prev ≠ t.current) :
    Arena_alloc cfg s size fresh = some (data node,
      { t with
        last_allocation := data node
        nodes := Function.update
          (Function.update (Function.update t.nodes t.current (some { c with prev := node }))
            node (some ⟨c.prev, t.current, wadd (data node) size, n.end_⟩))
          c.prev (some { q with next := node }) }) := by
  unfold Arena_alloc
  rw [if_pos hsz]
  simp [State.setPos, State.setNext, State.setPrev, State.setNode, hc, bind, Option.bind,
    hcreate, hn, hne, Ne.symm hne, Function.update_noteq, hprev, hq, hqn, hqc]
  rw [Function.update_comm hne, Function.update_idem]

/-- The in-place path of `Arena_resize`. -/
theorem resize_inplace (cfg : Config) (s : State) (ptr old_size new_size fresh : Nat)
    (c : ArenaNode) (hlarge : ¬ (cfg.ARENA_MAX_SIZE ≤ old_size ∧ cfg.ARENA_MAX_SIZE < new_size))
    (hptr : ptr ≠ 0) (hlast : ptr = s.last_allocation) (hc : s.nodes s.current = some c)
    (hfit : wadd (wsub c.pos old_size) new_size ≤ c.end_) :
    Arena_resize cfg s ptr old_size new_size fresh = some (ptr,
      s.setNode s.current { c with pos := wadd (wsub c.pos old_size) new_size }) := by
  unfold Arena_resize
  rw [if_neg hlarge]
  simp [State.setPos, State.setNode, hc, bind, Option.bind, hptr, hlast.symm, hfit]

/-- The fallback path of `Arena_resize` for a pointer that is not `last_allocation`. -/
theorem resize_fallback (cfg : Config) (s : State) (ptr old_size new_size fresh : Nat)
    (hlarge : ¬ (cfg.ARENA_MAX_SIZE ≤ old_size ∧ cfg.ARENA_MAX_SIZE < new_size))
    (hptr : ¬ (ptr ≠ 0 ∧ ptr = s.last_allocation)) :
    Arena_resize cfg s ptr old_size new_size fresh =
      (Arena_alloc cfg s new_size fresh).map fun r => (r.1, ARENA_MEMCPY r.2 r.1 ptr old_size) := by
  unfold Arena_resize
  rw [if_neg hlarge]
  simp only [hptr, if_false, bind, Option.bind, pure]
  cases Arena_alloc cfg s new_size fresh <;> rfl

/-- The function `Arena_reset` on an arena with a single chunk. -/
theorem reset_single (s : State) (c : ArenaNode) (hlast : s.current = s.last)
    (hc : s.nodes s.current = some c) :
    Arena_reset s = some
      { s with
        last_allocation := 0
        nodes := Function.update s.nodes s.current (some { c with pos := data s.current }) } := by
  have hl : s.nodes s.last = some c := hlast ▸ hc
  simp [Arena_reset, hlast, hl, State.setPos, State.setNode, bind, Option.bind]

/-- The function `Arena_reset` on an arena with several chunks. -/
theorem reset_multi (s : State) (c l : ArenaNode) (hlast : s.current ≠ s.last)
    (hc : s.nodes s.current = some c) (hl : s.nodes s.last = some l) :
    Arena_reset s = some
      { s with
        free := c.prev
        last := s.current
        last_allocation := 0
        nodes := Function.update (Function.update s.nodes s.last (some { l with prev := s.free }))
          s.current (some ⟨0, 0, data s.current, c.end_⟩) } := by
  simp [Arena_reset, hlast, hc, hl, State.setPos, State.setPrev, State.setNext, State.setNode,
    bind, Option.bind, Function.update_noteq]

/-! ## Paths along `prev` links -/

/-- Unfolding of a non-empty `prev` path. -/
theorem PrevPath_cons {nodes : Nat → Option ArenaNode} {a b : Nat} {l : List Nat}
    (h : PrevPath nodes a (b :: l)) :
    a = b ∧ a ≠ 0 ∧ ∃ n, nodes a = some n ∧ PrevPath nodes n.prev l := h

/-- Every node of a `prev` path is a live node at a non-null address. -/
theorem PrevPath.mem_live {nodes : Nat → Option ArenaNode} :
    ∀ {l : List Nat} {a : Nat}, PrevPath nodes a l → ∀ x ∈ l, x ≠ 0 ∧ ∃ n, nodes x = some n := by
  intro l
  induction l with
  | nil => intro a _ x hx; simp at hx
  | cons b l ih =>
    intro a h x hx
    obtain ⟨hab, h0, n, hn, hp⟩ := PrevPath_cons h
    subst hab
    rcases List.mem_cons.mp hx with rfl | hx
    · exact ⟨h0, n, hn⟩
    · exact ih hp x hx

/-- A `prev` path only depends on the `prev` links of its own nodes. -/
theorem PrevPath.congr {nodes nodes' : Nat → Option ArenaNode} :
    ∀ {l : List Nat} {start : Nat}, PrevPath nodes start l →
      (∀ x ∈ l, ∀ n, nodes x = some n → ∃ m, nodes' x = some m ∧ m.prev = n.prev) →
      PrevPath nodes' start l := by
  intro l
  induction l with
  | nil => intro start h _; exact h
  | cons b l ih =>
    intro start h hc
    obtain ⟨hab, h0, n, hn, hp⟩ := PrevPath_cons h
    subst hab
    obtain ⟨m, hm, hmp⟩ := hc start (List.mem_cons_self _ _) n hn
    refine ⟨rfl, h0, m, hm, ?_⟩
    rw [hmp]
    exact ih hp (fun x hx => hc x (List.mem_cons_of_mem _ hx))

/-- A `prev` path survives any change of headers outside of it. -/
theorem PrevPath.frame {nodes nodes' : Nat → Option ArenaNode} {l : List Nat} {start : Nat}
    (h : PrevPath nodes start l) (hsame : ∀ x ∈ l, nodes' x = nodes x) :
    PrevPath nodes' start l :=
  h.congr fun x hx n hn => ⟨n, by rw [hsame x hx]; exact hn, rfl⟩

/-- Replacing a header by one with the same `prev` link keeps every `prev` path. -/
theorem PrevPath.update_same_prev {nodes : Nat → Option ArenaNode} {a : Nat} {n v : ArenaNode}
    (hn : nodes a = some n) (hv : v.prev = n.prev) {l : List Nat} {start : Nat}
    (h : PrevPath nodes start l) : PrevPath (Function.update nodes a (some v)) start l := by
  refine h.congr ?_
  intro x _ m hm
  by_cases hx : x = a
  · subst hx
    rw [hn] at hm
    cases hm
    exact ⟨v, by simp, hv⟩
  · exact ⟨m, by rw [Function.update_noteq hx]; exact hm, rfl⟩

/-- Storing a header at an address outside a `prev` path leaves the path in place. -/
theorem PrevPath.update_of_not_mem {nodes : Nat → Option ArenaNode} {a : Nat}
    {v : Option ArenaNode} :
    ∀ {l : List Nat} {start : Nat}, PrevPath nodes start l → a ∉ l →
      PrevPath (Function.update nodes a v) start l := by
  intro l
  induction l with
  | nil => intro start h _; exact h
  | cons b l ih =>
    intro start h ha
    obtain ⟨hab, h0, n, hn, hp⟩ := PrevPath_cons h
    have hne : b ≠ a := fun h => ha (h ▸ List.mem_cons_self _ _)
    refine ⟨hab, h0, n, ?_, ih hp (fun h => ha (List.mem_cons_of_mem _ h))⟩
    rw [hab, Function.update_noteq hne]
    rw [← hab]; exact hn

/-- Pointing the `prev` link of the last node of a path to the start of a second path
joins the two paths. -/
theorem PrevPath.join {nodes : Nat → Option ArenaNode} {f : Nat} {fl : List Nat}
    (hfl : PrevPath nodes f fl) {x : Nat} {n : ArenaNode} (hx : nodes x = some n)
    (hxf : x ∉ fl) :
    ∀ {l : List Nat} {start : Nat}, PrevPath nodes start l → l.getLast? = some x → l.Nodup →
      PrevPath (Function.update nodes x (some { n with prev := f })) start (l ++ fl) := by
  intro l
  induction l with
  | nil => intro start _ hl _; simp at hl
  | cons b l ih =>
    intro start h hl hnd
    obtain ⟨hab, h0, m, hm, hp⟩ := PrevPath_cons h
    subst hab
    cases l with
    | nil =>
      simp only [List.getLast?_singleton, Option.some.injEq] at hl
      subst hl
      refine ⟨rfl, h0, { n with prev := f }, by simp, ?_⟩
      exact hfl.update_of_not_mem hxf
    | cons c r =>
      rw [List.getLast?_cons_cons] at hl
      have hxm : x ∈ c :: r := List.mem_of_getLast?_eq_some hl
      have hne : start ≠ x := by
        intro h
        rw [List.nodup_cons] at hnd
        exact hnd.1 (h ▸ hxm)
      refine ⟨rfl, h0, m, by rw [Function.update_noteq hne]; exact hm, ?_⟩
      exact ih hp hl (List.nodup_cons.mp hnd).2

/-! ## Valid states -/

/-- The first chunk of the chain of a valid state is `current`, and it is live. -/
theorem ValidWith.current_node {cfg : Config} {s : State} {chain fl : List Nat}
    (hv : ValidWith cfg s chain fl) :
    ∃ rest c, chain = s.current :: rest ∧ s.current ≠ 0 ∧ s.nodes s.current = some c ∧
      PrevPath s.nodes c.prev rest ∧ c.next = 0 ∧
      s.current + 32 ≤ c.pos ∧ c.pos ≤ c.end_ ∧ c.end_ < ADDR_LIMIT := by
  cases chain with
  | nil => have := hv.last_eq; simp at this
  | cons b rest =>
    obtain ⟨hab, h0, n, hn, hp⟩ := PrevPath_cons hv.chain_path
    subst hab
    have hpos := hv.cur_pos n hn
    have hok := hv.node_ok s.current (by simp) n hn
    exact ⟨rest, n, rfl, h0, hn, hp, hv.cur_next n hn, hpos.1, hpos.2, hok.2⟩

/-- The free list of a valid state is empty, or starts with a live chunk outside the chain. -/
theorem ValidWith.free_node {cfg : Config} {s : State} {chain fl : List Nat}
    (hv : ValidWith cfg s chain fl) :
    (s.free = 0 ∧ fl = []) ∨
    ∃ rest n, fl = s.free :: rest ∧ s.free ≠ 0 ∧ s.nodes s.free = some n ∧
      PrevPath s.nodes n.prev rest ∧ s.free ∉ chain ∧
      s.free + 32 ≤ n.end_ ∧ n.end_ < ADDR_LIMIT := by
  cases fl with
  | nil => exact Or.inl ⟨hv.free_path, rfl⟩
  | cons b rest =>
    right
    obtain ⟨hab, h0, n, hn, hp⟩ := PrevPath_cons hv.free_path
    subst hab
    have hok := hv.node_ok s.free (by simp) n hn
    have hnd := hv.nodup
    rw [List.nodup_append] at hnd
    refine ⟨rest, n, rfl, h0, hn, hp, ?_, hok.1, hok.2⟩
    intro hmem
    exact hnd.2.2 hmem (List.mem_cons_self _ _)

/-- In a valid state `last` is a live node of the chain. -/
theorem ValidWith.last_node {cfg : Config} {s : State} {chain fl : List Nat}
    (hv : ValidWith cfg s chain fl) :
    s.last ∈ chain ∧ s.last ≠ 0 ∧ ∃ l, s.nodes s.last = some l := by
  have hm : s.last ∈ chain := List.mem_of_getLast?_eq_some hv.last_eq
  exact ⟨hm, hv.chain_path.mem_live _ hm⟩

/-- In a valid state with `current = last` the chain is the single chunk `current`. -/
theorem ValidWith.single {cfg : Config} {s : State} {chain fl : List Nat}
    (hv : ValidWith cfg s chain fl) (h : s.current = s.last) : chain = [s.current] := by
  obtain ⟨rest, c, hchain, -⟩ := hv.current_node
  cases rest with
  | nil => exact hchain
  | cons q r =>
    exfalso
    have hl := hv.last_eq
    have hnd := hv.nodup
    rw [hchain] at hl hnd
    rw [List.getLast?_cons_cons] at hl
    have hm : s.last ∈ q :: r := List.mem_of_getLast?_eq_some hl
    rw [← h] at hm
    simp only [List.cons_append, List.nodup_cons, List.mem_cons, List.mem_append] at hnd
    simp only [List.mem_cons] at hm
    tauto

/-- A fresh arena is a valid state whose chain is the one initial chunk. -/
theorem Arena_created_valid {cfg : Config} (h : Heap) {node : Nat} (hnode : node ≠ 0)
    (hlimit : node + sizeof_ArenaNode + cfg.ARENA_MAX_SIZE < ADDR_LIMIT) :
    ValidWith cfg (Arena_created cfg h node) [node] [] := by
  have hL := ADDR_LIMIT_eq
  have hW := WORD_eq
  unfold sizeof_ArenaNode at hlimit
  have hdata : data node = node + 32 := data_eq (by omega)
  have hend : wadd (data node) cfg.ARENA_MAX_SIZE = node + 32 + cfg.ARENA_MAX_SIZE := by
    rw [hdata]; exact wadd_eq (by omega)
  have hnode_eq : (Arena_created cfg h node).nodes node =
      some ⟨0, 0, data node, wadd (data node) cfg.ARENA_MAX_SIZE⟩ := by
    simp [Arena_created]
  constructor
  · exact ⟨rfl, hnode, _, hnode_eq, rfl⟩
  · rfl
  · simp
  · rfl
  · intro c hc
    have : (Arena_created cfg h node).current = node := rfl
    rw [this, hnode_eq] at hc
    cases hc; rfl
  · intro a ha n hn
    simp at ha
    subst ha
    rw [hnode_eq] at hn
    cases hn
    unfold sizeof_ArenaNode
    simp only [hend]
    omega
  · intro c hc
    have : (Arena_created cfg h node).current = node := rfl
    rw [this, hnode_eq] at hc
    cases hc
    unfold sizeof_ArenaNode
    rw [this]
    simp only [hend]
    omega

/-- The example state with two chunks is valid. -/
theorem twoChunkArena_valid : ValidWith defaultConfig twoChunkArena [1048576, 2097152] [] := by
  have h1 : twoChunkArena.nodes 1048576 = some ⟨2097152, 0, 1048608, 1064992⟩ := by decide
  have h2 : twoChunkArena.nodes 2097152 = some ⟨0, 1048576, 2113568, 2113568⟩ := by decide
  have hc : twoChunkArena.current = 1048576 := by decide
  constructor
  · exact ⟨hc, by decide, _, h1, rfl, by decide, _, h2, rfl⟩
  · exact (by decide : twoChunkArena.free = 0)
  · decide
  · exact congrArg some (by decide : (2097152 : Nat) = twoChunkArena.last)
  · intro c h
    rw [hc, h1] at h
    cases h; rfl
  · intro a ha n hn
    simp only [List.append_nil, List.mem_cons, List.mem_singleton, List.not_mem_nil,
      or_false] at ha
    rcases ha with rfl | rfl
    · rw [h1] at hn; cases hn; decide
    · rw [h2] at hn; cases hn; decide
  · intro c h
    rw [hc, h1] at h
    cases h; decide

/-- In a valid state no chunk of the chain is the head of the free list. -/
theorem ValidWith.chain_ne_free {cfg : Config} {s : State} {chain fl : List Nat}
    (hv : ValidWith cfg s chain fl) : ∀ a ∈ chain, a ≠ s.free := by
  intro a ha
  rcases hv.free_node with ⟨h0, -⟩ | ⟨r, n, -, -, -, -, hnc, -⟩
  · rw [h0]
    exact (hv.chain_path.mem_live a ha).1
  · exact fun h => hnc (h ▸ ha)

/-- In a valid state no chunk of the tail of the free list is its head. -/
theorem ValidWith.tail_ne_free {cfg : Config} {s : State} {chain fl : List Nat}
    (hv : ValidWith cfg s chain fl) : ∀ a ∈ fl.tail, a ≠ s.free := by
  intro a ha
  rcases hv.free_node with ⟨-, h0⟩ | ⟨r, n, hfl, -, -, -, -, -⟩
  · rw [h0] at ha; simp at ha
  · have hnd := (List.nodup_append.mp hv.nodup).2.1
    rw [hfl] at hnd ha
    simp only [List.tail_cons] at ha
    exact fun h => (List.nodup_cons.mp hnd).1 (h ▸ ha)

/-- What `Arena_create_node` returns in a state whose free list is empty or starts with a
sound chunk, when the backend answers with a usable region. -/
theorem create_node_spec {cfg : Config} (hcfg : cfg.Valid) (s : State) (size fresh : Nat)
    (chain : List Nat)
    (hfree : s.free = 0 ∨ ∃ n, s.nodes s.free = some n ∧ s.free ∉ chain ∧
      s.free + 32 ≤ n.end_ ∧ n.end_ < ADDR_LIMIT)
    (hf0 : fresh ≠ 0) (hfl : fresh + 32 + size < ADDR_LIMIT) (hfc : fresh ∉ chain) :
    ∃ node t n, Arena_create_node cfg s size fresh = some (node, t) ∧
      t.nodes node = some n ∧ node ≠ 0 ∧ node ∉ chain ∧
      node + 32 + size ≤ n.end_ ∧ n.end_ < ADDR_LIMIT ∧
      (∀ a, a ≠ node → a ≠ s.free → t.nodes a = s.nodes a) ∧
      t.current = s.current ∧ t.last = s.last ∧ t.last_allocation = s.last_allocation ∧
      t.mem = s.mem ∧
      ((node = s.free ∧ s.free ≠ 0 ∧ s.nodes s.free = some n ∧ t.log = s.log ∧
          t.live = s.live ∧ t.nodes = s.nodes) ∨
       (node = fresh ∧ n.end_ = fresh + 32 + size ∧
          ∃ l, t.log = BackendCall.alloc (32 + size) fresh :: l)) := by
  have hW := WORD_eq
  have hL := ADDR_LIMIT_eq
  have hdf : data fresh = fresh + 32 := data_eq (by omega)
  have hend : wadd (data fresh) size = fresh + 32 + size := by
    rw [hdf]; exact wadd_eq (by omega)
  have hns : wadd (ARENA_NODE_SIZE cfg) size = 32 + size := by
    rw [ARENA_NODE_SIZE_eq hcfg]; exact wadd_eq (by omega)
  by_cases h0 : s.free = 0
  · refine ⟨fresh, _, ⟨0, 0, 0, wadd (data fresh) size⟩, create_node_fresh cfg s size h0 hf0,
      by simp, hf0, hfc, ?_, ?_, ?_,
      rfl, rfl, rfl, rfl, Or.inr ⟨rfl, ?_, ?_⟩⟩
    · simp only [hend]; omega
    · simp only [hend]; omega
    · intro a ha _; simp [Function.update_noteq ha]
    · simp only [hend]
    · exact ⟨s.log, by simp only [hns]⟩
  · rcases hfree with hz | ⟨n, hn, hnc, hlo, hhi⟩
    · exact absurd hz h0
    · have hd : data s.free = s.free + 32 := data_eq (by omega)
      have hcap : wsub n.end_ (data s.free) = n.end_ - (s.free + 32) := by
        rw [hd]; exact wsub_eq hlo (by omega)
      by_cases hfit : size ≤ wsub n.end_ (data s.free)
      · refine ⟨s.free, _, n, create_node_reuse cfg s size fresh n h0 hn hfit, hn, h0, hnc, ?_,
          hhi, ?_, rfl, rfl, rfl, rfl, Or.inl ⟨rfl, h0, hn, rfl, rfl, rfl⟩⟩
        · rw [hcap] at hfit; omega
        · intro a _ _; rfl
      · refine ⟨fresh, _, ⟨0, 0, 0, wadd (data fresh) size⟩,
          create_node_evict cfg s size n h0 hn hfit hf0, by simp, hf0, hfc,
          ?_, ?_, ?_, rfl, rfl, rfl, rfl, Or.inr ⟨rfl, ?_, ?_⟩⟩
        · simp only [hend]; omega
        · simp only [hend]; omega
        · intro a ha hb; simp [Function.update_noteq ha, Function.update_noteq hb]
        · simp only [hend]
        · exact ⟨BackendCall.dealloc s.free
            (wsub (wadd (ARENA_NODE_SIZE cfg) n.end_) (data s.free)) :: s.log, by simp only [hns]⟩

/-- After `Arena_create_node` the free list is the tail of the free list before. -/
theorem create_node_free_path {cfg : Config} {s : State} {size fresh : Nat} {fl : List Nat}
    (hpath : PrevPath s.nodes s.free fl) (hnd : fl.Nodup) (hft : fresh ∉ fl.tail)
    {node : Nat} {t : State} (h : Arena_create_node cfg s size fresh = some (node, t)) :
    PrevPath t.nodes t.free fl.tail := by
  cases fl with
  | nil =>
    have h0 : s.free = 0 := hpath
    simp only [Arena_create_node, h0, ne_eq, not_true_eq_false, if_false, State.setEnd,
      Option.map_map, Option.map_eq_some'] at h
    obtain ⟨m, -, hm⟩ := h
    have : t.free = 0 := by
      have := (Prod.mk.inj hm).2
      rw [← this]
      simp only [Function.comp, State.setNode, ARENA_BACKEND_ALLOC]
      split <;> exact h0
    exact this
  | cons b r =>
    obtain ⟨hab, h0, n, hn, hp⟩ := PrevPath_cons hpath
    subst hab
    have hr0 : ∀ x ∈ r, x ≠ 0 := fun x hx => (hp.mem_live x hx).1
    have hrb : ∀ x ∈ r, x ≠ s.free := by
      intro x hx hxb
      exact (List.nodup_cons.mp hnd).1 (hxb ▸ hx)
    simp only [List.tail_cons] at hft ⊢
    by_cases hcap : size ≤ wsub n.end_ (data s.free)
    · rw [create_node_reuse cfg s size fresh n h0 hn hcap] at h
      have := (Prod.mk.inj (Option.some.inj h)).2
      rw [← this]
      exact hp
    · by_cases hf : fresh = 0
      · simp [Arena_create_node, h0, hn, hcap, ARENA_BACKEND_DEALLOC, ARENA_BACKEND_ALLOC, hf,
          State.setEnd, State.setNode] at h
        obtain ⟨m, -, hm⟩ := h
        have hm2 := hm.2
        rw [← hm2]
        refine hp.frame ?_
        intro x hx
        simp [Function.update_noteq (hr0 x hx), Function.update_noteq (hrb x hx)]
      · rw [create_node_evict cfg s size n h0 hn hcap hf] at h
        have := (Prod.mk.inj (Option.some.inj h)).2
        rw [← this]
        refine hp.frame ?_
        intro x hx
        have hxf : x ≠ fresh := fun h => hft (h ▸ hx)
        simp [Function.update_noteq hxf, Function.update_noteq (hrb x hx)]

/-- The small path of `Arena_alloc` in a valid state: the call succeeds, the address it
returns is recorded in `last_allocation`, and the cursor of `current` is `size` past it. -/
theorem alloc_small_post {cfg : Config} (hcfg : cfg.Valid) {s : State} {chain fl : List Nat}
    (hv : ValidWith cfg s chain fl) {size fresh : Nat}
    (hfr : FreshFor cfg.ARENA_MAX_SIZE chain fl fresh) (hsz : size < cfg.ARENA_MAX_SIZE) :
    ∃ p t c, Arena_alloc cfg s size fresh = some (p, t) ∧ t.last_allocation = p ∧ p ≠ 0 ∧
      t.nodes t.current = some c ∧ c.pos = p + size ∧ t.current + 32 ≤ p ∧
      c.pos ≤ c.end_ ∧ c.end_ < ADDR_LIMIT := by
  have hW := WORD_eq
  have hL := ADDR_LIMIT_eq
  have hmax : cfg.ARENA_MAX_SIZE < 2 ^ 62 := hcfg.2
  obtain ⟨rest, c, hchain, hcur0, hc, -, -, hlo, hhi, hend⟩ := hv.current_node
  obtain ⟨hf0, hfl, hfc, -⟩ := hfr
  unfold sizeof_ArenaNode at hfl
  have hup := alignUp_eq hcfg (show c.pos < ADDR_LIMIT by omega)
  have hal := (ARENA_ALIGN_lt hcfg c.pos).2
  by_cases hfit : wadd (alignUp cfg c.pos) size ≤ c.end_
  · have hw : wadd (alignUp cfg c.pos) size = alignUp cfg c.pos + size := wadd_eq (by omega)
    refine ⟨_, _, { c with pos := wadd (alignUp cfg c.pos) size },
      alloc_small_fit cfg s size fresh c hsz hc hfit, rfl, by omega, by simp, ?_, ?_, ?_, ?_⟩
    · simp only [hw]
    · simp only; omega
    · simp only; omega
    · simp only; omega
  · have hcm : s.current ∈ chain := by rw [hchain]; exact List.mem_cons_self _ _
    have hfree : (s.setNode s.current { c with pos := alignUp cfg c.pos }).free = 0 ∨
        ∃ n, (s.setNode s.current { c with pos := alignUp cfg c.pos }).nodes
            (s.setNode s.current { c with pos := alignUp cfg c.pos }).free = some n ∧
          (s.setNode s.current { c with pos := alignUp cfg c.pos }).free ∉ chain ∧
          (s.setNode s.current { c with pos := alignUp cfg c.pos }).free + 32 ≤ n.end_ ∧
          n.end_ < ADDR_LIMIT := by
      rcases hv.free_node with ⟨h0, -⟩ | ⟨r, n, -, h0, hn, -, hnc, hlo, hhi⟩
      · exact Or.inl h0
      · right
        have hne : s.free ≠ s.current := fun h => hnc (h ▸ hcm)
        exact ⟨n, by simp [State.setNode, Function.update_noteq hne, hn], hnc, hlo, hhi⟩
    obtain ⟨node, t, n, hcreate, hn, hn0, hnc, hcap, hnend, hframe, htc, -, -, -, -⟩ :=
      create_node_spec hcfg (s.setNode s.current { c with pos := alignUp cfg c.pos })
        cfg.ARENA_MAX_SIZE fresh chain hfree hf0 hfl hfc
    have hne : node ≠ s.current := fun h => hnc (h ▸ hcm)
    have hcf : s.current ≠ s.free := by
      rcases hv.free_node with ⟨h0, -⟩ | ⟨r, n, -, -, -, -, hnc, -⟩
      · rw [h0]; exact hcur0
      · exact fun h => hnc (h ▸ hcm)
    have htcur : t.current = s.current := htc
    have hd : t.nodes t.current = some { c with pos := alignUp cfg c.pos } := by
      rw [htcur, hframe s.current (Ne.symm hne) hcf]
      simp [State.setNode]
    have hdata : data node = node + 32 := data_eq (by omega)
    have hw : wadd (data node) size = node + 32 + size := by
      rw [hdata]; exact wadd_eq (by omega)
    refine ⟨_, _, ⟨t.current, 0, wadd (data node) size, n.end_⟩,
      alloc_small_new cfg s size fresh c node t n _ hsz hc hfit hcreate hn hd (htcur ▸ hne),
      rfl, by omega, by simp, ?_, ?_, ?_, ?_⟩
    · simp only [hw, hdata]; rw [← hdata]; exact hw.trans (by rw [hdata])
    · simp only [hdata]; omega
    · simp only [hw]; omega
    · simp only; omega

/-- A small request that fits the current chunk keeps the state valid, with the same chain
and free list. -/
theorem alloc_small_fit_valid {cfg : Config} (hcfg : cfg.Valid) {s : State}
    {chain fl : List Nat} (hv : ValidWith cfg s chain fl) {size fresh : Nat} {c : ArenaNode}
    (hsz : size < cfg.ARENA_MAX_SIZE) (hc : s.nodes s.current = some c)
    (hfit : wadd (alignUp cfg c.pos) size ≤ c.end_) :
    ∃ p t, Arena_alloc cfg s size fresh = some (p, t) ∧ ValidWith cfg t chain fl := by
  have hW := WORD_eq
  have hL := ADDR_LIMIT_eq
  have hmax : cfg.ARENA_MAX_SIZE < 2 ^ 62 := hcfg.2
  refine ⟨_, _, alloc_small_fit cfg s size fresh c hsz hc hfit, ?_⟩
  obtain ⟨rest, c', hchain, hcur0, hc', -, hnext, hlo, hhi, hend⟩ := hv.current_node
  rw [hc] at hc'
  cases hc'
  have hup := alignUp_eq hcfg (show c.pos < ADDR_LIMIT by omega)
  have hal := (ARENA_ALIGN_lt hcfg c.pos).2
  have hw : wadd (alignUp cfg c.pos) size = alignUp cfg c.pos + size := wadd_eq (by omega)
  constructor
  · exact hv.chain_path.update_same_prev hc
      (rfl : ({ c with pos := wadd (alignUp cfg c.pos) size } : ArenaNode).prev = c.prev)
  · exact hv.free_path.update_same_prev hc
      (rfl : ({ c with pos := wadd (alignUp cfg c.pos) size } : ArenaNode).prev = c.prev)
  · exact hv.nodup
  · exact hv.last_eq
  · intro d hd
    simp at hd
    rw [← hd]
    exact hnext
  · intro a ha n hn
    by_cases hx : a = s.current
    · subst hx
      simp at hn
      rw [← hn]
      exact hv.node_ok s.current ha c hc
    · simp [Function.update_noteq hx] at hn
      exact hv.node_ok a ha n hn
  · intro d hd
    simp at hd
    rw [← hd]
    unfold sizeof_ArenaNode
    simp only
    rw [hw] at hfit ⊢
    omega

/-- A small request that does not fit the current chunk keeps the state valid: the chunk
`Arena_create_node` returns is put in front of the chain, and the free list loses its head. -/
theorem alloc_small_new_valid {cfg : Config} (hcfg : cfg.Valid) {s : State}
    {chain fl : List Nat} (hv : ValidWith cfg s chain fl) {size fresh : Nat} {c : ArenaNode}
    (hfresh : FreshFor cfg.ARENA_MAX_SIZE chain fl fresh)
    (hsz : size < cfg.ARENA_MAX_SIZE) (hc : s.nodes s.current = some c)
    (hfit : ¬ wadd (alignUp cfg c.pos) size ≤ c.end_) :
    ∃ node t, Arena_alloc cfg s size fresh = some (data node, t) ∧
      ValidWith cfg t (node :: chain) fl.tail := by
  have hW := WORD_eq
  have hL := ADDR_LIMIT_eq
  have hmax : cfg.ARENA_MAX_SIZE < 2 ^ 62 := hcfg.2
  obtain ⟨rest, c', hchain, hcur0, hc', -, hnext, hlo, hhi, hend⟩ := hv.current_node
  rw [hc] at hc'
  cases hc'
  have hcm : s.current ∈ chain := by rw [hchain]; exact List.mem_cons_self _ _
  have hnd := hv.nodup
  have hndl : fl.Nodup := (List.nodup_append.mp hnd).2.1
  have hdisj : ∀ x ∈ chain, x ∉ fl := fun x hx => (List.nodup_append.mp hnd).2.2 hx
  have hcf := hv.chain_ne_free
  have htf := hv.tail_ne_free
  -- the state after the cursor was aligned
  have hal_path : PrevPath (s.setNode s.current { c with pos := alignUp cfg c.pos }).nodes
      (s.setNode s.current { c with pos := alignUp cfg c.pos }).free fl :=
    hv.free_path.update_same_prev hc
      (rfl : ({ c with pos := alignUp cfg c.pos } : ArenaNode).prev = c.prev)
  have hfree : (s.setNode s.current { c with pos := alignUp cfg c.pos }).free = 0 ∨
      ∃ n, (s.setNode s.current { c with pos := alignUp cfg c.pos }).nodes
          (s.setNode s.current { c with pos := alignUp cfg c.pos }).free = some n ∧
        (s.setNode s.current { c with pos := alignUp cfg c.pos }).free ∉ chain ∧
        (s.setNode s.current { c with pos := alignUp cfg c.pos }).free + 32 ≤ n.end_ ∧
        n.end_ < ADDR_LIMIT := by
    rcases hv.free_node with ⟨h0, -⟩ | ⟨r, n, -, h0, hn, -, hnc, hlo, hhi⟩
    · exact Or.inl h0
    · right
      have hne : s.free ≠ s.current := fun h => hnc (h ▸ hcm)
      exact ⟨n, by simp [State.setNode, Function.update_noteq hne, hn], hnc, hlo, hhi⟩
  obtain ⟨hf0, hfl, hfc, hft⟩ := hfresh
  unfold sizeof_ArenaNode at hfl
  obtain ⟨node, t, n, hcreate, hn, hn0, hnc, hcap, hnend, hframe, htc, htl, -, -, hcase⟩ :=
    create_node_spec hcfg (s.setNode s.current { c with pos := alignUp cfg c.pos })
      cfg.ARENA_MAX_SIZE fresh chain hfree hf0 hfl hfc
  have hfp : PrevPath t.nodes t.free fl.tail := create_node_free_path hal_path hndl hft hcreate
  have hnt : node ∉ fl.tail := by
    rcases hcase with ⟨h1, -⟩ | ⟨h1, -⟩
    · intro h
      exact htf node h h1
    · rw [h1]; exact hft
  have hne : node ≠ s.current := fun h => hnc (h ▸ hcm)
  have htcur : t.current = s.current := htc
  have htlast : t.last = s.last := htl
  have hd : t.nodes t.current = some { c with pos := alignUp cfg c.pos } := by
    rw [htcur, hframe s.current (Ne.symm hne) (hcf _ hcm)]
    simp [State.setNode]
  have hsame : ∀ a, a ≠ node → a ≠ s.current → a ≠ s.free → t.nodes a = s.nodes a := by
    intro a h1 h2 h3
    rw [hframe a h1 h3]
    simp [State.setNode, Function.update_noteq h2]
  have hdata : data node = node + 32 := data_eq (by omega)
  have hw : wadd (data node) size = node + 32 + size := by
    rw [hdata]; exact wadd_eq (by omega)
  refine ⟨node, _,
    alloc_small_new cfg s size fresh c node t n _ hsz hc hfit hcreate hn hd (htcur ▸ hne), ?_⟩
  constructor
  · refine ⟨rfl, hn0, ⟨t.current, 0, wadd (data node) size, n.end_⟩, by simp, ?_⟩
    simp only [htcur]
    refine hv.chain_path.congr ?_
    intro x hx m hm
    have hxn : x ≠ node := fun h => hnc (h ▸ hx)
    by_cases hxc : x = s.current
    · subst hxc
      rw [hc] at hm
      cases hm
      exact ⟨{ c with pos := alignUp cfg c.pos, next := node },
        by simp [Function.update_noteq hxn, htcur], rfl⟩
    · exact ⟨m, by simp [Function.update_noteq hxn, Function.update_noteq hxc,
        hsame x hxn hxc (hcf x hx), hm], rfl⟩
  · refine hfp.frame ?_
    intro x hx
    have hxn : x ≠ node := fun h => hnt (h ▸ hx)
    have hxc : x ≠ s.current := fun h => hdisj _ hcm (h ▸ List.mem_of_mem_tail hx)
    simp [Function.update_noteq hxn, htcur, Function.update_noteq hxc]
  · have hsub : (chain ++ fl.tail).Nodup :=
      hnd.sublist (List.Sublist.append_left (List.tail_sublist fl) chain)
    simp only [List.cons_append, List.nodup_cons, List.mem_append]
    exact ⟨fun h => h.elim hnc hnt, hsub⟩
  · have := hv.last_eq
    rw [hchain] at this ⊢
    rw [List.getLast?_cons_cons]
    simpa [htlast] using this
  · intro d hd'
    simp at hd'
    rw [← hd']
  · intro a ha m hm
    simp only [List.cons_append, List.mem_cons, List.mem_append] at ha
    by_cases hxn : a = node
    · subst hxn
      simp at hm
      rw [← hm]
      unfold sizeof_ArenaNode
      simp only
      omega
    · by_cases hxc : a = s.current
      · subst hxc
        simp [Function.update_noteq hxn, htcur] at hm
        rw [← hm]
        exact hv.node_ok s.current (List.mem_append_left _ hcm) c hc
      · have hmem : a ∈ chain ++ fl := by
          rcases ha with h | h | h
          · exact absurd h hxn
          · exact List.mem_append_left _ h
          · exact List.mem_append_right _ (List.mem_of_mem_tail h)
        have haf : a ≠ s.free := by
          rcases ha with h | h | h
          · exact absurd h hxn
          · exact hcf a h
          · exact htf a h
        simp [Function.update_noteq hxn, htcur, Function.update_noteq hxc,
          hsame a hxn hxc haf] at hm
        exact hv.node_ok a hmem m hm
  · intro d hd'
    simp at hd'
    rw [← hd']
    unfold sizeof_ArenaNode
    simp only [hw]
    omega

/-- A request of `ARENA_MAX_SIZE` bytes or more keeps the state valid: the chunk
`Arena_create_node` returns is linked directly behind `current`, and the free list loses its
head. -/
theorem alloc_large_valid {cfg : Config} (hcfg : cfg.Valid) {s : State}
    {chain fl : List Nat} (hv : ValidWith cfg s chain fl) {size fresh : Nat}
    (hfresh : FreshFor size chain fl fresh) (hsz : cfg.ARENA_MAX_SIZE ≤ size) :
    ∃ node t rest, chain = s.current :: rest ∧
      Arena_alloc cfg s size fresh = some (data node, t) ∧
      ValidWith cfg t (s.current :: node :: rest) fl.tail := by
  have hW := WORD_eq
  have hL := ADDR_LIMIT_eq
  obtain ⟨rest, c, hchain, hcur0, hc, hpath, hnext, hlo, hhi, hend⟩ := hv.current_node
  have hcm : s.current ∈ chain := by rw [hchain]; exact List.mem_cons_self _ _
  have hnd := hv.nodup
  have hndl : fl.Nodup := (List.nodup_append.mp hnd).2.1
  have hndc : (s.current :: rest).Nodup := hchain ▸ (List.nodup_append.mp hnd).1
  have hdisj : ∀ x ∈ chain, x ∉ fl := fun x hx => (List.nodup_append.mp hnd).2.2 hx
  have hcf := hv.chain_ne_free
  have htf := hv.tail_ne_free
  have hfree : s.free = 0 ∨ ∃ n, s.nodes s.free = some n ∧ s.free ∉ chain ∧
      s.free + 32 ≤ n.end_ ∧ n.end_ < ADDR_LIMIT := by
    rcases hv.free_node with ⟨h0, -⟩ | ⟨r, n, -, h0, hn, -, hnc, hlo, hhi⟩
    · exact Or.inl h0
    · exact Or.inr ⟨n, hn, hnc, hlo, hhi⟩
  obtain ⟨hf0, hfl, hfc, hft⟩ := hfresh
  unfold sizeof_ArenaNode at hfl
  obtain ⟨node, t, n, hcreate, hn, hn0, hnc, hcap, hnend, hframe, htc, htl, -, -, hcase⟩ :=
    create_node_spec hcfg s size fresh chain hfree hf0 hfl hfc
  have hfp : PrevPath t.nodes t.free fl.tail :=
    create_node_free_path hv.free_path hndl hft hcreate
  have hnt : node ∉ fl.tail := by
    rcases hcase with ⟨h1, -⟩ | ⟨h1, -⟩
    · intro h
      exact htf node h h1
    · rw [h1]; exact hft
  have hne : node ≠ s.current := fun h => hnc (h ▸ hcm)
  have hd : t.nodes t.current = some c := by
    rw [htc, hframe s.current (Ne.symm hne) (hcf _ hcm)]
    exact hc
  have hdata : data node = node + 32 := data_eq (by omega)
  have hw : wadd (data node) size = node + 32 + size := by
    rw [hdata]; exact wadd_eq (by omega)
  have hrestm : ∀ x ∈ rest, x ∈ chain := fun x hx => hchain ▸ List.mem_cons_of_mem _ hx
  have hrc : ∀ x ∈ rest, x ≠ s.current := fun x hx h => (List.nodup_cons.mp hndc).1 (h ▸ hx)
  have hrn : ∀ x ∈ rest, x ≠ node := fun x hx h => hnc (h ▸ hrestm x hx)
  have hsub : (chain ++ fl.tail).Nodup :=
    hnd.sublist (List.Sublist.append_left (List.tail_sublist fl) chain)
  have hnodup : (s.current :: node :: rest ++ fl.tail).Nodup := by
    rw [hchain] at hsub hnc
    simp only [List.cons_append, List.nodup_cons, List.mem_cons, List.mem_append] at hsub hnc ⊢
    refine ⟨?_, ?_, hsub.2⟩
    · rintro (h | h)
      · exact hne h.symm
      · exact hsub.1 h
    · rintro (h | h)
      · exact hnc (Or.inr h)
      · exact hnt h
  -- the part of validity that does not depend on the shape of the chain
  have hbase : ∀ (u : State), u.current = s.current → u.free = t.free →
      (∀ x, x ≠ s.current → x ≠ node → x ∉ rest → u.nodes x = t.nodes x) →
      (∃ v, u.nodes s.current = some v ∧ v.prev = node ∧ v.next = c.next ∧ v.pos = c.pos ∧
        v.end_ = c.end_) →
      (∃ v, u.nodes node = some v ∧ v.prev = c.prev ∧ v.end_ = n.end_) →
      (∀ x ∈ rest, ∀ m, s.nodes x = some m →
        ∃ v, u.nodes x = some v ∧ v.prev = m.prev ∧ v.end_ = m.end_) →
      (s.current :: node :: rest).getLast? = some u.last →
      ValidWith cfg u (s.current :: node :: rest) fl.tail := by
    intro u hucur hufree huframe hucn hun hurest hulast
    obtain ⟨vc, hvc, hvcp, hvcn, hvcpos, hvce⟩ := hucn
    obtain ⟨vn, hvn, hvnp, hvne⟩ := hun
    constructor
    · rw [hucur]
      refine ⟨rfl, hcur0, vc, hvc, ?_⟩
      rw [hvcp]
      refine ⟨rfl, hn0, vn, hvn, ?_⟩
      rw [hvnp]
      refine hpath.congr ?_
      intro x hx m hm
      obtain ⟨v, h1, h2, -⟩ := hurest x hx m hm
      exact ⟨v, h1, h2⟩
    · rw [hufree]
      refine hfp.frame ?_
      intro x hx
      have hxfl : x ∈ fl := List.mem_of_mem_tail hx
      refine huframe x (fun h => hdisj _ hcm (h ▸ hxfl)) (fun h => hnt (h ▸ hx)) ?_
      exact fun h => hdisj _ (hrestm x h) hxfl
    · exact hnodup
    · exact hulast
    · intro d hd'
      rw [hucur, hvc] at hd'
      cases hd'
      rw [hvcn]; exact hnext
    · intro a ha m hm
      simp only [List.cons_append, List.mem_cons, List.mem_append] at ha
      rcases ha with h | h | h | h
      · subst h
        rw [hvc] at hm
        cases hm
        rw [hvce]
        exact hv.node_ok s.current (List.mem_append_left _ hcm) c hc
      · subst h
        rw [hvn] at hm
        cases hm
        rw [hvne]
        unfold sizeof_ArenaNode
        omega
      · obtain ⟨-, m0, hm0⟩ := hv.chain_path.mem_live a (hrestm a h)
        obtain ⟨v, h1, -, h3⟩ := hurest a h m0 hm0
        rw [h1] at hm
        cases hm
        rw [h3]
        exact hv.node_ok a (List.mem_append_left _ (hrestm a h)) m0 hm0
      · have hafl : a ∈ fl := List.mem_of_mem_tail h
        have h1 : a ≠ s.current := fun e => hdisj _ hcm (e ▸ hafl)
        have h2 : a ≠ node := fun e => hnt (e ▸ h)
        have h3 : a ∉ rest := fun e => hdisj _ (hrestm a e) hafl
        rw [huframe a h1 h2 h3, hframe a h2 (htf a h)] at hm
        exact hv.node_ok a (List.mem_append_right _ hafl) m hm
    · intro d hd'
      rw [hucur, hvc] at hd'
      cases hd'
      rw [hvcpos, hvce, hucur]
      exact ⟨hlo, hhi⟩
  cases rest with
  | nil =>
    have hprev : c.prev = 0 := hpath
    refine ⟨node, _, [], hchain,
      alloc_large_last cfg s size fresh node t n c hsz hcreate hn hd (htc ▸ hne) hprev, ?_⟩
    refine hbase _ htc rfl ?_ ?_ ?_ ?_ ?_
    · intro x h1 h2 _
      have h1' : x ≠ t.current := htc ▸ h1
      simp [Function.update_noteq h2, Function.update_noteq h1']
    · exact ⟨{ c with prev := node },
        by simp [Function.update_noteq (Ne.symm hne), htc], rfl, rfl, rfl, rfl⟩
    · exact ⟨⟨0, t.current, wadd (data node) size, n.end_⟩, by simp, hprev.symm, rfl⟩
    · intro x hx; simp at hx
    · rfl
  | cons q r =>
    obtain ⟨hq, hq0, qn, hqn, -⟩ := PrevPath_cons hpath
    have hqm : q ∈ q :: r := List.mem_cons_self _ _
    have hqnode : c.prev ≠ node := by rw [hq]; exact hrn q hqm
    have hqcur : c.prev ≠ t.current := by rw [hq, htc]; exact hrc q hqm
    have hqt : t.nodes c.prev = some qn := by
      rw [hframe c.prev hqnode (by rw [hq]; exact hcf q (hrestm q hqm))]
      exact hqn
    refine ⟨node, _, q :: r, hchain,
      alloc_large_mid cfg s size fresh node t n c qn hsz hcreate hn hd (htc ▸ hne) hq0 hqt
        hqnode hqcur, ?_⟩
    refine hbase _ htc rfl ?_ ?_ ?_ ?_ ?_
    · intro x h1 h2 h3
      have h1' : x ≠ t.current := htc ▸ h1
      have h4 : x ≠ c.prev := by
        rw [hq]; exact fun e => h3 (e ▸ hqm)
      simp [Function.update_noteq h2, Function.update_noteq h1', Function.update_noteq h4]
    · exact ⟨{ c with prev := node },
        by simp [Function.update_noteq (Ne.symm hne), htc,
          Function.update_noteq (htc ▸ hqcur.symm : s.current ≠ c.prev)], rfl, rfl, rfl, rfl⟩
    · exact ⟨⟨c.prev, t.current, wadd (data node) size, n.end_⟩,
        by simp [Function.update_noteq hqnode.symm], rfl, rfl⟩
    · intro x hx m hm
      by_cases hxq : x = c.prev
      · subst hxq
        rw [hqn] at hm
        cases hm
        exact ⟨{ qn with next := node }, by simp, rfl, rfl⟩
      · have h1 : x ≠ s.current := hrc x hx
        have h1' : x ≠ t.current := htc ▸ h1
        have h2 : x ≠ node := hrn x hx
        refine ⟨m, ?_, rfl, rfl⟩
        simp only [Function.update_noteq hxq, Function.update_noteq h2,
          Function.update_noteq h1']
        rw [hframe x h2 (hcf x (hrestm x hx))]
        exact hm
    · have := hv.last_eq
      rw [hchain, List.getLast?_cons_cons] at this
      rw [List.getLast?_cons_cons, List.getLast?_cons_cons]
      rw [this]
      exact congrArg some htl.symm

/-- The function `Arena_alloc` keeps the state valid, whatever the size, when the backend
answers with a
usable region. -/
theorem Arena_alloc_valid {cfg : Config} (hcfg : cfg.Valid) {s : State}
    {chain fl : List Nat} (hv : ValidWith cfg s chain fl) {size fresh : Nat}
    (hfresh : FreshFor (max size cfg.ARENA_MAX_SIZE) chain fl fresh) :
    ∃ p t chain' fl', Arena_alloc cfg s size fresh = some (p, t) ∧
      ValidWith cfg t chain' fl' := by
  obtain ⟨hf0, hfl, hfc, hft⟩ := hfresh
  by_cases hsz : cfg.ARENA_MAX_SIZE ≤ size
  · obtain ⟨node, t, rest, -, halloc, hvt⟩ :=
      alloc_large_valid hcfg hv ⟨hf0, by rw [max_eq_left hsz] at hfl; exact hfl, hfc, hft⟩ hsz
    exact ⟨_, t, _, _, halloc, hvt⟩
  · have hsz' : size < cfg.ARENA_MAX_SIZE := Nat.lt_of_not_le hsz
    obtain ⟨rest, c, -, -, hc, -⟩ := hv.current_node
    by_cases hfit : wadd (alignUp cfg c.pos) size ≤ c.end_
    · obtain ⟨p, t, halloc, hvt⟩ := alloc_small_fit_valid hcfg hv hsz' hc hfit
      exact ⟨p, t, _, _, halloc, hvt⟩
    · obtain ⟨node, t, halloc, hvt⟩ :=
        alloc_small_new_valid hcfg hv
          ⟨hf0, by rw [max_eq_right (Nat.le_of_lt hsz')] at hfl; exact hfl, hfc, hft⟩
          hsz' hc hfit
      exact ⟨_, t, _, _, halloc, hvt⟩

/-- The function `Arena_reset` keeps the state valid and calls no backend function:
`current` becomes
the whole chain, and the chunks behind it are put in front of the free list. -/
theorem Arena_reset_valid {cfg : Config} {s : State} {chain fl : List Nat}
    (hv : ValidWith cfg s chain fl) :
    ∃ t, Arena_reset s = some t ∧ ValidWith cfg t [s.current] (chain.tail ++ fl) ∧
      t.log = s.log ∧ t.live = s.live ∧ t.mem = s.mem := by
  have hL := ADDR_LIMIT_eq
  have hW := WORD_eq
  obtain ⟨rest, cn, hchain, hcur0, hc, hpath, hnext, hlo, hhi, hend⟩ := hv.current_node
  have hnd := hv.nodup
  have hok := hv.node_ok s.current (by rw [hchain]; simp) cn hc
  have hdat : data s.current = s.current + 32 := data_eq (by omega)
  have hcf : s.current ∉ rest ++ fl := by
    intro h
    rw [hchain] at hnd
    simp only [List.cons_append, List.nodup_cons] at hnd
    exact hnd.1 h
  -- the fields that are the same in both branches
  have hbase : ∀ (u : State), u.current = s.current → u.last = s.current →
      u.nodes s.current = some ⟨0, 0, data s.current, cn.end_⟩ →
      PrevPath u.nodes u.free (rest ++ fl) →
      (∀ x ∈ rest ++ fl, ∀ m, u.nodes x = some m → ∃ m', s.nodes x = some m' ∧ m'.end_ = m.end_) →
      ValidWith cfg u [s.current] (rest ++ fl) := by
    intro u hucur hulast hun hup hue
    constructor
    · rw [hucur]
      exact ⟨rfl, hcur0, _, hun, rfl⟩
    · exact hup
    · rw [hchain] at hnd
      simpa using hnd
    · simp [hulast]
    · intro d hd
      rw [hucur, hun] at hd
      cases hd; rfl
    · intro a ha m hm
      simp only [List.singleton_append, List.mem_cons] at ha
      rcases ha with h | h
      · subst h
        rw [hun] at hm
        cases hm
        exact hok
      · obtain ⟨m', hm', he⟩ := hue a h m hm
        rw [← he]
        exact hv.node_ok a (by rw [hchain]; exact List.mem_cons_of_mem _ h) m' hm'
    · intro d hd
      rw [hucur, hun] at hd
      cases hd
      unfold sizeof_ArenaNode at hok ⊢
      simp only [hdat, hucur]
      omega
  rw [hchain, List.tail_cons]
  by_cases hlast : s.current = s.last
  · have hs := hv.single hlast
    rw [hchain] at hs
    have hrest : rest = [] := by simpa using hs
    subst hrest
    refine ⟨_, reset_single s cn hlast hc, ?_, rfl, rfl, rfl⟩
    have hprev : cn.prev = 0 := hpath
    refine hbase _ rfl hlast.symm (by simp [hprev, hnext]) ?_ ?_
    · exact hv.free_path.update_of_not_mem hcf
    · intro x hx m hm
      have hne : x ≠ s.current := fun h => hcf (h ▸ hx)
      exact ⟨m, by simpa [Function.update_noteq hne] using hm, rfl⟩
  · obtain ⟨hlm, hl0, l, hl⟩ := hv.last_node
    have hlr : s.last ∈ rest := by
      rw [hchain] at hlm
      rcases List.mem_cons.mp hlm with h | h
      · exact absurd h.symm hlast
      · exact h
    have hrne : rest ≠ [] := List.ne_nil_of_mem hlr
    have hlq : rest.getLast? = some s.last := by
      have := hv.last_eq
      rw [hchain] at this
      cases rest with
      | nil => exact absurd rfl hrne
      | cons q r => rwa [List.getLast?_cons_cons] at this
    have hndc : (s.current :: rest).Nodup := hchain ▸ (List.nodup_append.mp hnd).1
    have hlf : s.last ∉ fl := fun h => (List.nodup_append.mp hnd).2.2 hlm h
    refine ⟨_, reset_multi s cn l hlast hc hl, ?_, rfl, rfl, rfl⟩
    have hjoin : PrevPath (Function.update s.nodes s.last (some { l with prev := s.free }))
        cn.prev (rest ++ fl) :=
      PrevPath.join hv.free_path hl hlf hpath hlq (List.nodup_cons.mp hndc).2
    refine hbase _ rfl rfl (by simp) ?_ ?_
    · exact hjoin.update_of_not_mem hcf
    · intro x hx m hm
      have hne : x ≠ s.current := fun h => hcf (h ▸ hx)
      by_cases h2 : x = s.last
      · subst h2
        simp [Function.update_noteq hne] at hm
        exact ⟨l, hl, by rw [← hm]⟩
      · exact ⟨m, by simpa [Function.update_noteq hne, Function.update_noteq h2] using hm, rfl⟩

/-- The loop of `Arena_destroy` along a duplicate-free `prev` path releases every chunk of the
path once, in path order, each with its header plus capacity as size, and nothing else. -/
theorem destroy_loop_path {cfg : Config} (hcfg : cfg.Valid) :
    ∀ (l : List Nat) (s : State) (start : Nat), PrevPath s.nodes start l → l.Nodup →
      (∀ a ∈ l, ∀ n, s.nodes a = some n → a + 32 ≤ n.end_ ∧ n.end_ < ADDR_LIMIT) →
      ∀ fuel, l.length ≤ fuel →
      ∃ t, Arena_destroy_loop cfg fuel s start = some t ∧
        (∀ a ∈ l, t.nodes a = none) ∧ (∀ a, a ∉ l → t.nodes a = s.nodes a) ∧
        t.log = (l.map fun a => BackendCall.dealloc a (chunkBytes s a)).reverse ++ s.log ∧
        t.live = s.live.filter fun r => r.1 ∉ l := by
  have hW := WORD_eq
  have hL := ADDR_LIMIT_eq
  intro l
  induction l with
  | nil =>
    intro s start hp _ _ fuel _
    have h0 : start = 0 := hp
    refine ⟨s, ?_, by simp, fun _ _ => rfl, by simp, by simp⟩
    cases fuel <;> simp [Arena_destroy_loop, h0]
  | cons b l ih =>
    intro s start hp hnd hok fuel hfuel
    obtain ⟨hab, hb0, n, hn, hpl⟩ := PrevPath_cons hp
    subst hab
    obtain ⟨hbl, hndl⟩ := List.nodup_cons.mp hnd
    obtain ⟨hlo, hhi⟩ := hok start (List.mem_cons_self _ _) n hn
    cases fuel with
    | zero => simp at hfuel
    | succ f =>
      have hdata : data start = start + 32 := data_eq (by omega)
      have hsz : wsub (wadd (ARENA_NODE_SIZE cfg) n.end_) (data start) = chunkBytes s start := by
        rw [ARENA_NODE_SIZE_eq hcfg, wadd_eq (by omega), hdata, wsub_eq (by omega) (by omega)]
        simp only [chunkBytes, hn, hdata, sizeof_ArenaNode]
        omega
      have hp' : PrevPath (Function.update s.nodes start none) n.prev l :=
        hpl.update_of_not_mem hbl
      obtain ⟨t, hrun, hnone, hframe, hlog, hlive⟩ :=
        ih { s with
              nodes := Function.update s.nodes start none
              live := s.live.filter fun r => r.1 ≠ start
              log := BackendCall.dealloc start (chunkBytes s start) :: s.log }
          n.prev hp' hndl
          (by
            intro a ha m hm
            have hne : a ≠ start := fun h => hbl (h ▸ ha)
            simp only [Function.update_noteq hne] at hm
            exact hok a (List.mem_cons_of_mem _ ha) m hm)
          f (by simpa using hfuel)
      refine ⟨t, ?_, ?_, ?_, ?_, ?_⟩
      · simp only [Arena_destroy_loop, hb0, if_false, hn, ARENA_BACKEND_DEALLOC, hsz,
          Option.bind]
        exact hrun
      · intro a ha
        rcases List.mem_cons.mp ha with rfl | h
        · rw [hframe a hbl]; simp
        · exact hnone a h
      · intro a ha
        have h1 : a ≠ start := fun h => ha (h ▸ List.mem_cons_self _ _)
        have h2 : a ∉ l := fun h => ha (List.mem_cons_of_mem _ h)
        rw [hframe a h2]
        simp [Function.update_noteq h1]
      · rw [hlog]
        have hcb : ∀ a ∈ l, chunkBytes
            { s with
              nodes := Function.update s.nodes start none
              live := s.live.filter fun r => r.1 ≠ start
              log := BackendCall.dealloc start (chunkBytes s start) :: s.log } a =
            chunkBytes s a := by
          intro a ha
          have hne : a ≠ start := fun h => hbl (h ▸ ha)
          simp [chunkBytes, Function.update_noteq hne]
        rw [List.map_congr_left (fun a ha => by rw [hcb a ha])]
        simp
      · rw [hlive]
        simp only [List.filter_filter]
        congr 1
        funext r
        simp only [List.mem_cons, not_or, decide_not, Bool.decide_and, Bool.and_comm]

/-- The function `Arena_destroy` on a valid state, with a loop bound of at least the number
of chunks:
every chunk of the chain and of the free list is released exactly once, with its header plus
capacity as size, and no other backend call is made. -/
theorem Arena_destroy_valid {cfg : Config} (hcfg : cfg.Valid) {s : State}
    {chain fl : List Nat} (hv : ValidWith cfg s chain fl) (fuel : Nat)
    (hfuel : (chain ++ fl).length ≤ fuel) :
    ∃ t, Arena_destroy cfg fuel s = some t ∧
      (∀ a ∈ chain ++ fl, t.nodes a = none) ∧
      (∀ a, a ∉ chain ++ fl → t.nodes a = s.nodes a) ∧
      t.log = ((chain ++ fl).map fun a => BackendCall.dealloc a (chunkBytes s a)).reverse
        ++ s.log ∧
      t.live = s.live.filter fun r => r.1 ∉ chain ++ fl := by
  obtain ⟨hlm, hl0, l, hl⟩ := hv.last_node
  have hnd := hv.nodup
  have hlf : s.last ∉ fl := fun h => (List.nodup_append.mp hnd).2.2 hlm h
  have hjoin : PrevPath (Function.update s.nodes s.last (some { l with prev := s.free }))
      s.current (chain ++ fl) :=
    PrevPath.join hv.free_path hl hlf hv.chain_path hv.last_eq (List.nodup_append.mp hnd).1
  obtain ⟨t, hrun, hnone, hframe, hlog, hlive⟩ :=
    destroy_loop_path hcfg (chain ++ fl) (s.setNode s.last { l with prev := s.free }) s.current
      hjoin hnd
      (by
        intro a ha m hm
        by_cases h : a = s.last
        · subst h
          simp [State.setNode] at hm
          rw [← hm]
          exact hv.node_ok s.last ha l hl
        · simp [State.setNode, Function.update_noteq h] at hm
          exact hv.node_ok a ha m hm)
      fuel hfuel
  have hcb : ∀ a, chunkBytes (s.setNode s.last { l with prev := s.free }) a = chunkBytes s a := by
    intro a
    by_cases h : a = s.last
    · subst h
      simp [chunkBytes, State.setNode, hl]
    · simp [chunkBytes, State.setNode, Function.update_noteq h]
  refine ⟨t, ?_, hnone, ?_, ?_, hlive⟩
  · simp only [Arena_destroy, hl0, ne_eq, not_false_eq_true, if_true, State.setPrev, hl,
      Option.map, bind, Option.bind]
    exact hrun
  · intro a ha
    have h : a ≠ s.last := fun h => ha (List.mem_append_left _ (h ▸ hlm))
    rw [hframe a ha]
    simp [State.setNode, Function.update_noteq h]
  · rw [hlog]
    simp only [hcb]
    rfl

/-! ## States with a single chunk -/

/-- A run of small allocations that fits below `end` of the current chunk stays in that chunk. -/
theorem alloc_seq_fit {cfg : Config} (hcfg : cfg.Valid) :
    ∀ (reqs : List (Nat × Nat)) (s : State) (c : ArenaNode),
      s.nodes s.current = some c → c.end_ < ADDR_LIMIT → c.pos ≤ c.end_ →
      (∀ r ∈ reqs, r.1 < cfg.ARENA_MAX_SIZE) →
      alignUp cfg c.pos + (reqs.map fun r => r.1 + ARENA_ALIGN cfg r.1).sum ≤ c.end_ →
      ∃ ps t, alloc_seq cfg s reqs = some (ps, t) ∧
        t.current = s.current ∧ t.log = s.log ∧ t.live = s.live ∧
        ps.length = reqs.length ∧
        (∃ d, t.nodes t.current = some d ∧ d.end_ = c.end_) ∧
        (∀ x ∈ ps.zip (reqs.map Prod.fst), c.pos ≤ x.1 ∧ x.1 + x.2 ≤ c.end_) ∧
        (ps.zip (reqs.map Prod.fst)).Pairwise fun a b => a.1 + a.2 ≤ b.1 := by
  intro reqs
  induction reqs with
  | nil =>
    intro s c hc _ _ _ _
    exact ⟨[], s, rfl, rfl, rfl, rfl, rfl, ⟨c, hc, rfl⟩, by simp, by simp⟩
  | cons r rest ih =>
    intro s c hc hend hpos hsz hsum
    obtain ⟨size, fresh⟩ := r
    have hsize : size < cfg.ARENA_MAX_SIZE := hsz (size, fresh) (List.mem_cons_self _ _)
    simp only [List.map_cons, List.sum_cons] at hsum
    have hp : c.pos < ADDR_LIMIT := by omega
    have hup := alignUp_eq hcfg hp
    have hal := (ARENA_ALIGN_lt hcfg c.pos).2
    have hW := WORD_eq
    have hL := ADDR_LIMIT_eq
    have hfit : wadd (alignUp cfg c.pos) size = alignUp cfg c.pos + size :=
      wadd_eq (by omega)
    have hstep := alloc_small_fit cfg s size fresh c hsize hc (by omega)
    rw [hfit] at hstep
    -- the state after the first call
    have hdvd := alignUp_dvd hcfg hp
    have hnext : alignUp cfg (alignUp cfg c.pos + size) =
        alignUp cfg c.pos + (size + ARENA_ALIGN cfg size) := by
      rw [alignUp_eq hcfg (by omega), ARENA_ALIGN_add hcfg hdvd]; omega
    obtain ⟨ps, t, hrun, hcur, hlog, hlive, hlen, hnode, hin, hpw⟩ :=
      ih { s with
            last_allocation := alignUp cfg c.pos
            nodes := Function.update s.nodes s.current
              (some { c with pos := alignUp cfg c.pos + size }) }
        { c with pos := alignUp cfg c.pos + size } (by simp) hend (by simp only; omega)
        (fun r hr => hsz r (List.mem_cons_of_mem _ hr)) (by simp only [hnext]; omega)
    refine ⟨alignUp cfg c.pos :: ps, t, ?_, hcur, hlog, hlive, by simp [hlen], hnode, ?_, ?_⟩
    · simp [alloc_seq, hstep, hrun]
    · intro x hx
      simp only [List.map_cons, List.zip_cons_cons, List.mem_cons] at hx
      rcases hx with rfl | hx
      · simp only; omega
      · have := hin x hx
        simp only at this; omega
    · simp only [List.map_cons, List.zip_cons_cons, List.pairwise_cons]
      refine ⟨?_, hpw⟩
      intro x hx
      have := hin x hx
      simp only at this ⊢; omega

/-- A fresh arena is a single-chunk state with the cursor at the start of the payload. -/
theorem Arena_created_eq_singleChunk (cfg : Config) (h : Heap) (node : Nat) :
    Arena_created cfg h node = singleChunk cfg h node (data node) 0 h.mem := rfl

/-- A small request that fits the one chunk of a single-chunk state. -/
theorem singleChunk_alloc (cfg : Config) (h : Heap) (node pos la : Nat) (mem : Nat → Nat)
    (size fresh : Nat) (hsz : size < cfg.ARENA_MAX_SIZE)
    (hfit : wadd (alignUp cfg pos) size ≤ wadd (data node) cfg.ARENA_MAX_SIZE) :
    Arena_alloc cfg (singleChunk cfg h node pos la mem) size fresh =
      some (alignUp cfg pos,
        singleChunk cfg h node (wadd (alignUp cfg pos) size) (alignUp cfg pos) mem) := by
  rw [alloc_small_fit cfg _ size fresh ⟨0, 0, pos, wadd (data node) cfg.ARENA_MAX_SIZE⟩ hsz
    (by simp [singleChunk]) hfit]
  simp [singleChunk]

/-- Reset of a single-chunk state. -/
theorem singleChunk_reset (cfg : Config) (h : Heap) (node pos la : Nat) (mem : Nat → Nat) :
    Arena_reset (singleChunk cfg h node pos la mem) =
      some (singleChunk cfg h node (data node) 0 mem) := by
  rw [reset_single _ ⟨0, 0, pos, wadd (data node) cfg.ARENA_MAX_SIZE⟩ rfl (by simp [singleChunk])]
  simp [singleChunk]

/-- The bytes after `ARENA_MEMCPY` in a single-chunk state. -/
theorem singleChunk_memcpy (cfg : Config) (h : Heap) (node pos la : Nat) (mem : Nat → Nat)
    (dst src n : Nat) :
    ARENA_MEMCPY (singleChunk cfg h node pos la mem) dst src n =
      singleChunk cfg h node pos la
        (fun a => if dst ≤ a ∧ a < dst + n then mem (src + (a - dst)) else mem a) := rfl

/-- A request of `ARENA_MAX_SIZE` bytes or more in a single-chunk state whose free cache is
empty: one backend call, and the new chunk becomes `last`. -/
theorem singleChunk_alloc_large (cfg : Config) (h : Heap) (node pos la : Nat)
    (mem : Nat → Nat) (size fresh : Nat) (hsz : cfg.ARENA_MAX_SIZE ≤ size) (hf : fresh ≠ 0)
    (hne : fresh ≠ node) :
    ∃ t, Arena_alloc cfg (singleChunk cfg h node pos la mem) size fresh =
        some (data fresh, t) ∧
      t.log = BackendCall.alloc (wadd (ARENA_NODE_SIZE cfg) size) fresh ::
        (singleChunk cfg h node pos la mem).log ∧
      t.live = (fresh, wadd (ARENA_NODE_SIZE cfg) size) ::
        (singleChunk cfg h node pos la mem).live ∧
      t.current = node ∧ t.last = fresh ∧ t.free = 0 ∧ t.last_allocation = data fresh ∧
      t.nodes node = some ⟨fresh, 0, pos, wadd (data node) cfg.ARENA_MAX_SIZE⟩ ∧
      t.nodes fresh = some ⟨0, node, wadd (data fresh) size, wadd (data fresh) size⟩ := by
  have hcreate := create_node_fresh cfg (singleChunk cfg h node pos la mem) size
    (show (singleChunk cfg h node pos la mem).free = 0 from rfl) hf
  refine ⟨_, alloc_large_last cfg _ size fresh fresh _ ⟨0, 0, 0, wadd (data fresh) size⟩
    ⟨0, 0, pos, wadd (data node) cfg.ARENA_MAX_SIZE⟩ hsz hcreate (by simp) ?_ hne rfl,
    rfl, rfl, rfl, rfl, rfl, rfl, ?_, ?_⟩
  · simp [singleChunk, Function.update_noteq hne.symm]
  · simp [singleChunk, Function.update_noteq hne.symm]
  · simp [singleChunk]

/-! ## Large allocations: how the new chunk is linked -/

/-- What `Arena_create_node` may return: the head of the free list or the backend's answer. -/
theorem create_node_cases {cfg : Config} {s t : State} {size fresh node : Nat}
    (h : Arena_create_node cfg s size fresh = some (node, t)) :
    node = s.free ∨ node = fresh := by
  unfold Arena_create_node at h
  simp only [bind, Option.bind] at h
  split at h
  · split at h
    · cases h
    · split at h
      · simp at h; exact Or.inl h.1.symm
      · split at h
        · cases h
        · simp at h
          obtain ⟨a, _, rfl⟩ := h
          exact Or.inr rfl
  · simp at h
    obtain ⟨a, _, rfl⟩ := h
    exact Or.inr rfl

/-- Whatever the state, a large request that returns has recorded the returned address,
the payload of the chunk `Arena_create_node` gave, as `last_allocation`. -/
theorem alloc_large_result {cfg : Config} {s t : State} {size fresh p : Nat}
    (hsz : cfg.ARENA_MAX_SIZE ≤ size) (h : Arena_alloc cfg s size fresh = some (p, t)) :
    t.last_allocation = p ∧ ∃ node u, Arena_create_node cfg s size fresh = some (node, u) ∧
      p = data node := by
  unfold Arena_alloc at h
  simp only [ge_iff_le, hsz, if_true, bind, Option.bind_eq_some] at h
  obtain ⟨⟨node, u⟩, hcr, h⟩ := h
  simp only [Option.bind_eq_some] at h
  obtain ⟨s1, h1, c, hc, s2, h2, s3, h3, s4, h4, h⟩ := h
  split at h <;>
  · rcases Option.bind_eq_some.1 h with ⟨s5, h5, h⟩
    simp only [pure, Option.some.injEq, Prod.mk.injEq] at h
    obtain ⟨rfl, rfl⟩ := h
    exact ⟨rfl, node, u, hcr, rfl⟩

/-- A large request in a valid state: the chunk `node` that serves it, and every link the
call writes. -/
theorem alloc_large_links {cfg : Config} (hcfg : cfg.Valid) {s : State}
    {chain fl : List Nat} (hv : ValidWith cfg s chain fl) {size fresh : Nat}
    (hfresh : FreshFor size chain fl fresh) (hsz : cfg.ARENA_MAX_SIZE ≤ size) :
    ∃ node t c n, Arena_alloc cfg s size fresh = some (data node, t) ∧
      s.nodes s.current = some c ∧ node ≠ 0 ∧ node ∉ chain ∧ data node = node + 32 ∧
      t.current = s.current ∧ t.free = fl.tail.headD 0 ∧ t.mem = s.mem ∧
      t.last_allocation = data node ∧
      t.nodes s.current = some { c with prev := node } ∧
      t.nodes node = some n ∧ n.prev = c.prev ∧ n.next = s.current ∧
      n.pos = data node + size ∧ data node + size ≤ n.end_ ∧ n.end_ < ADDR_LIMIT ∧
      (c.prev = 0 → t.last = node) ∧
      (c.prev ≠ 0 → t.last = s.last ∧ c.prev ∈ chain ∧ c.prev ≠ s.current ∧
        ∃ q, s.nodes c.prev = some q ∧ t.nodes c.prev = some { q with next := node }) ∧
      (∀ x, x ≠ s.current → x ≠ node → x ≠ c.prev → x ≠ s.free → t.nodes x = s.nodes x) := by
  have hW := WORD_eq
  have hL := ADDR_LIMIT_eq
  obtain ⟨rest, c, hchain, hcur0, hc, hpath, hnext, hlo, hhi, hend⟩ := hv.current_node
  have hcm : s.current ∈ chain := by rw [hchain]; exact List.mem_cons_self _ _
  have hnd := hv.nodup
  have hndl : fl.Nodup := (List.nodup_append.mp hnd).2.1
  have hndc : (s.current :: rest).Nodup := hchain ▸ (List.nodup_append.mp hnd).1
  have hcf := hv.chain_ne_free
  have hfree : s.free = 0 ∨ ∃ n, s.nodes s.free = some n ∧ s.free ∉ chain ∧
      s.free + 32 ≤ n.end_ ∧ n.end_ < ADDR_LIMIT := by
    rcases hv.free_node with ⟨h0, -⟩ | ⟨r, n, -, h0, hn, -, hnc, hlo, hhi⟩
    · exact Or.inl h0
    · exact Or.inr ⟨n, hn, hnc, hlo, hhi⟩
  obtain ⟨hf0, hfl, hfc, hft⟩ := hfresh
  unfold sizeof_ArenaNode at hfl
  obtain ⟨node, t, n, hcreate, hn, hn0, hnc, hcap, hnend, hframe, htc, htl, -, htm, hcase⟩ :=
    create_node_spec hcfg s size fresh chain hfree hf0 hfl hfc
  have hfp : PrevPath t.nodes t.free fl.tail :=
    create_node_free_path hv.free_path hndl hft hcreate
  have htfree : t.free = fl.tail.headD 0 := by
    cases hfl' : fl.tail with
    | nil => rw [hfl'] at hfp; exact hfp
    | cons b l => rw [hfl'] at hfp; exact hfp.1
  have hne : node ≠ s.current := fun h => hnc (h ▸ hcm)
  have hd : t.nodes t.current = some c := by
    rw [htc, hframe s.current (Ne.symm hne) (hcf _ hcm)]
    exact hc
  have hdata : data node = node + 32 := data_eq (by omega)
  have hw : wadd (data node) size = node + 32 + size := by
    rw [hdata]; exact wadd_eq (by omega)
  have hrestm : ∀ x ∈ rest, x ∈ chain := fun x hx => hchain ▸ List.mem_cons_of_mem _ hx
  have hrc : ∀ x ∈ rest, x ≠ s.current := fun x hx h => (List.nodup_cons.mp hndc).1 (h ▸ hx)
  have hrn : ∀ x ∈ rest, x ≠ node := fun x hx h => hnc (h ▸ hrestm x hx)
  cases rest with
  | nil =>
    have hprev : c.prev = 0 := hpath
    refine ⟨node, _, c, ⟨0, t.current, wadd (data node) size, n.end_⟩,
      alloc_large_last cfg s size fresh node t n c hsz hcreate hn hd (htc ▸ hne) hprev,
      hc, hn0, hnc, hdata, htc, htfree, htm, rfl, ?_, by simp, hprev.symm, htc, ?_, ?_, hnend,
      fun _ => rfl, fun h => absurd hprev h, ?_⟩
    · simp [Function.update_noteq (Ne.symm hne), htc]
    · exact hw.trans (by rw [hdata])
    · simp only [hdata]; omega
    · intro x h1 h2 _ h4
      have h1' : x ≠ t.current := htc ▸ h1
      simp only [Function.update_noteq h2, Function.update_noteq h1']
      exact hframe x h2 h4
  | cons q r =>
    obtain ⟨hq, hq0, qn, hqn, -⟩ := PrevPath_cons hpath
    have hqm : q ∈ q :: r := List.mem_cons_self _ _
    have hqnode : c.prev ≠ node := by rw [hq]; exact hrn q hqm
    have hqcur : c.prev ≠ t.current := by rw [hq, htc]; exact hrc q hqm
    have hqt : t.nodes c.prev = some qn := by
      rw [hframe c.prev hqnode (by rw [hq]; exact hcf q (hrestm q hqm))]
      exact hqn
    refine ⟨node, _, c, ⟨c.prev, t.current, wadd (data node) size, n.end_⟩,
      alloc_large_mid cfg s size fresh node t n c qn hsz hcreate hn hd (htc ▸ hne) hq0 hqt
        hqnode hqcur,
      hc, hn0, hnc, hdata, htc, htfree, htm, rfl, ?_, ?_, rfl, htc, ?_, ?_, hnend,
      fun h => absurd h hq0, fun _ => ⟨htl, ?_, ?_, qn, hqn, by simp⟩, ?_⟩
    · simp [Function.update_noteq (Ne.symm hne), htc,
        Function.update_noteq (htc ▸ hqcur.symm : s.current ≠ c.prev)]
    · simp [Function.update_noteq hqnode.symm]
    · exact hw.trans (by rw [hdata])
    · simp only [hdata]; omega
    · rw [hq]; exact hrestm q hqm
    · rw [hq]; exact hrc q hqm
    · intro x h1 h2 h3 h4
      have h1' : x ≠ t.current := htc ▸ h1
      simp only [Function.update_noteq h2, Function.update_noteq h1', Function.update_noteq h3]
      exact hframe x h2 h4

/-! ## The padding for any power of two -/

/-- The macro of the program is `ARENA_ALIGN_w` at 64 bits. -/
theorem ARENA_ALIGN_eq_w (cfg : Config) (p : Nat) :
    ARENA_ALIGN cfg p = ARENA_ALIGN_w 64 cfg.ARENA_ALIGNMENT p := rfl

/-- The mask `A - 1` of a power of two below the word size. -/
theorem mask_eq {w j : Nat} (hj : j < w) :
    (2 ^ j + (2 ^ w - 1 % 2 ^ w)) % 2 ^ w = 2 ^ j - 1 := by
  have h1 : 2 ^ j < 2 ^ w := Nat.pow_lt_pow_right (by decide) hj
  have h0 : 0 < 2 ^ j := Nat.pos_pow_of_pos _ (by decide)
  have h2 : 1 % 2 ^ w = 1 := Nat.mod_eq_of_lt (by omega)
  rw [h2]
  have : 2 ^ j + (2 ^ w - 1) = (2 ^ j - 1) + 2 ^ w := by omega
  rw [this, Nat.add_mod_right]
  exact Nat.mod_eq_of_lt (by omega)

/-- The padding as a remainder. -/
theorem ARENA_ALIGN_w_eq_mod {w j : Nat} (hj : j < w) (p : Nat) :
    ARENA_ALIGN_w w (2 ^ j) p = ((2 ^ w - p % 2 ^ w) % 2 ^ w) % 2 ^ j := by
  unfold ARENA_ALIGN_w
  rw [mask_eq hj, Nat.and_pow_two_sub_one_eq_mod]

/-- A word plus its negation is a multiple of the word size. -/
theorem dvd_add_neg (W p : Nat) (hW : 0 < W) : W ∣ p + (W - p % W) % W := by
  have hlt := Nat.mod_lt p hW
  have hdm := Nat.div_add_mod p W
  by_cases h0 : p % W = 0
  · rw [h0, Nat.sub_zero, Nat.mod_self, Nat.add_zero]
    exact Nat.dvd_of_mod_eq_zero h0
  · rw [Nat.mod_eq_of_lt (by omega : W - p % W < W)]
    have : p + (W - p % W) = W * (p / W) + W := by omega
    rw [this]
    exact Dvd.dvd.add (dvd_mul_right _ _) (dvd_refl _)

/-- The padded cursor is a multiple of a power-of-two alignment, whatever the cursor. -/
theorem alignUp_dvd_of_pow {cfg : Config} {j : Nat} (hj : j < 64)
    (hA : cfg.ARENA_ALIGNMENT = 2 ^ j) (p : Nat) : cfg.ARENA_ALIGNMENT ∣ alignUp cfg p := by
  have hAW : 2 ^ j ∣ 2 ^ 64 := pow_dvd_pow 2 (le_of_lt hj)
  have h1 : 2 ^ j ∣ p + (2 ^ 64 - p % 2 ^ 64) % 2 ^ 64 :=
    hAW.trans (dvd_add_neg _ p (by decide))
  have h2 : p + ARENA_ALIGN_w 64 (2 ^ j) p ≡ p + (2 ^ 64 - p % 2 ^ 64) % 2 ^ 64 [MOD 2 ^ j] := by
    rw [ARENA_ALIGN_w_eq_mod hj]; exact Nat.ModEq.add_left p (Nat.mod_modEq _ _)
  have h3 : 2 ^ j ∣ p + ARENA_ALIGN_w 64 (2 ^ j) p :=
    Nat.modEq_zero_iff_dvd.1 (h2.trans (Nat.modEq_zero_iff_dvd.2 h1))
  unfold alignUp wadd WORD
  rw [ARENA_ALIGN_eq_w, hA]
  exact (Nat.dvd_mod_iff hAW).2 h3

/-! ## The field writes, on any state -/

/-- What `a->prev = v` does when it is defined. -/
theorem setPrev_eq_some {s t : State} {a v : Nat} (h : s.setPrev a v = some t) :
    ∃ n, s.nodes a = some n ∧ t = s.setNode a { n with prev := v } := by
  unfold State.setPrev at h
  rcases hn : s.nodes a with _ | n
  · rw [hn] at h; cases h
  · rw [hn] at h; exact ⟨n, rfl, (Option.some.inj h).symm⟩

/-- What `a->next = v` does when it is defined. -/
theorem setNext_eq_some {s t : State} {a v : Nat} (h : s.setNext a v = some t) :
    ∃ n, s.nodes a = some n ∧ t = s.setNode a { n with next := v } := by
  unfold State.setNext at h
  rcases hn : s.nodes a with _ | n
  · rw [hn] at h; cases h
  · rw [hn] at h; exact ⟨n, rfl, (Option.some.inj h).symm⟩

/-- What `a->pos = v` does when it is defined. -/
theorem setPos_eq_some {s t : State} {a v : Nat} (h : s.setPos a v = some t) :
    ∃ n, s.nodes a = some n ∧ t = s.setNode a { n with pos := v } := by
  unfold State.setPos at h
  rcases hn : s.nodes a with _ | n
  · rw [hn] at h; cases h
  · rw [hn] at h; exact ⟨n, rfl, (Option.some.inj h).symm⟩

/-- The relation `SameCursors` is reflexive. -/
theorem SameCursors.refl (s : State) : SameCursors s s :=
  fun _ => ⟨fun n h => ⟨n, h, rfl, rfl⟩, fun n h => ⟨n, h, rfl, rfl⟩⟩

/-- The relation `SameCursors` is transitive. -/
theorem SameCursors.trans {s t u : State} (h1 : SameCursors s t) (h2 : SameCursors t u) :
    SameCursors s u := by
  intro x
  constructor
  · intro n hn
    obtain ⟨m, hm, e1, e2⟩ := (h1 x).1 n hn
    obtain ⟨k, hk, e3, e4⟩ := (h2 x).1 m hm
    exact ⟨k, hk, e3.trans e1, e4.trans e2⟩
  · intro k hk
    obtain ⟨m, hm, e1, e2⟩ := (h2 x).2 k hk
    obtain ⟨n, hn, e3, e4⟩ := (h1 x).2 m hm
    exact ⟨n, hn, e1.trans e3, e2.trans e4⟩

/-- Storing a header with the same `pos` and `end` over a live one. -/
theorem SameCursors.setNode {s : State} {a : Nat} {n v : ArenaNode} (hn : s.nodes a = some n)
    (hp : v.pos = n.pos) (he : v.end_ = n.end_) : SameCursors s (s.setNode a v) := by
  intro x
  by_cases hx : x = a
  · subst hx
    constructor
    · intro n' hn'
      rw [hn] at hn'; cases hn'
      exact ⟨v, by simp [State.setNode], hp, he⟩
    · intro m hm
      simp [State.setNode] at hm
      subst hm
      exact ⟨n, hn, hp, he⟩
  · constructor
    · intro n' hn'
      exact ⟨n', by simp [State.setNode, Function.update_noteq hx, hn'], rfl, rfl⟩
    · intro m hm
      simp [State.setNode, Function.update_noteq hx] at hm
      exact ⟨m, hm, rfl, rfl⟩

/-- The statement `a->prev = v` keeps cursors. -/
theorem SameCursors.setPrev {s t : State} {a v : Nat} (h : s.setPrev a v = some t) :
    SameCursors s t := by
  obtain ⟨n, hn, rfl⟩ := setPrev_eq_some h
  exact SameCursors.setNode hn rfl rfl

/-- The statement `a->next = v` keeps cursors. -/
theorem SameCursors.setNext {s t : State} {a v : Nat} (h : s.setNext a v = some t) :
    SameCursors s t := by
  obtain ⟨n, hn, rfl⟩ := setNext_eq_some h
  exact SameCursors.setNode hn rfl rfl

/-- What `Arena_create_node` returns is the head of the free list, a live header, or the
backend's answer. -/
theorem create_node_origin {cfg : Config} {s t : State} {size fresh node : Nat}
    (h : Arena_create_node cfg s size fresh = some (node, t)) :
    (node = s.free ∧ ∃ n, s.nodes s.free = some n) ∨ node = fresh := by
  unfold Arena_create_node at h
  simp only [bind, Option.bind] at h
  split at h
  · split at h
    · cases h
    · rename_i n hn
      split at h
      · simp at h; exact Or.inl ⟨h.1.symm, n, hn⟩
      · split at h
        · cases h
        · simp at h
          obtain ⟨a, _, rfl⟩ := h
          exact Or.inr rfl
  · simp at h
    obtain ⟨a, _, rfl⟩ := h
    exact Or.inr rfl

/-- Whatever the state, a small request that returns gives either the padded cursor of
the current chunk or the payload start of the chunk `Arena_create_node` gave. -/
theorem alloc_small_result {cfg : Config} {s t : State} {size fresh p : Nat}
    (hsz : size < cfg.ARENA_MAX_SIZE) (h : Arena_alloc cfg s size fresh = some (p, t)) :
    ∃ c, s.nodes s.current = some c ∧
      ((p = alignUp cfg c.pos ∧ wadd (alignUp cfg c.pos) size ≤ c.end_) ∨
       (¬ wadd (alignUp cfg c.pos) size ≤ c.end_ ∧
        ∃ node u, Arena_create_node cfg (s.setNode s.current { c with pos := alignUp cfg c.pos })
          cfg.ARENA_MAX_SIZE fresh = some (node, u) ∧ p = data node)) := by
  unfold Arena_alloc at h
  simp only [ge_iff_le, not_le.2 hsz, if_false, bind, Option.bind_eq_some] at h
  obtain ⟨c, hc, s1, h1, c1, hc1, h⟩ := h
  refine ⟨c, hc, ?_⟩
  obtain ⟨n, hn, rfl⟩ := setPos_eq_some h1
  rw [hc] at hn; cases hn
  have hc1' : c1 = { c with pos := alignUp cfg c.pos } := by
    simp [State.setNode] at hc1
    exact hc1.symm
  subst hc1'
  by_cases hfit : wadd (alignUp cfg c.pos) size ≤ c.end_
  · left
    simp only [gt_iff_lt, not_lt.2 hfit, if_false, pure, Option.some_bind,
      Option.bind_eq_some] at h
    obtain ⟨c2, hc2, s3, h3, h⟩ := h
    simp only [Option.some.injEq, Prod.mk.injEq] at h
    obtain ⟨rfl, rfl⟩ := h
    simp [State.setNode] at hc2
    subst hc2
    exact ⟨rfl, hfit⟩
  · right
    refine ⟨hfit, ?_⟩
    simp only [gt_iff_lt, not_le.1 hfit, if_true, Option.bind_eq_some] at h
    obtain ⟨⟨node, u⟩, hcr, u1, hu1, u2, hu2, u3, hu3, u4, hu4, h⟩ := h
    simp only [pure, Option.some_bind, Option.bind_eq_some] at h
    obtain ⟨w, hw, c2, hc2, s3, h3, h⟩ := h
    cases hw
    simp only [Option.some.injEq, Prod.mk.injEq] at h
    obtain ⟨rfl, rfl⟩ := h
    refine ⟨node, u, hcr, ?_⟩
    simp only at hu1 hu2 hu3 hu4 hc2
    obtain ⟨n, hn, rfl⟩ := setPos_eq_some hu1
    have h0 : (u.setNode node { n with pos := data node }).nodes node
        = some { n with pos := data node } := by simp [State.setNode]
    obtain ⟨m, hm, e, -⟩ := (((SameCursors.setNext hu2).trans (SameCursors.setPrev hu3)).trans
      (SameCursors.setNext hu4) node).1 _ h0
    rw [hm] at hc2
    cases hc2
    exact e

/-! ## Chunk capacities in reachable states -/

/-- The example state after a copy is reachable: the copy lies behind the only header. -/
theorem copiedArena_reachable : Reachable defaultConfig copiedArena := by
  have h0 : Reachable defaultConfig
      (singleChunk defaultConfig emptyHeap 1048576 1048608 0 emptyHeap.mem) :=
    Reachable.create emptyHeap 1048576 _ (fun _ => rfl)
      (Arena_create_eq defaultConfig emptyHeap (by decide))
  have h1 : Reachable defaultConfig
      (singleChunk defaultConfig emptyHeap 1048576 1048708 1048608 emptyHeap.mem) :=
    Reachable.alloc _ _ 100 0 1048608 h0 (by decide)
      (singleChunk_alloc defaultConfig emptyHeap 1048576 1048608 0 emptyHeap.mem 100 0
        (by decide) (by decide))
  have h2 : Reachable defaultConfig
      (singleChunk defaultConfig emptyHeap 1048576 1048762 1048712 emptyHeap.mem) :=
    Reachable.alloc _ _ 50 0 1048712 h1 (by decide)
      (singleChunk_alloc defaultConfig emptyHeap 1048576 1048708 1048608 emptyHeap.mem 50 0
        (by decide) (by decide))
  have hr : Arena_resize defaultConfig
      (singleChunk defaultConfig emptyHeap 1048576 1048762 1048712 emptyHeap.mem)
      1048608 100 60 0 = some (1048768, copiedArena) := by
    rw [resize_fallback defaultConfig _ 1048608 100 60 0 (by decide) (by decide),
      singleChunk_alloc defaultConfig emptyHeap 1048576 1048762 1048712 emptyHeap.mem 60 0
        (by decide) (by decide)]
    rfl
  refine Reachable.resize _ _ 1048608 100 60 0 1048768 h2 (by decide) hr
    (Or.inr ⟨by decide, ?_⟩)
  intro a h hn
  by_cases ha : a = 1048576
  · subst ha
    left
    decide
  · simp [copiedArena, singleChunk, emptyHeap, Function.update_noteq ha] at hn

/-- A fresh default arena after `p = alloc(8)` and `resize(p, 8, 16384)`, which grows `p` in
place to the end of the chunk, is reachable: an allocation of `ARENA_MAX_SIZE` bytes lies in
`current`. -/
theorem grownInPlace_reachable : Reachable defaultConfig
    (singleChunk defaultConfig emptyHeap 1048576 1064992 1048608 emptyHeap.mem) := by
  have h0 : Reachable defaultConfig
      (singleChunk defaultConfig emptyHeap 1048576 1048608 0 emptyHeap.mem) :=
    Reachable.create emptyHeap 1048576 _ (fun _ => rfl)
      (Arena_create_eq defaultConfig emptyHeap (by decide))
  have h1 : Reachable defaultConfig
      (singleChunk defaultConfig emptyHeap 1048576 1048616 1048608 emptyHeap.mem) :=
    Reachable.alloc _ _ 8 0 1048608 h0 (by decide)
      (singleChunk_alloc defaultConfig emptyHeap 1048576 1048608 0 emptyHeap.mem 8 0
        (by decide) (by decide))
  have hr : Arena_resize defaultConfig
      (singleChunk defaultConfig emptyHeap 1048576 1048616 1048608 emptyHeap.mem)
      1048608 8 16384 0 = some (1048608,
        singleChunk defaultConfig emptyHeap 1048576 1064992 1048608 emptyHeap.mem) := by
    rw [resize_inplace defaultConfig _ 1048608 8 16384 0 ⟨0, 0, 1048616, 1064992⟩ (by decide)
      (by decide) rfl (by decide) (by decide)]
    simp [singleChunk, State.setNode]
    exact congrArg (fun v => Function.update emptyHeap.nodes 1048576 (some v))
      (by decide : (⟨0, 0, wadd (wsub 1048616 8) 16384, 1064992⟩ : ArenaNode) =
        ⟨0, 0, 1064992, wadd (data 1048576) defaultConfig.ARENA_MAX_SIZE⟩)
  exact Reachable.resize _ _ 1048608 8 16384 0 1048608 h1 (by decide) hr
    (Or.inl (Or.inr ⟨by decide, rfl, ⟨0, 0, 1048616, 1064992⟩, by decide, by decide⟩))

/-! ## Doubly linked chains -/

/-- Unfolding of `NextLinked` on a non-empty list. -/
theorem NextLinked_cons {nodes : Nat → Option ArenaNode} {up b : Nat} {l : List Nat}
    (h : NextLinked nodes up (b :: l)) :
    (∃ n, nodes b = some n ∧ n.next = up) ∧ NextLinked nodes b l := h

/-- The predicate `NextLinked` reads the `next` links of the listed nodes only. -/
theorem NextLinked.of_next_eq {nodes nodes' : Nat → Option ArenaNode} :
    ∀ {l : List Nat} {up : Nat}, NextLinked nodes up l →
      (∀ x ∈ l, ∀ n, nodes x = some n → ∃ m, nodes' x = some m ∧ m.next = n.next) →
      NextLinked nodes' up l := by
  intro l
  induction l with
  | nil => intro up _ _; trivial
  | cons b r ih =>
    intro up h hsame
    obtain ⟨⟨n, hn, hnx⟩, hr⟩ := h
    obtain ⟨m, hm, hmx⟩ := hsame b (List.mem_cons_self _ _) n hn
    exact ⟨⟨m, hm, hmx.trans hnx⟩, ih hr fun x hx => hsame x (List.mem_cons_of_mem _ hx)⟩

/-- The neighbours of a node `N` of a doubly linked list without repetition: its `prev`
is null or a node of the list whose `next` is `N`; its `next` is `up` when `N` is the
first node, and otherwise a node of the list whose `prev` is `N`; the two differ. -/
theorem chain_neighbours {nodes : Nat → Option ArenaNode} :
    ∀ (l : List Nat) (up start : Nat), PrevPath nodes start l → NextLinked nodes up l →
      l.Nodup → up ∉ l → ∀ N ∈ l, ∀ n, nodes N = some n →
      (n.prev = 0 ∨ (n.prev ≠ 0 ∧ n.prev ∈ l ∧ n.prev ≠ N ∧
        ∃ q, nodes n.prev = some q ∧ q.next = N)) ∧
      ((n.next = up ∧ N = start) ∨ (n.next ≠ 0 ∧ n.next ∈ l ∧ n.next ≠ N ∧ N ≠ start ∧
        ∃ m, nodes n.next = some m ∧ m.prev = N)) ∧
      (n.prev ≠ 0 → n.prev ≠ n.next) := by
  intro l
  induction l with
  | nil => intro up start _ _ _ _ N hN; cases hN
  | cons b r ih =>
    intro up start hp hl hnd hup N hN n hn
    obtain ⟨hstart, hb0, nb, hnb, hpr⟩ := hp
    obtain ⟨⟨nb', hnb', hnext⟩, hlr⟩ := hl
    subst hstart
    rw [hnb] at hnb'
    cases hnb'
    obtain ⟨hbr, hndr⟩ := List.nodup_cons.1 hnd
    rcases List.mem_cons.1 hN with rfl | hNr
    · rw [hnb] at hn
      cases hn
      have hprev : n.prev = 0 ∨ (n.prev ≠ 0 ∧ n.prev ∈ N :: r ∧ n.prev ≠ N ∧
          ∃ q, nodes n.prev = some q ∧ q.next = N) := by
        cases r with
        | nil => exact Or.inl hpr
        | cons c r' =>
          obtain ⟨hc, hc0, -⟩ := hpr
          obtain ⟨⟨q, hq, hqn⟩, -⟩ := hlr
          right
          refine ⟨hc0, ?_, ?_, q, hc ▸ hq, hqn⟩
          · rw [hc]; exact List.mem_cons_of_mem _ (List.mem_cons_self _ _)
          · rw [hc]; intro h; exact hbr (h ▸ List.mem_cons_self _ _)
      refine ⟨hprev, Or.inl ⟨hnext, rfl⟩, ?_⟩
      intro h0
      rcases hprev with h | ⟨-, hm, -⟩
      · exact absurd h h0
      · rw [hnext]; intro h; exact hup (h ▸ hm)
    · have hNb : N ≠ start := fun h => hbr (h ▸ hNr)
      obtain ⟨h1, h2, h3⟩ := ih start nb.prev hpr hlr hndr hbr N hNr n hn
      refine ⟨?_, ?_, h3⟩
      · rcases h1 with h | ⟨h0, hm, hne, hq⟩
        · exact Or.inl h
        · exact Or.inr ⟨h0, List.mem_cons_of_mem _ hm, hne, hq⟩
      · right
        rcases h2 with ⟨hnx, hNs⟩ | ⟨h0, hm, hne, -, hmm⟩
        · refine ⟨by rw [hnx]; exact hb0, by rw [hnx]; exact List.mem_cons_self _ _,
            by rw [hnx]; exact hNb.symm, hNb, nb, by rw [hnx]; exact hnb, hNs.symm⟩
        · exact ⟨h0, List.mem_cons_of_mem _ hm, hne, hNb, hmm⟩

/-- The example state with two chunks is doubly linked. -/
theorem twoChunkArena_linked : NextLinked twoChunkArena.nodes 0 [1048576, 2097152] :=
  ⟨⟨⟨2097152, 0, 1048608, 1064992⟩, by decide, rfl⟩,
    ⟨⟨0, 1048576, 2113568, 2113568⟩, by decide, rfl⟩, trivial⟩

/-- The state `Arena_create` returns is doubly linked. -/
theorem Arena_created_linked (cfg : Config) (h : Heap) (node : Nat) :
    NextLinked (Arena_created cfg h node).nodes 0 [node] :=
  ⟨⟨⟨0, 0, data node, wadd (data node) cfg.ARENA_MAX_SIZE⟩, by simp [Arena_created], rfl⟩,
    trivial⟩

/-- A small request that needs a new chunk, in a valid state: the chunk `node` that becomes
`current`, and every link the call writes. -/
theorem alloc_small_new_links {cfg : Config} (hcfg : cfg.Valid) {s : State}
    {chain fl : List Nat} (hv : ValidWith cfg s chain fl) {size fresh : Nat} {c : ArenaNode}
    (hfresh : FreshFor cfg.ARENA_MAX_SIZE chain fl fresh)
    (hsz : size < cfg.ARENA_MAX_SIZE) (hc : s.nodes s.current = some c)
    (hfit : ¬ wadd (alignUp cfg c.pos) size ≤ c.end_) :
    ∃ node t n, Arena_alloc cfg s size fresh = some (data node, t) ∧
      node ≠ 0 ∧ node ∉ chain ∧ t.current = node ∧
      t.nodes node = some n ∧ n.prev = s.current ∧ n.next = 0 ∧
      t.nodes s.current = some { c with pos := alignUp cfg c.pos, next := node } ∧
      (∀ x, x ≠ node → x ≠ s.current → x ≠ s.free → t.nodes x = s.nodes x) := by
  have hW := WORD_eq
  have hL := ADDR_LIMIT_eq
  obtain ⟨rest, c', hchain, hcur0, hc', -, hnext, hlo, hhi, hend⟩ := hv.current_node
  rw [hc] at hc'
  cases hc'
  have hcm : s.current ∈ chain := by rw [hchain]; exact List.mem_cons_self _ _
  have hcf := hv.chain_ne_free
  have hfree : (s.setNode s.current { c with pos := alignUp cfg c.pos }).free = 0 ∨
      ∃ n, (s.setNode s.current { c with pos := alignUp cfg c.pos }).nodes
          (s.setNode s.current { c with pos := alignUp cfg c.pos }).free = some n ∧
        (s.setNode s.current { c with pos := alignUp cfg c.pos }).free ∉ chain ∧
        (s.setNode s.current { c with pos := alignUp cfg c.pos }).free + 32 ≤ n.end_ ∧
        n.end_ < ADDR_LIMIT := by
    rcases hv.free_node with ⟨h0, -⟩ | ⟨r, n, -, h0, hn, -, hnc, hlo, hhi⟩
    · exact Or.inl h0
    · right
      have hne : s.free ≠ s.current := fun h => hnc (h ▸ hcm)
      exact ⟨n, by simp [State.setNode, Function.update_noteq hne, hn], hnc, hlo, hhi⟩
  obtain ⟨hf0, hfl, hfc, hft⟩ := hfresh
  unfold sizeof_ArenaNode at hfl
  obtain ⟨node, t, n, hcreate, hn, hn0, hnc, hcap, hnend, hframe, htc, htl, -, -, hcase⟩ :=
    create_node_spec hcfg (s.setNode s.current { c with pos := alignUp cfg c.pos })
      cfg.ARENA_MAX_SIZE fresh chain hfree hf0 hfl hfc
  have hne : node ≠ s.current := fun h => hnc (h ▸ hcm)
  have htcur : t.current = s.current := htc
  have hd : t.nodes t.current = some { c with pos := alignUp cfg c.pos } := by
    rw [htcur, hframe s.current (Ne.symm hne) (hcf _ hcm)]
    simp [State.setNode]
  have hsame : ∀ a, a ≠ node → a ≠ s.current → a ≠ s.free → t.nodes a = s.nodes a := by
    intro a h1 h2 h3
    rw [hframe a h1 h3]
    simp [State.setNode, Function.update_noteq h2]
  refine ⟨node, _, ⟨t.current, 0, wadd (data node) size, n.end_⟩,
    alloc_small_new cfg s size fresh c node t n _ hsz hc hfit hcreate hn hd (htcur ▸ hne),
    hn0, hnc, rfl, by simp, htcur, rfl, ?_, ?_⟩
  · simp [Function.update_noteq (Ne.symm hne), htcur]
  · intro x h1 h2 h3
    simp only [Function.update_noteq h1, htcur, Function.update_noteq h2]
    exact hsame x h1 h2 h3

/-- The function `Arena_alloc` keeps a valid state valid and doubly linked, whatever the
size, when the backend answers with a usable region. -/
theorem Arena_alloc_linked {cfg : Config} (hcfg : cfg.Valid) {s : State}
    {chain fl : List Nat} (hv : ValidWith cfg s chain fl)
    (hnl : NextLinked s.nodes 0 chain) {size fresh : Nat}
    (hfresh : FreshFor (max size cfg.ARENA_MAX_SIZE) chain fl fresh) :
    ∃ p t chain' fl', Arena_alloc cfg s size fresh = some (p, t) ∧
      ValidWith cfg t chain' fl' ∧ NextLinked t.nodes 0 chain' := by
  obtain ⟨hf0, hfl, hfc, hft⟩ := hfresh
  obtain ⟨rest, c, hchain, hcur0, hc, hpath, hnext, hlo, hhi, hend⟩ := hv.current_node
  have hnd : chain.Nodup := (List.nodup_append.mp hv.nodup).1
  have hcf := hv.chain_ne_free
  have hrestm : ∀ x ∈ rest, x ∈ chain := fun x hx => hchain ▸ List.mem_cons_of_mem _ hx
  have hrc : ∀ x ∈ rest, x ≠ s.current := by
    intro x hx h
    rw [hchain] at hnd
    exact (List.nodup_cons.mp hnd).1 (h ▸ hx)
  have hnlr : NextLinked s.nodes s.current rest := by
    rw [hchain] at hnl
    exact hnl.2
  by_cases hsz : cfg.ARENA_MAX_SIZE ≤ size
  · have hfr : FreshFor size chain fl fresh :=
      ⟨hf0, by rw [max_eq_left hsz] at hfl; exact hfl, hfc, hft⟩
    obtain ⟨node, t, c', n, ha, hc', hn0, hnc, -, htc, -, -, -, hcur, hn, hnp, hnn, -, -, -,
      -, hl1, hframe⟩ := alloc_large_links hcfg hv hfr hsz
    rw [hc] at hc'
    cases hc'
    obtain ⟨node', t', rest', hchain', ha', hv'⟩ := alloc_large_valid hcfg hv hfr hsz
    rw [ha] at ha'
    simp only [Option.some.injEq, Prod.mk.injEq] at ha'
    obtain ⟨-, rfl⟩ := ha'
    have hrr : rest' = rest := by
      rw [hchain] at hchain'
      exact (List.cons.inj hchain').2.symm
    subst hrr
    have hnode : node' = node := by
      obtain ⟨-, -, v, hv1, hv2⟩ := PrevPath_cons hv'.chain_path
      rw [htc, hcur] at hv1
      cases hv1
      exact (PrevPath_cons hv2).1.symm
    subst hnode
    refine ⟨_, t, _, _, ha, hv', ⟨_, hcur, hnext⟩, ⟨n, hn, hnn⟩, ?_⟩
    cases hr : rest' with
    | nil => trivial
    | cons q r =>
      rw [hr] at hpath hnlr hrestm hrc
      obtain ⟨hq, hq0, -⟩ := PrevPath_cons hpath
      obtain ⟨⟨qn, hqn, -⟩, hnlq⟩ := NextLinked_cons hnlr
      have hp0 : c.prev ≠ 0 := hq0
      obtain ⟨-, -, -, qn', hqn', hqt⟩ := hl1 hp0
      refine ⟨⟨_, hq ▸ hqt, rfl⟩, hnlq.of_next_eq ?_⟩
      intro x hx m hm
      have hxr : x ∈ q :: r := List.mem_cons_of_mem _ hx
      have hxq : x ≠ c.prev := by
        rw [hq]
        intro h
        have : (q :: r).Nodup := by
          have := hnd
          rw [hchain, hr] at this
          exact (List.nodup_cons.mp this).2
        exact (List.nodup_cons.mp this).1 (h ▸ hx)
      refine ⟨m, ?_, rfl⟩
      rw [hframe x (hrc x hxr) (fun h => hnc (h ▸ hrestm x hxr)) hxq (hcf x (hrestm x hxr))]
      exact hm
  · have hsz' : size < cfg.ARENA_MAX_SIZE := not_le.1 hsz
    have hfr : FreshFor cfg.ARENA_MAX_SIZE chain fl fresh :=
      ⟨hf0, by rw [max_eq_right (le_of_lt hsz')] at hfl; exact hfl, hfc, hft⟩
    by_cases hfit : wadd (alignUp cfg c.pos) size ≤ c.end_
    · obtain ⟨p, t, ha, hv'⟩ := @alloc_small_fit_valid cfg hcfg s chain fl hv size fresh c hsz' hc hfit
      refine ⟨p, t, chain, fl, ha, hv', ?_⟩
      rw [alloc_small_fit cfg s size fresh c hsz' hc hfit] at ha
      simp only [Option.some.injEq, Prod.mk.injEq] at ha
      obtain ⟨-, rfl⟩ := ha
      refine hnl.of_next_eq ?_
      intro x hx m hm
      by_cases hxc : x = s.current
      · subst hxc
        rw [hc] at hm
        cases hm
        exact ⟨{ c with pos := wadd (alignUp cfg c.pos) size }, by simp, rfl⟩
      · exact ⟨m, by simp [Function.update_noteq hxc, hm], rfl⟩
    · obtain ⟨node, t, n, ha, hn0, hnc, htc, hn, hnp, hnn, hcur, hframe⟩ :=
        alloc_small_new_links hcfg hv hfr hsz' hc hfit
      obtain ⟨node', t', ha', hv'⟩ := alloc_small_new_valid hcfg hv hfr hsz' hc hfit
      rw [ha] at ha'
      simp only [Option.some.injEq, Prod.mk.injEq] at ha'
      obtain ⟨-, rfl⟩ := ha'
      have hnode : node' = node := by
        rw [← htc]
        exact (PrevPath_cons hv'.chain_path).1.symm
      subst hnode
      refine ⟨_, t, _, _, ha, hv', ⟨n, hn, hnn⟩, ?_⟩
      rw [hchain]
      refine ⟨⟨_, hcur, rfl⟩, hnlr.of_next_eq ?_⟩
      intro x hx m hm
      refine ⟨m, ?_, rfl⟩
      rw [hframe x (fun h => hnc (h ▸ hrestm x hx)) (hrc x hx) (hcf x (hrestm x hx))]
      exact hm

/-- The function `Arena_reset` keeps a valid state valid and doubly linked. -/
theorem Arena_reset_linked {cfg : Config} {s : State} {chain fl : List Nat}
    (hv : ValidWith cfg s chain fl) :
    ∃ t, Arena_reset s = some t ∧ ValidWith cfg t [s.current] (chain.tail ++ fl) ∧
      NextLinked t.nodes 0 [s.current] := by
  obtain ⟨t, ht, hv', -⟩ := Arena_reset_valid hv
  refine ⟨t, ht, hv', ?_, trivial⟩
  obtain ⟨hcur, -, n, hn, -⟩ := PrevPath_cons hv'.chain_path
  exact ⟨n, hcur ▸ hn, hv'.cur_next n hn⟩

/-- The large path of `Arena_resize` on the chunk `N` whose neighbours are live and
distinct from it and from the backend's answer `ret`. -/
theorem resize_large_spec (cfg : Config) (s : State) (ptr old_size new_size ret N : Nat)
    (n : ArenaNode) (hlarge : cfg.ARENA_MAX_SIZE ≤ old_size ∧ cfg.ARENA_MAX_SIZE < new_size)
    (hsub : wsub ptr (ARENA_NODE_SIZE cfg) = N) (hN : s.nodes N = some n) (hret : ret ≠ 0)
    (hp : n.prev ≠ 0 → n.prev ≠ N ∧ n.prev ≠ ret ∧ ∃ q, s.nodes n.prev = some q)
    (hx : n.next ≠ 0 → n.next ≠ N ∧ n.next ≠ ret ∧ n.next ≠ n.prev ∧
      ∃ m, s.nodes n.next = some m) :
    ∃ t, Arena_resize cfg s ptr old_size new_size ret = some (data ret, t) ∧
      t.log = BackendCall.resize N (wsub (wadd (ARENA_NODE_SIZE cfg) n.end_) (data N))
        (wadd new_size (ARENA_NODE_SIZE cfg)) ret :: s.log ∧
      t.live = (ret, wadd new_size (ARENA_NODE_SIZE cfg)) :: s.live.filter (fun r => r.1 ≠ N) ∧
      t.free = s.free ∧ t.last_allocation = s.last_allocation ∧
      t.nodes ret = some ⟨n.prev, n.next, wadd (data ret) new_size, wadd (data ret) new_size⟩ ∧
      (ret ≠ N → t.nodes N = none) ∧
      (n.prev = 0 → t.last = ret) ∧ (n.prev ≠ 0 → t.last = s.last) ∧
      (n.next = 0 → t.current = ret) ∧ (n.next ≠ 0 → t.current = s.current) ∧
      (∀ q, n.prev ≠ 0 → s.nodes n.prev = some q →
        t.nodes n.prev = some { q with next := ret }) ∧
      (∀ m, n.next ≠ 0 → s.nodes n.next = some m →
        t.nodes n.next = some { m with prev := ret }) ∧
      (∀ x, x ≠ ret → x ≠ N → x ≠ n.prev → x ≠ n.next → t.nodes x = s.nodes x) := by
  unfold Arena_resize
  rw [if_pos hlarge, hsub]
  by_cases hp0 : n.prev = 0
  · by_cases hx0 : n.next = 0
    · simp [ARENA_BACKEND_RESIZE, hN, hret, State.setEnd, State.setPos, State.setNode, bind,
        Option.bind, hp0, hx0]
      refine ⟨fun h => ?_, fun x h1 h2 _ => ?_⟩
      · rw [Function.update_noteq (Ne.symm h), Function.update_same]
      · rw [Function.update_noteq h1, Function.update_noteq h2]
    · obtain ⟨hxN, hxr, hxp, m, hm⟩ := hx hx0
      simp [ARENA_BACKEND_RESIZE, hN, hret, State.setEnd, State.setPos, State.setPrev,
        State.setNode, bind, Option.bind, hp0, hx0, hm, Function.update_noteq hxr,
        Function.update_noteq hxN, Function.update_noteq (Ne.symm hxr)]
      refine ⟨fun h => ?_, fun x h1 h2 _ h4 => ?_⟩
      · simp [Function.update_apply, Ne.symm h, Ne.symm hxN]
      · simp [Function.update_apply, h1, h2, h4]
  · obtain ⟨hpN, hpr, q, hq⟩ := hp hp0
    by_cases hx0 : n.next = 0
    · simp [ARENA_BACKEND_RESIZE, hN, hret, State.setEnd, State.setPos, State.setNext,
        State.setNode, bind, Option.bind, hp0, hx0, hq, Function.update_noteq hpr,
        Function.update_noteq hpN, Function.update_noteq (Ne.symm hpr)]
      refine ⟨fun h => ?_, fun x h1 h2 h3 _ => ?_⟩
      · simp [Function.update_apply, Ne.symm h, Ne.symm hpN]
      · simp [Function.update_apply, h1, h2, h3]
    · obtain ⟨hxN, hxr, hxp, m, hm⟩ := hx hx0
      simp [ARENA_BACKEND_RESIZE, hN, hret, State.setEnd, State.setPos, State.setNext,
        State.setPrev, State.setNode, bind, Option.bind, hp0, hx0, hq, hm,
        Function.update_noteq hpr, Function.update_noteq hpN, Function.update_noteq (Ne.symm hpr),
        Function.update_noteq hxr, Function.update_noteq hxN, Function.update_noteq (Ne.symm hxr),
        Function.update_noteq hxp, Function.update_noteq (Ne.symm hxp)]
      refine ⟨fun h => ?_, fun x h1 h2 h3 h4 => ?_⟩
      · simp [Function.update_apply, Ne.symm h, Ne.symm hpN, Ne.symm hxN]
      · simp [Function.update_apply, h1, h2, h3, h4]

/-- A `prev` path after its nodes were renamed. -/
theorem PrevPath.rename_prev {nodes nodes' : Nat → Option ArenaNode} {f : Nat → Nat}
    (hf0 : f 0 = 0) :
    ∀ {l : List Nat} {start : Nat}, PrevPath nodes start l → (∀ x ∈ l, f x ≠ 0) →
      (∀ x ∈ l, ∀ n, nodes x = some n → ∃ m, nodes' (f x) = some m ∧ m.prev = f n.prev) →
      PrevPath nodes' (f start) (l.map f) := by
  intro l
  induction l with
  | nil =>
    intro start h _ _
    have h0 : start = 0 := h
    rw [h0, hf0]
    rfl
  | cons b r ih =>
    intro start h hne hsame
    obtain ⟨hb, -, n, hn, hp⟩ := h
    subst hb
    obtain ⟨m, hm, hmp⟩ := hsame start (List.mem_cons_self _ _) n hn
    refine ⟨rfl, hne start (List.mem_cons_self _ _), m, hm, ?_⟩
    rw [hmp]
    exact ih hp (fun x hx => hne x (List.mem_cons_of_mem _ hx))
      (fun x hx => hsame x (List.mem_cons_of_mem _ hx))

/-- A doubly linked list after its nodes were renamed. -/
theorem NextLinked.rename_next {nodes nodes' : Nat → Option ArenaNode} {f : Nat → Nat} :
    ∀ {l : List Nat} {up : Nat}, NextLinked nodes up l →
      (∀ x ∈ l, ∀ n, nodes x = some n → ∃ m, nodes' (f x) = some m ∧ m.next = f n.next) →
      NextLinked nodes' (f up) (l.map f) := by
  intro l
  induction l with
  | nil => intro up _ _; trivial
  | cons b r ih =>
    intro up h hsame
    obtain ⟨⟨n, hn, hnx⟩, hr⟩ := h
    obtain ⟨m, hm, hmx⟩ := hsame b (List.mem_cons_self _ _) n hn
    refine ⟨⟨m, hm, by rw [hmx, hnx]⟩, ?_⟩
    exact ih hr (fun x hx => hsame x (List.mem_cons_of_mem _ hx))

/-- The last node of a `prev` path is the one without a `prev`. -/
theorem PrevPath.getLast_iff {nodes : Nat → Option ArenaNode} :
    ∀ {l : List Nat} {start : Nat}, PrevPath nodes start l → l.Nodup →
      ∀ N ∈ l, ∀ n, nodes N = some n → (n.prev = 0 ↔ l.getLast? = some N) := by
  intro l
  induction l with
  | nil => intro start _ _ N hN; cases hN
  | cons b r ih =>
    intro start h hnd N hN n hn
    obtain ⟨hb, hb0, nb, hnb, hp⟩ := h
    subst hb
    obtain ⟨hbr, hndr⟩ := List.nodup_cons.1 hnd
    cases r with
    | nil =>
      have hNb : N = start := by simpa using hN
      subst hNb
      rw [hnb] at hn
      cases hn
      have : n.prev = 0 := hp
      simp [this]
    | cons c r' =>
      rw [List.getLast?_cons_cons]
      rcases List.mem_cons.1 hN with rfl | hNr
      · rw [hnb] at hn
        cases hn
        obtain ⟨hc, hc0, -⟩ := PrevPath_cons hp
        constructor
        · intro h; exact absurd h hc0
        · intro h
          exact absurd (List.mem_of_getLast?_eq_some h) hbr
      · exact ih hp hndr N hNr n hn

/-- The large path of `Arena_resize` keeps a valid, doubly linked state valid and doubly
linked: the chain is the old one with `ret` in the place of `N`. -/
theorem resize_large_valid {cfg : Config} (hcfg : cfg.Valid) {s : State}
    {chain fl : List Nat} (hv : ValidWith cfg s chain fl)
    (hnl : NextLinked s.nodes 0 chain) {N : Nat} {n : ArenaNode} (hN : N ∈ chain)
    (hn : s.nodes N = some n) {old_size new_size ret : Nat}
    (hold : cfg.ARENA_MAX_SIZE ≤ old_size) (hnew : cfg.ARENA_MAX_SIZE < new_size)
    (hret0 : ret ≠ 0) (hlimit : ret + sizeof_ArenaNode + new_size < ADDR_LIMIT)
    (hret : ret = N ∨ ret ∉ chain ++ fl) :
    ∃ t, Arena_resize cfg s (data N) old_size new_size ret = some (data ret, t) ∧
      ValidWith cfg t (chain.map (moved N ret)) fl ∧
      NextLinked t.nodes 0 (chain.map (moved N ret)) := by
  have hW := WORD_eq
  have hL := ADDR_LIMIT_eq
  have hnd : chain.Nodup := (List.nodup_append.mp hv.nodup).1
  have hdisj : ∀ x ∈ chain, x ∉ fl := fun x hx => (List.nodup_append.mp hv.nodup).2.2 hx
  have h0 : (0 : Nat) ∉ chain := fun h => (hv.chain_path.mem_live 0 h).1 rfl
  have h0f : (0 : Nat) ∉ fl := fun h => (hv.free_path.mem_live 0 h).1 rfl
  have hN0 : N ≠ 0 := fun h => h0 (h ▸ hN)
  have hnb := chain_neighbours chain 0 s.current hv.chain_path hnl hnd h0
  obtain ⟨hpv, hnx, hpx⟩ := hnb N hN n hn
  obtain ⟨hlo, hhi⟩ := hv.node_ok N (List.mem_append_left _ hN) n hn
  unfold sizeof_ArenaNode at hlo hlimit
  have hnotin : ∀ x ∈ chain, x ≠ N → x ≠ ret := by
    intro x hx hxN h
    rcases hret with h' | h'
    · exact hxN (h.trans h')
    · exact h' (List.mem_append_left _ (h ▸ hx))
  have hnotinf : ∀ x ∈ fl, x ≠ ret := by
    intro x hx h
    rcases hret with h' | h'
    · exact hdisj N hN (h' ▸ h ▸ hx)
    · exact h' (List.mem_append_right _ (h ▸ hx))
  have hdN : data N = N + 32 := data_eq (by omega)
  have hdr : data ret = ret + 32 := data_eq (by omega)
  have hsub : wsub (data N) (ARENA_NODE_SIZE cfg) = N := by
    rw [ARENA_NODE_SIZE_eq hcfg, hdN]
    rw [wsub_eq (by omega) (by omega)]
    omega
  have hend : wadd (data ret) new_size = ret + 32 + new_size := by
    rw [hdr]; exact wadd_eq (by omega)
  have hpN : n.prev ≠ N := by
    rcases hpv with h | ⟨-, -, h, -⟩
    · rw [h]; exact hN0.symm
    · exact h
  have hxN : n.next ≠ N := by
    rcases hnx with ⟨h, -⟩ | ⟨-, -, h, -⟩
    · rw [h]; exact hN0.symm
    · exact h
  have hp : n.prev ≠ 0 → n.prev ≠ N ∧ n.prev ≠ ret ∧ ∃ q, s.nodes n.prev = some q := by
    intro h
    rcases hpv with h' | ⟨-, hm, hne, q, hq, -⟩
    · exact absurd h' h
    · exact ⟨hne, hnotin _ hm hne, q, hq⟩
  have hx : n.next ≠ 0 → n.next ≠ N ∧ n.next ≠ ret ∧ n.next ≠ n.prev ∧
      ∃ m, s.nodes n.next = some m := by
    intro h
    rcases hnx with ⟨h', -⟩ | ⟨-, hm, hne, -, m, hmm, -⟩
    · exact absurd h' h
    · refine ⟨hne, hnotin _ hm hne, ?_, m, hmm⟩
      intro e
      by_cases hp0 : n.prev = 0
      · exact h (e.trans hp0)
      · exact hpx hp0 e.symm
  -- a node whose `prev` is `N` is `N.next`; a node whose `next` is `N` is `N.prev`
  have hA : ∀ x ∈ chain, ∀ nx, s.nodes x = some nx → nx.prev = N → n.next = x := by
    intro x hx nx hnx' e
    rcases (hnb x hx nx hnx').1 with h | ⟨-, -, -, q, hq, hqx⟩
    · exact absurd (e.symm.trans h) hN0
    · rw [e, hn] at hq
      cases hq
      exact hqx
  have hB : ∀ x ∈ chain, ∀ nx, s.nodes x = some nx → nx.next = N → n.prev = x := by
    intro x hx nx hnx' e
    rcases (hnb x hx nx hnx').2.1 with ⟨h, -⟩ | ⟨-, -, -, -, m, hm, hmx⟩
    · exact absurd (e.symm.trans h) hN0
    · rw [e, hn] at hm
      cases hm
      exact hmx
  obtain ⟨t, hres, -, -, hfree, -, hnode, -, hl0, hl1, hc0, hc1, hq, hm, hframe⟩ :=
    resize_large_spec cfg s (data N) old_size new_size ret N n ⟨hold, hnew⟩ hsub hn hret0 hp hx
  have hf0 : moved N ret 0 = 0 := by simp [moved, hN0.symm]
  have hfN : moved N ret N = ret := by simp [moved]
  have hfne : ∀ x, x ≠ N → moved N ret x = x := fun x h => by simp [moved, h]
  have hget : ∀ x ∈ chain, ∀ nx, s.nodes x = some nx →
      ∃ m, t.nodes (moved N ret x) = some m ∧ m.prev = moved N ret nx.prev ∧
        m.next = moved N ret nx.next ∧
        (x = N → m.pos = ret + 32 + new_size ∧ m.end_ = ret + 32 + new_size) ∧
        (x ≠ N → m.pos = nx.pos ∧ m.end_ = nx.end_) := by
    intro x hx nx hnx'
    by_cases hxN' : x = N
    · subst hxN'
      rw [hn] at hnx'
      cases hnx'
      rw [hfN]
      exact ⟨_, hnode, (hfne _ hpN).symm, (hfne _ hxN).symm, fun _ => ⟨hend, hend⟩,
        fun h => absurd rfl h⟩
    · rw [hfne x hxN']
      have hx0 : x ≠ 0 := fun h => h0 (h ▸ hx)
      have hxr : x ≠ ret := hnotin x hx hxN'
      by_cases hxp : x = n.prev
      · have hp0 : n.prev ≠ 0 := hxp ▸ hx0
        have hnxt : nx.next = N := by
          rcases hpv with h | ⟨-, -, -, q, hq', hqn⟩
          · exact absurd h hp0
          · rw [← hxp, hnx'] at hq'
            cases hq'
            exact hqn
        have hprev : nx.prev ≠ N := by
          intro e
          have := hA x hx nx hnx' e
          exact hpx hp0 (hxp ▸ this.symm)
        refine ⟨{ nx with next := ret }, ?_, (hfne _ hprev).symm, ?_, fun h => absurd h hxN',
          fun _ => ⟨rfl, rfl⟩⟩
        · rw [hxp]
          exact hq nx hp0 (hxp ▸ hnx')
        · rw [hnxt, hfN]
      · by_cases hxx : x = n.next
        · have hx0' : n.next ≠ 0 := hxx ▸ hx0
          have hprv : nx.prev = N := by
            rcases hnx with ⟨h, -⟩ | ⟨-, -, -, -, m', hm', hmp⟩
            · exact absurd h hx0'
            · rw [← hxx, hnx'] at hm'
              cases hm'
              exact hmp
          have hnext : nx.next ≠ N := by
            intro e
            exact hxp (hB x hx nx hnx' e).symm
          refine ⟨{ nx with prev := ret }, ?_, ?_, (hfne _ hnext).symm,
            fun h => absurd h hxN', fun _ => ⟨rfl, rfl⟩⟩
          · rw [hxx]
            exact hm nx hx0' (hxx ▸ hnx')
          · rw [hprv, hfN]
        · have hprev : nx.prev ≠ N := fun e => hxx (hA x hx nx hnx' e).symm
          have hnext : nx.next ≠ N := fun e => hxp (hB x hx nx hnx' e).symm
          refine ⟨nx, ?_, (hfne _ hprev).symm, (hfne _ hnext).symm, fun h => absurd h hxN',
            fun _ => ⟨rfl, rfl⟩⟩
          rw [hframe x hxr hxN' hxp hxx]
          exact hnx'
  have hfl : ∀ x ∈ fl, t.nodes x = s.nodes x := by
    intro x hx
    have hxc : x ∉ chain := fun h => hdisj x h hx
    have hx0 : x ≠ 0 := fun h => h0f (h ▸ hx)
    refine hframe x (hnotinf x hx) (fun h => hxc (h ▸ hN)) ?_ ?_
    · intro h
      rcases hpv with h' | ⟨-, hm', -⟩
      · exact hx0 (h.trans h')
      · exact hxc (h ▸ hm')
    · intro h
      rcases hnx with ⟨h', -⟩ | ⟨-, hm', -⟩
      · exact hx0 (h.trans h')
      · exact hxc (h ▸ hm')
  obtain ⟨rest, c, hchain, hcur0, hc, -, hcnext, hclo, hchi, hcend⟩ := hv.current_node
  have hcm : s.current ∈ chain := by rw [hchain]; exact List.mem_cons_self _ _
  have htcur : t.current = moved N ret s.current := by
    rcases hnx with ⟨h, hNs⟩ | ⟨h, -, -, hNs, -⟩
    · rw [hc0 h, ← hNs, hfN]
    · rw [hc1 h, hfne _ (Ne.symm hNs)]
  have hfnz : ∀ x ∈ chain, moved N ret x ≠ 0 := by
    intro x hx
    by_cases hxN' : x = N
    · rw [hxN', hfN]; exact hret0
    · rw [hfne x hxN']; exact fun h => h0 (h ▸ hx)
  refine ⟨t, hres, ?_, ?_⟩
  · constructor
    · rw [htcur]
      refine hv.chain_path.rename_prev hf0 hfnz ?_
      intro x hx nx hnx'
      obtain ⟨m, h1, h2, -⟩ := hget x hx nx hnx'
      exact ⟨m, h1, h2⟩
    · rw [hfree]
      exact hv.free_path.frame hfl
    · refine List.nodup_append.2 ⟨?_, (List.nodup_append.mp hv.nodup).2.1, ?_⟩
      · refine hnd.map_on ?_
        intro x hx y hy e
        by_cases hxN' : x = N
        · by_cases hyN : y = N
          · rw [hxN', hyN]
          · rw [hxN', hfN, hfne y hyN] at e
            exact absurd e.symm (hnotin y hy hyN)
        · by_cases hyN : y = N
          · rw [hyN, hfN, hfne x hxN'] at e
            exact absurd e (hnotin x hx hxN')
          · rw [hfne x hxN', hfne y hyN] at e
            exact e
      · intro a ha haf
        obtain ⟨x, hx, rfl⟩ := List.mem_map.1 ha
        by_cases hxN' : x = N
        · rw [hxN', hfN] at haf
          exact hnotinf ret haf rfl
        · rw [hfne x hxN'] at haf
          exact hdisj x hx haf
    · rw [List.getLast?_map, hv.last_eq]
      have hiff := hv.chain_path.getLast_iff hnd N hN n hn
      by_cases hp0 : n.prev = 0
      · have : s.last = N := by
          have := hiff.1 hp0
          rw [hv.last_eq] at this
          exact Option.some.inj this
        simp [hl0 hp0, this, hfN]
      · have : s.last ≠ N := by
          intro e
          exact hp0 (hiff.2 (by rw [hv.last_eq, e]))
        simp [hl1 hp0, hfne _ this]
    · intro d hd
      obtain ⟨m, h1, -, h3, -⟩ := hget s.current hcm c hc
      rw [htcur, h1] at hd
      cases hd
      rw [h3, hcnext, hf0]
    · intro a ha d hd
      rcases List.mem_append.1 ha with h | h
      · obtain ⟨x, hx, rfl⟩ := List.mem_map.1 h
        obtain ⟨-, nx, hnx'⟩ := hv.chain_path.mem_live x hx
        obtain ⟨m, h1, -, -, h4, h5⟩ := hget x hx nx hnx'
        rw [h1] at hd
        cases hd
        by_cases hxN' : x = N
        · rw [hxN', hfN, (h4 hxN').2]
          unfold sizeof_ArenaNode
          omega
        · rw [hfne x hxN', (h5 hxN').2]
          exact hv.node_ok x (List.mem_append_left _ hx) nx hnx'
      · rw [hfl a h] at hd
        exact hv.node_ok a (List.mem_append_right _ h) d hd
    · intro d hd
      obtain ⟨m, h1, -, -, h4, h5⟩ := hget s.current hcm c hc
      rw [htcur, h1] at hd
      cases hd
      rw [htcur]
      by_cases hxN' : s.current = N
      · rw [hxN', hfN, (h4 hxN').1, (h4 hxN').2]
        unfold sizeof_ArenaNode
        omega
      · rw [hfne _ hxN', (h5 hxN').1, (h5 hxN').2]
        exact ⟨hclo, hchi⟩
  · have := @NextLinked.rename_next s.nodes t.nodes (moved N ret) chain 0 hnl ?_
    · rw [hf0] at this
      exact this
    · intro x hx nx hnx'
      obtain ⟨m, h1, -, h3, -⟩ := hget x hx nx hnx'
      exact ⟨m, h1, h3⟩

/-- A `prev` walk from a given start visits one list of nodes only. -/
theorem PrevPath.unique {nodes : Nat → Option ArenaNode} :
    ∀ {l l' : List Nat} {a : Nat}, PrevPath nodes a l → PrevPath nodes a l' → l = l' := by
  intro l
  induction l with
  | nil =>
    intro l' a h h'
    cases l' with
    | nil => rfl
    | cons b r => exact absurd (h : a = 0) h'.2.1
  | cons b r ih =>
    intro l' a h h'
    cases l' with
    | nil => exact absurd (h' : a = 0) h.2.1
    | cons b' r' =>
      obtain ⟨e, -, n, hn, hp⟩ := h
      obtain ⟨e', -, n', hn', hp'⟩ := h'
      rw [hn] at hn'
      cases hn'
      rw [← e, ← e', ih hp hp']

/-! ## The traced functions return what the functions return -/

/-- A traced step returns what the step returns. -/
theorem traced_toOption {α : Type} (s : State) (r : Option α) : (traced s r).toOption = r := by
  cases r <;> rfl

/-- Sequencing and `toOption`. -/
theorem toOption_bind {α β : Type} (x : Except State α) (f : α → Except State β) :
    (x >>= f).toOption = x.toOption.bind fun a => (f a).toOption := by
  cases x <;> rfl

/-- Mapping and `toOption`. -/
theorem toOption_map {α β : Type} (x : Except State α) (f : α → β) :
    (x.map f).toOption = x.toOption.map f := by
  cases x <;> rfl

/-- Returning and `toOption`. -/
theorem toOption_pure {α : Type} (x : α) : (pure x : Except State α).toOption = some x := rfl

/-- Branching and `toOption`. -/
theorem toOption_ite {α : Type} (c : Prop) [Decidable c] (x y : Except State α) :
    (if c then x else y).toOption = if c then x.toOption else y.toOption := by
  split <;> rfl

/-- The traced `Arena_create_node` returns what `Arena_create_node` returns. -/
theorem Arena_create_node_traced_toOption (cfg : Config) (s : State) (size fresh : Nat) :
    (Arena_create_node_traced cfg s size fresh).toOption = Arena_create_node cfg s size fresh := by
  unfold Arena_create_node_traced Arena_create_node
  simp only []
  by_cases hf : s.free ≠ 0
  · rw [if_pos hf, if_pos hf]
    rcases hn : s.nodes s.free with _ | n
    · rfl
    · simp only []
      by_cases hcap : wsub n.end_ (data s.free) ≥ size
      · rw [if_pos hcap, if_pos hcap]; rfl
      · rw [if_neg hcap, if_neg hcap]
        rw [show ∀ (x : Except State State) (f : State → Except State (Nat × State)),
            (x.bind f).toOption = x.toOption.bind fun a => (f a).toOption from
            fun x f => by cases x <;> rfl]
        rw [traced_toOption]
        congr 1
        funext a
        rw [toOption_map, traced_toOption]
  · rw [if_neg hf, if_neg hf, toOption_map, traced_toOption]

/-- The traced `Arena_alloc` returns what `Arena_alloc` returns. -/
theorem Arena_alloc_traced_toOption (cfg : Config) (s : State) (size fresh : Nat) :
    (Arena_alloc_traced cfg s size fresh).toOption = Arena_alloc cfg s size fresh := by
  unfold Arena_alloc_traced Arena_alloc
  by_cases hsz : size ≥ cfg.ARENA_MAX_SIZE
  · rw [if_pos hsz, if_pos hsz]
    simp only [toOption_bind, traced_toOption, Arena_create_node_traced_toOption, toOption_pure,
      toOption_ite]
    rfl
  · rw [if_neg hsz, if_neg hsz]
    simp only [toOption_bind, traced_toOption, Arena_create_node_traced_toOption, toOption_pure,
      toOption_ite]
    rfl

/-! ## The fallback `Arena_backend_resize` -/

/-- The fallback resize copies `old_size` bytes, whatever `new_size` is: every byte of
`[new_ptr, new_ptr + old_size)` is written. -/
theorem backend_resize_mem {s t : State} {ptr old_size new_size fresh r : Nat}
    (h : Arena_backend_resize s ptr old_size new_size fresh = some (r, t)) :
    r = fresh ∧ ∀ a, t.mem a =
      if fresh ≤ a ∧ a < fresh + old_size then s.mem (ptr + (a - fresh)) else s.mem a := by
  unfold Arena_backend_resize at h
  simp only at h
  split at h
  · rename_i x n hx hn
    unfold ARENA_BACKEND_DEALLOC at h
    split at h
    · simp at h
    · simp only [Option.map_some', Option.some.injEq, Prod.mk.injEq] at h
      obtain ⟨rfl, rfl⟩ := h
      refine ⟨rfl, fun a => ?_⟩
      unfold ARENA_BACKEND_ALLOC
      split <;> split <;> simp [ARENA_MEMCPY, State.setNode]
  · cases h

/-! ## Example states -/

/-- The example state with three chunks is valid. -/
theorem threeChunkArena_valid :
    ValidWith defaultConfig threeChunkArena [1048576, 3145728, 2097152] [] := by
  have h1 : threeChunkArena.nodes 1048576 = some ⟨3145728, 0, 1048708, 1064992⟩ := by decide
  have h2 : threeChunkArena.nodes 3145728 = some ⟨2097152, 1048576, 3165760, 3165760⟩ := by
    decide
  have h3 : threeChunkArena.nodes 2097152 = some ⟨0, 3145728, 2113568, 2113568⟩ := by decide
  have hc : threeChunkArena.current = 1048576 := by decide
  constructor
  · exact ⟨hc, by decide, _, h1, rfl, by decide, _, h2, rfl, by decide, _, h3, rfl⟩
  · exact (by decide : threeChunkArena.free = 0)
  · decide
  · exact congrArg some (by decide : (2097152 : Nat) = threeChunkArena.last)
  · intro c h
    rw [hc, h1] at h
    cases h; rfl
  · intro a ha n hn
    simp only [List.append_nil, List.mem_cons, List.mem_singleton, List.not_mem_nil,
      or_false] at ha
    rcases ha with rfl | rfl | rfl
    · rw [h1] at hn; cases hn; decide
    · rw [h2] at hn; cases hn; decide
    · rw [h3] at hn; cases hn; decide
  · intro c h
    rw [hc, h1] at h
    cases h; decide

/-- The example state with a cached chunk is valid. -/
theorem cachedChunkArena_valid :
    ValidWith defaultConfig cachedChunkArena [1048576] [2097152] := by
  have h1 : cachedChunkArena.nodes 1048576 = some ⟨0, 0, 1048608, 1064992⟩ := by decide
  have h2 : cachedChunkArena.nodes 2097152 = some ⟨0, 1048576, 2129952, 2129952⟩ := by decide
  have hc : cachedChunkArena.current = 1048576 := by decide
  have hf : cachedChunkArena.free = 2097152 := by decide
  constructor
  · exact ⟨hc, by decide, _, h1, rfl⟩
  · exact ⟨hf, by decide, _, h2, rfl⟩
  · decide
  · exact congrArg some (by decide : (1048576 : Nat) = cachedChunkArena.last)
  · intro c h
    rw [hc, h1] at h
    cases h; rfl
  · intro a ha n hn
    simp only [List.singleton_append, List.mem_cons, List.mem_singleton, List.not_mem_nil,
      or_false] at ha
    rcases ha with rfl | rfl
    · rw [h1] at hn; cases hn; decide
    · rw [h2] at hn; cases hn; decide
  · intro c h
    rw [hc, h1] at h
    cases h; decide

/-- C1 (as amended). From a fresh arena, a run of allocations with sizes below
`ARENA_MAX_SIZE` whose rounded sizes, together with the padding `ARENA_ALIGN(data)`
of the first cursor (zero when the backend returns an aligned region), sum to at
most `ARENA_MAX_SIZE` succeeds without any backend call, stays in the initial
chunk, returns addresses `p` with `data ≤ p` and `p + size ≤ end` (so `p < end`
for every non-empty allocation), and an earlier span ends before a later one
starts. -/
theorem C1_small_allocations_in_initial_chunk (cfg : Config) (hcfg : cfg.Valid) (h : Heap)
    (node : Nat) (hnode : node ≠ 0)
    (hlimit : node + sizeof_ArenaNode + cfg.ARENA_MAX_SIZE < ADDR_LIMIT)
    (reqs : List (Nat × Nat)) (hsize : ∀ r ∈ reqs, r.1 < cfg.ARENA_MAX_SIZE)
    (hsum : ARENA_ALIGN cfg (data node) + (reqs.map fun r => r.1 + ARENA_ALIGN cfg r.1).sum
      ≤ cfg.ARENA_MAX_SIZE) :
    ∃ s ps t, Arena_create cfg h node = some s ∧ alloc_seq cfg s reqs = some (ps, t) ∧
      ps.length = reqs.length ∧ t.current = node ∧ t.log = s.log ∧ t.live = s.live ∧
      (∃ d, t.nodes node = some d ∧ d.end_ = data node + cfg.ARENA_MAX_SIZE) ∧
      (∀ x ∈ ps.zip (reqs.map Prod.fst),
        data node ≤ x.1 ∧ x.1 + x.2 ≤ data node + cfg.ARENA_MAX_SIZE ∧
        (0 < x.2 → x.1 < data node + cfg.ARENA_MAX_SIZE)) ∧
      (ps.zip (reqs.map Prod.fst)).Pairwise fun a b => a.1 + a.2 ≤ b.1 := by
  have hL := ADDR_LIMIT_eq
  have hW := WORD_eq
  unfold sizeof_ArenaNode at hlimit
  have hdata : data node = node + 32 := data_eq (by omega)
  have hend : wadd (data node) cfg.ARENA_MAX_SIZE = node + 32 + cfg.ARENA_MAX_SIZE := by
    rw [hdata]; exact wadd_eq (by omega)
  have hup : alignUp cfg (node + 32) = node + 32 + ARENA_ALIGN cfg (node + 32) :=
    alignUp_eq hcfg (by omega)
  rw [hdata] at hsum
  have hcreate := Arena_create_eq cfg h hnode
  unfold Arena_created at hcreate
  rw [hend, hdata] at hcreate
  obtain ⟨ps, t, hrun, hcur, hlog, hlive, hlen, hd, hin, hpw⟩ :=
    alloc_seq_fit hcfg reqs
      { free := 0, current := node, last := node, last_allocation := 0
        nodes := Function.update h.nodes node
          (some ⟨0, 0, node + 32, node + 32 + cfg.ARENA_MAX_SIZE⟩)
        mem := h.mem
        live := (node, wadd (ARENA_NODE_SIZE cfg) cfg.ARENA_MAX_SIZE) :: h.live
        log := BackendCall.alloc (wadd (ARENA_NODE_SIZE cfg) cfg.ARENA_MAX_SIZE) node :: h.log }
      ⟨0, 0, node + 32, node + 32 + cfg.ARENA_MAX_SIZE⟩
      (by simp) (by simp only; omega)
      (by simp only; omega) hsize (by simp only [hup]; omega)
  refine ⟨_, ps, t, hcreate, hrun, hlen, hcur, hlog, hlive, ?_, ?_, hpw⟩
  · obtain ⟨d, hd1, hd2⟩ := hd
    rw [hcur] at hd1
    exact ⟨d, hd1, by rw [hd2, hdata]⟩
  · intro x hx
    have := hin x hx
    simp only at this
    rw [hdata]
    omega

/-- Witness for C1: two allocations of 100 and 50 bytes in the default configuration. -/
theorem C1_small_allocations_in_initial_chunk_witness :
    ∃ s ps t, Arena_create defaultConfig emptyHeap 1048576 = some s ∧
      alloc_seq defaultConfig s [(100, 0), (50, 0)] = some (ps, t) ∧
      ps.length = 2 ∧ t.current = 1048576 ∧ t.log = s.log ∧ t.live = s.live ∧
      (∃ d, t.nodes 1048576 = some d ∧ d.end_ = data 1048576 + 16384) ∧
      (∀ x ∈ ps.zip [100, 50],
        data 1048576 ≤ x.1 ∧ x.1 + x.2 ≤ data 1048576 + 16384 ∧
        (0 < x.2 → x.1 < data 1048576 + 16384)) ∧
      (ps.zip [100, 50]).Pairwise fun a b => a.1 + a.2 ≤ b.1 :=
  C1_small_allocations_in_initial_chunk defaultConfig
    defaultConfig_valid emptyHeap 1048576 (by decide) (by decide) [(100, 0), (50, 0)]
    (by decide) (by decide)

/-- C1 (counterexample). In the default configuration, with an aligned payload,
the sizes 8192, 8192 and 0 are all below `ARENA_MAX_SIZE` and their rounded sum
is exactly `ARENA_MAX_SIZE`; the third call returns `end` itself, which is not
below `end`. -/
theorem C1_counterexample :
    (∀ r ∈ [(8192, 0), (8192, 0), (0, 0)], r.1 < defaultConfig.ARENA_MAX_SIZE) ∧
    ARENA_ALIGN defaultConfig (data 1048576) +
      ([(8192, 0), (8192, 0), (0, 0)].map fun r => r.1 + ARENA_ALIGN defaultConfig r.1).sum
      ≤ defaultConfig.ARENA_MAX_SIZE ∧
    ((Arena_create defaultConfig emptyHeap 1048576).bind fun s =>
      (alloc_seq defaultConfig s [(8192, 0), (8192, 0), (0, 0)]).map Prod.fst)
      = some [1048608, 1056800, 1064992] ∧
    ¬ (1064992 < data 1048576 + defaultConfig.ARENA_MAX_SIZE) := by
  decide

/-! ## C2: resizing the last allocation in place -/

/-- C2 (as amended). When a small-path `Arena_alloc` of `old_size` bytes has just
returned `p` in a valid state, so that `p` is `last_allocation`,
`Arena_resize(arena, p, old_size, new_size)` with `p + new_size ≤ current.end`
returns `p` and only stores `p + new_size` into `current.pos`: the arena record,
every other header, the bytes, the live regions and the backend log are those of
the state before; with `new_size = old_size` the state is unchanged. -/
theorem C2_resize_last_allocation_in_place (cfg : Config) (hcfg : cfg.Valid) (s : State)
    (chain fl : List Nat) (hv : ValidWith cfg s chain fl) (old_size fresh : Nat)
    (hfresh : FreshFor cfg.ARENA_MAX_SIZE chain fl fresh)
    (hsmall : old_size < cfg.ARENA_MAX_SIZE) :
    ∃ p t c, Arena_alloc cfg s old_size fresh = some (p, t) ∧ t.nodes t.current = some c ∧
      ∀ new_size fresh', p + new_size ≤ c.end_ →
        Arena_resize cfg t p old_size new_size fresh' =
          some (p, t.setNode t.current { c with pos := p + new_size }) ∧
        (new_size = old_size → Arena_resize cfg t p old_size new_size fresh' = some (p, t)) := by
  have hW := WORD_eq
  have hL := ADDR_LIMIT_eq
  obtain ⟨p, t, c, halloc, hlast, hp0, hc, hpos, hlo, hhi, hend⟩ :=
    alloc_small_post hcfg hv hfresh hsmall
  refine ⟨p, t, c, halloc, hc, ?_⟩
  intro new_size fresh' hfit
  have hback : wsub c.pos old_size = p := by
    rw [hpos, ← wadd_eq (show p + old_size < WORD by omega)]
    exact wsub_wadd_cancel (by omega)
  have hnew : wadd (wsub c.pos old_size) new_size = p + new_size := by
    rw [hback]; exact wadd_eq (by omega)
  have hres := resize_inplace cfg t p old_size new_size fresh' c (by omega) hp0 hlast.symm hc
    (by rw [hnew]; exact hfit)
  rw [hnew] at hres
  refine ⟨hres, ?_⟩
  intro heq
  rw [hres, heq, ← hpos]
  have : t.setNode t.current { c with pos := c.pos } = t := by
    simp [State.setNode, ← hc]
  rw [this]

/-- Witness for C2: the first allocation of 100 bytes in a fresh default arena. -/
theorem C2_resize_last_allocation_in_place_witness :
    ∃ p t c, Arena_alloc defaultConfig (Arena_created defaultConfig emptyHeap 1048576) 100
        2097152 = some (p, t) ∧ t.nodes t.current = some c ∧
      ∀ new_size fresh', p + new_size ≤ c.end_ →
        Arena_resize defaultConfig t p 100 new_size fresh' =
          some (p, t.setNode t.current { c with pos := p + new_size }) ∧
        (new_size = 100 → Arena_resize defaultConfig t p 100 new_size fresh' = some (p, t)) :=
  C2_resize_last_allocation_in_place defaultConfig defaultConfig_valid
    (Arena_created defaultConfig emptyHeap 1048576) [1048576] []
    (Arena_created_valid emptyHeap (by decide) (by decide)) 100 2097152
    ⟨by decide, by decide, by decide, by decide⟩ (by decide)

/-- C2 as stated fails. Default configuration: `p = alloc(100)` returns `1048608` from the
initial chunk, and `alloc(16384)` is then served by a chunk of its own at `2097152`. `p` is
still the address of the most recent small-path allocation and `p + 200 ≤ current.end`,
but the large request has recorded its own address `2097184` as `last_allocation`, so
`resize(p, 100, 200)` does not return `p`: it allocates `200` bytes at `1048712` and copies. -/
theorem C2_counterexample :
    (do
      let s ← Arena_create defaultConfig emptyHeap 1048576
      let (p, s) ← Arena_alloc defaultConfig s 100 0
      let (l, s) ← Arena_alloc defaultConfig s 16384 2097152
      let c ← s.nodes s.current
      let (r, t) ← Arena_resize defaultConfig s p 100 200 0
      let d ← t.nodes t.current
      pure (p, l, s.current, s.last_allocation, c.pos, c.end_, r, d.pos))
      = some (1048608, 2097184, 1048576, 2097184, 1048708, 1064992, 1048712, 1048912) ∧
    (100 : Nat) < defaultConfig.ARENA_MAX_SIZE ∧ 1048608 + 200 ≤ 1064992 ∧
    (1048712 : Nat) ≠ 1048608 := by
  exact ⟨by rfl, by decide, by decide, by decide⟩

/-! ## C3 and C4: the fallback path of `Arena_resize` -/

/-- C3 (failing input). Default configuration: `p = alloc(0)`, `q = alloc(8)`,
then `resize(p, 0, 4)`. The zero-length allocation shares its address with `q`,
so `p` equals `last_allocation`, the in-place path is taken and the call
returns `p` itself; the cursor moves to `p + 12`, and the four bytes now
allotted to `p` lie inside the eight bytes of `q`. -/
theorem C3_zero_length_resized_in_place :
    (do
      let s ← Arena_create defaultConfig emptyHeap 1048576
      let (p, s) ← Arena_alloc defaultConfig s 0 0
      let (q, s) ← Arena_alloc defaultConfig s 8 0
      let (r, s) ← Arena_resize defaultConfig s p 0 4 0
      let c ← s.nodes s.current
      pure (p, q, r, c.pos, s.log))
      = some (1048608, 1048608, 1048608, 1048620, [BackendCall.alloc 16416 1048576]) := by
  rfl

/-- C4 (failing input). Default configuration, bytes initially `a % 256` at
address `a`: `A = alloc(100)`, `B = alloc(50)`, `C = resize(A, 100, 60)`.
The fallback path copies `old_size = 100` bytes: the bytes at `C + 60` and
`C + 99`, outside the 60 bytes of the new allocation, are overwritten with the
bytes of `A + 60` and `A + 99`. -/
theorem C4_fallback_copies_old_size :
    (do
      let s ← Arena_create defaultConfig emptyHeap 1048576
      let (a, s) ← Arena_alloc defaultConfig s 100 0
      let (_, s) ← Arena_alloc defaultConfig s 50 0
      let before := s.mem
      let (c, s) ← Arena_resize defaultConfig s a 100 60 0
      pure (a, c, (before (c + 60), s.mem (c + 60), before (a + 60)),
        (before (c + 99), s.mem (c + 99), before (a + 99)),
        (before (c + 100), s.mem (c + 100))))
      = some (1048608, 1048768, (252, 92, 92), (35, 131, 131), (36, 36)) := by
  rfl

/-! ## C5: large allocations -/

/-- C5 (as amended). In a valid state a request of `size ≥ ARENA_MAX_SIZE` bytes
returns the payload start of a chunk that is not `current` and was not in the
chain, with cursor `data + size` and capacity at least `size`. When the free
list has a head whose capacity is at least `size`, the chunk is that head, with
the capacity it already had, and the backend is not called. When the free list
is empty or its head is too small, the chunk is the backend's answer, with
capacity exactly `size`, and the last backend call is the request for it. -/
theorem C5_large_allocation_chunk (cfg : Config) (hcfg : cfg.Valid) (s : State)
    (chain fl : List Nat) (hv : ValidWith cfg s chain fl) (size fresh : Nat)
    (hfresh : FreshFor size chain fl fresh) (hlarge : cfg.ARENA_MAX_SIZE ≤ size) :
    ∃ node t n, Arena_alloc cfg s size fresh = some (data node, t) ∧
      t.nodes node = some n ∧ n.pos = data node + size ∧ data node + size ≤ n.end_ ∧
      node ∉ chain ∧ t.current = s.current ∧ n.next = s.current ∧
      ((node = fresh ∧ n.end_ = data node + size) ∨
       (node = s.free ∧ s.free ≠ 0 ∧ t.log = s.log ∧
          ∃ m, s.nodes s.free = some m ∧ n.end_ = m.end_)) ∧
      (∀ m, s.free ≠ 0 → s.nodes s.free = some m → data s.free + size ≤ m.end_ →
        node = s.free ∧ n.end_ = m.end_ ∧ t.log = s.log ∧ t.live = s.live) ∧
      (s.free = 0 ∨ (∃ m, s.nodes s.free = some m ∧ m.end_ < data s.free + size) →
        node = fresh ∧ n.end_ = data node + size ∧
        t.log.head? = some (BackendCall.alloc (sizeof_ArenaNode + size) fresh)) := by
  have hW := WORD_eq
  have hL := ADDR_LIMIT_eq
  obtain ⟨rest, c, hchain, hcur0, hc, hpath, -, -, -, -⟩ := hv.current_node
  obtain ⟨hf0, hfl, hfc, -⟩ := hfresh
  unfold sizeof_ArenaNode at hfl
  have hcm : s.current ∈ chain := by rw [hchain]; exact List.mem_cons_self _ _
  have hfree : s.free = 0 ∨ ∃ n, s.nodes s.free = some n ∧ s.free ∉ chain ∧
      s.free + 32 ≤ n.end_ ∧ n.end_ < ADDR_LIMIT := by
    rcases hv.free_node with ⟨h0, -⟩ | ⟨r, n, -, h0, hn, -, hnc, hlo, hhi⟩
    · exact Or.inl h0
    · exact Or.inr ⟨n, hn, hnc, hlo, hhi⟩
  have hfreec : ∀ a ∈ chain, a ≠ s.free := by
    intro a ha
    rcases hv.free_node with ⟨h0, -⟩ | ⟨r, n, -, -, -, -, hnc, -⟩
    · rw [h0]
      exact (hv.chain_path.mem_live a ha).1
    · exact fun h => hnc (h ▸ ha)
  obtain ⟨node, t, n, hcreate, hn, hn0, hnc, hcap, hnend, hframe, htc, -, -, -, hcase⟩ :=
    create_node_spec hcfg s size fresh chain hfree hf0 hfl hfc
  have hne : node ≠ t.current := fun h => hnc (by rw [h, htc]; exact hcm)
  have hd : t.nodes t.current = some c := by
    rw [htc, hframe s.current (fun h => hnc (h ▸ hcm)) (hfreec _ hcm)]
    exact hc
  have hdata : data node = node + 32 := data_eq (by omega)
  have hw : wadd (data node) size = node + 32 + size := by
    rw [hdata]; exact wadd_eq (by omega)
  have hcase' : (node = fresh ∧ n.end_ = data node + size) ∨
      (node = s.free ∧ s.free ≠ 0 ∧ t.log = s.log ∧ ∃ m, s.nodes s.free = some m ∧ n.end_ = m.end_) := by
    rcases hcase with ⟨h1, h2, h3, h4, -, -⟩ | ⟨h1, h2, -⟩
    · exact Or.inr ⟨h1, h2, h4, n, h3, rfl⟩
    · left
      refine ⟨h1, ?_⟩
      rw [hdata, h2, h1]
  have hreuse : ∀ m, s.free ≠ 0 → s.nodes s.free = some m → data s.free + size ≤ m.end_ →
      node = s.free ∧ n.end_ = m.end_ ∧ t.log = s.log ∧ t.live = s.live := by
    intro m hf hm hcapm
    have hbounds := hv.node_ok s.free (by
      rcases hv.free_node with ⟨h0, -⟩ | ⟨r, n', hfl', -⟩
      · exact absurd h0 hf
      · rw [hfl']; simp) m hm
    unfold sizeof_ArenaNode at hbounds
    have hds : data s.free = s.free + 32 := data_eq (by omega)
    have hcapw : size ≤ wsub m.end_ (data s.free) := by
      rw [hds] at hcapm ⊢
      rw [wsub_eq (by omega) (by omega)]
      omega
    have := create_node_reuse cfg s size fresh m hf hm hcapw
    rw [hcreate] at this
    simp only [Option.some.injEq, Prod.mk.injEq] at this
    obtain ⟨e1, e2⟩ := this
    subst e2
    rw [e1] at hn
    simp only at hn
    rw [hm] at hn
    cases hn
    exact ⟨e1, rfl, rfl, rfl⟩
  have hfreshc : (s.free = 0 ∨ (∃ m, s.nodes s.free = some m ∧ m.end_ < data s.free + size)) →
      node = fresh ∧ n.end_ = data node + size ∧
      t.log.head? = some (BackendCall.alloc (sizeof_ArenaNode + size) fresh) := by
    intro hcond
    have hnsz : ARENA_NODE_SIZE cfg = 32 := ARENA_NODE_SIZE_eq hcfg
    have hwsz : wadd (ARENA_NODE_SIZE cfg) size = sizeof_ArenaNode + size := by
      rw [hnsz]; exact wadd_eq (by omega)
    have hdf : data fresh = fresh + 32 := data_eq (by omega)
    have hwf : wadd (data fresh) size = data fresh + size := by
      rw [hdf]; exact wadd_eq (by omega)
    by_cases hf : s.free = 0
    · have := create_node_fresh cfg s size hf hf0
      rw [hcreate] at this
      simp only [Option.some.injEq, Prod.mk.injEq] at this
      obtain ⟨e1, e2⟩ := this
      subst e2
      subst e1
      simp only [Function.update_same, Option.some.injEq] at hn
      subst hn
      exact ⟨rfl, hwf, by simp [hwsz]⟩
    · rcases hcond with h0 | ⟨m, hm, hsmall⟩
      · exact absurd h0 hf
      · have hbounds := hv.node_ok s.free (by
          rcases hv.free_node with ⟨h0, -⟩ | ⟨r, n', hfl', -⟩
          · exact absurd h0 hf
          · rw [hfl']; simp) m hm
        unfold sizeof_ArenaNode at hbounds
        have hds : data s.free = s.free + 32 := data_eq (by omega)
        have hcapw : ¬ size ≤ wsub m.end_ (data s.free) := by
          rw [hds] at hsmall ⊢
          rw [wsub_eq (by omega) (by omega)]
          omega
        have := create_node_evict cfg s size m hf hm hcapw hf0
        rw [hcreate] at this
        simp only [Option.some.injEq, Prod.mk.injEq] at this
        obtain ⟨e1, e2⟩ := this
        subst e2
        subst e1
        simp only [Function.update_same, Option.some.injEq] at hn
        subst hn
        exact ⟨rfl, hwf, by simp [hwsz]⟩
  cases rest with
  | nil =>
    have hprev : c.prev = 0 := hpath
    refine ⟨node, _, ⟨0, t.current, wadd (data node) size, n.end_⟩,
      alloc_large_last cfg s size fresh node t n c hlarge hcreate hn hd hne hprev,
      by simp, ?_, ?_, hnc, htc, htc, hcase', hreuse, hfreshc⟩
    · exact hw.trans (by rw [hdata])
    · simp only [hdata]; omega
  | cons q r =>
    obtain ⟨hq, hq0, qn, hqn, -⟩ := PrevPath_cons hpath
    have hqm : q ∈ chain := by rw [hchain]; simp
    have hqnode : c.prev ≠ node := fun h => hnc (by rw [← h, hq]; exact hqm)
    have hqcur : c.prev ≠ t.current := by
      rw [htc, hq]
      have hnd := hv.nodup
      rw [hchain] at hnd
      simp only [List.cons_append, List.nodup_cons, List.mem_cons, List.mem_append] at hnd
      intro h
      exact hnd.1 (Or.inl h.symm)
    have hqt : t.nodes c.prev = some qn := by
      rw [hframe c.prev hqnode (by rw [hq]; exact hfreec q hqm)]
      exact hqn
    refine ⟨node, _, ⟨c.prev, t.current, wadd (data node) size, n.end_⟩,
      alloc_large_mid cfg s size fresh node t n c qn hlarge hcreate hn hd hne
        hq0 hqt hqnode hqcur,
      by simp [Function.update_noteq (Ne.symm hqnode)], ?_, ?_, hnc, htc, htc, hcase', hreuse,
      hfreshc⟩
    · exact hw.trans (by rw [hdata])
    · simp only [hdata]; omega

/-- Witness for C5: a request of `ARENA_MAX_SIZE` bytes in the example state with a cached
chunk of `32768` bytes, which is reused with the capacity it has and without a backend
call. -/
theorem C5_large_allocation_chunk_witness :
    ∃ node t n, Arena_alloc defaultConfig cachedChunkArena 16384 4194304
        = some (data node, t) ∧
      t.nodes node = some n ∧ n.pos = data node + 16384 ∧ data node + 16384 ≤ n.end_ ∧
      node ∉ [1048576] ∧ t.current = cachedChunkArena.current ∧
      n.next = cachedChunkArena.current ∧
      node = 2097152 ∧ n.end_ = 2129952 ∧ t.log = cachedChunkArena.log ∧
      t.live = cachedChunkArena.live := by
  obtain ⟨node, t, n, h1, h2, h3, h4, h5, h6, h7, -, hreuse, -⟩ :=
    C5_large_allocation_chunk defaultConfig defaultConfig_valid cachedChunkArena
      [1048576] [2097152] cachedChunkArena_valid 16384 4194304
      ⟨by decide, by decide, by decide, by decide⟩ (by decide)
  obtain ⟨e1, e2, e3, e4⟩ := hreuse ⟨0, 1048576, 2129952, 2129952⟩ (by decide) (by decide)
    (by decide)
  exact ⟨node, t, n, h1, h2, h3, h4, h5, h6, h7, e1, e2, e3, e4⟩

/-- C5 (counterexample). Default configuration: a 32768-byte allocation is made
and the arena is reset, which leaves that chunk in the free cache. The next
request, of 16384 bytes, is answered with the payload of the cached chunk,
whose capacity `end - data` is 32768 and not 16384. -/
theorem C5_counterexample :
    (do
      let s ← Arena_create defaultConfig emptyHeap 1048576
      let (_, s) ← Arena_alloc defaultConfig s 32768 2097152
      let s ← Arena_reset s
      let (p, s) ← Arena_alloc defaultConfig s 16384 4194304
      let n ← s.nodes 2097152
      pure (p, data 2097152, n.end_ - data 2097152, n.pos - data 2097152, s.log.length))
      = some (2097184, 2097184, 32768, 16384, 2) := by
  decide

/-! ## C6: reset -/

/-- C6. In a valid state `Arena_reset` succeeds and keeps `current`; afterwards
`last` is `current`, the header of `current` has null `prev` and `next` and
its cursor is at the start of the payload, and `last_allocation` is null.
A following `Arena_resize` on a non-null pointer with sizes that do not select
the large path is `Arena_alloc(new_size)` followed by `ARENA_MEMCPY`. -/
theorem C6_reset_state (cfg : Config) (s : State) (chain fl : List Nat)
    (hv : ValidWith cfg s chain fl) :
    ∃ t c, Arena_reset s = some t ∧ t.current = s.current ∧ t.last = s.current ∧
      t.nodes s.current = some c ∧ c.prev = 0 ∧ c.next = 0 ∧ c.pos = data s.current ∧
      t.last_allocation = 0 ∧
      ∀ ptr old_size new_size fresh, ptr ≠ 0 →
        ¬ (cfg.ARENA_MAX_SIZE ≤ old_size ∧ cfg.ARENA_MAX_SIZE < new_size) →
        Arena_resize cfg t ptr old_size new_size fresh =
          (Arena_alloc cfg t new_size fresh).map fun r =>
            (r.1, ARENA_MEMCPY r.2 r.1 ptr old_size) := by
  obtain ⟨rest, c, hchain, hcur0, hc, hpath, hnext, -, -, -⟩ := hv.current_node
  by_cases hlast : s.current = s.last
  · have hs := hv.single hlast
    rw [hchain] at hs
    have hrest : rest = [] := by simpa using hs
    subst hrest
    have hprev : c.prev = 0 := hpath
    refine ⟨_, { c with pos := data s.current }, reset_single s c hlast hc, rfl, hlast.symm,
      by simp, hprev, hnext, rfl, rfl, ?_⟩
    intro ptr old_size new_size fresh hptr hlarge
    exact resize_fallback cfg _ ptr old_size new_size fresh hlarge (fun h => hptr (h.2))
  · obtain ⟨-, -, l, hl⟩ := hv.last_node
    refine ⟨_, ⟨0, 0, data s.current, c.end_⟩, reset_multi s c l hlast hc hl, rfl, rfl,
      by simp, rfl, rfl, rfl, rfl, ?_⟩
    intro ptr old_size new_size fresh hptr hlarge
    exact resize_fallback cfg _ ptr old_size new_size fresh hlarge (fun h => hptr (h.2))

/-- Witness for C6: reset of the example state with three chunks, whose cursor stands
`100` bytes into the payload of `current` and whose `last_allocation` is not null. -/
theorem C6_reset_state_witness :
    ∃ t c, Arena_reset threeChunkArena = some t ∧ t.current = threeChunkArena.current ∧
      t.last = threeChunkArena.current ∧
      t.nodes threeChunkArena.current = some c ∧ c.prev = 0 ∧ c.next = 0 ∧
      c.pos = data threeChunkArena.current ∧
      t.last_allocation = 0 ∧
      ∀ ptr old_size new_size fresh, ptr ≠ 0 →
        ¬ (defaultConfig.ARENA_MAX_SIZE ≤ old_size ∧ defaultConfig.ARENA_MAX_SIZE < new_size) →
        Arena_resize defaultConfig t ptr old_size new_size fresh =
          (Arena_alloc defaultConfig t new_size fresh).map fun r =>
            (r.1, ARENA_MEMCPY r.2 r.1 ptr old_size) :=
  C6_reset_state defaultConfig threeChunkArena [1048576, 3145728, 2097152] []
    threeChunkArena_valid

/-! ## C7: what reset keeps -/

/-- C7 (as amended). `Arena_reset` on a valid arena whose chain has two or more
chunks makes no backend call and releases nothing: every detached chunk stays
live, and the free list becomes the detached chunks, starting with the
predecessor of `current`, followed by the chunks that were cached before. -/
theorem C7_reset_keeps_every_chunk (cfg : Config) (s : State) (c q : Nat) (rest fl : List Nat)
    (hv : ValidWith cfg s (c :: q :: rest) fl) :
    ∃ t, Arena_reset s = some t ∧ ValidWith cfg t [c] (q :: rest ++ fl) ∧
      t.free = q ∧ t.log = s.log ∧ t.live = s.live := by
  obtain ⟨t, hreset, hvalid, hlog, hlive, -⟩ := Arena_reset_valid hv
  have hcur : s.current = c := (PrevPath_cons hv.chain_path).1
  rw [hcur] at hvalid
  simp only [List.tail_cons] at hvalid
  have hfree : t.free = q := (PrevPath_cons hvalid.free_path).1
  exact ⟨t, hreset, hvalid, hfree, hlog, hlive⟩

/-- Witness for C7: reset of the example state with three chunks caches two of them. -/
theorem C7_reset_keeps_every_chunk_witness :
    ∃ t, Arena_reset threeChunkArena = some t ∧
      ValidWith defaultConfig t [1048576] (3145728 :: [2097152] ++ []) ∧
      t.free = 3145728 ∧ t.log = threeChunkArena.log ∧ t.live = threeChunkArena.live :=
  C7_reset_keeps_every_chunk defaultConfig threeChunkArena 1048576 3145728 [2097152] []
    threeChunkArena_valid

/-- C7 (counterexample). Default configuration, three requests of 16000 bytes:
the second and the third each open a new chunk, so the chain has three chunks.
After `Arena_reset` the free list holds two chunks (`free` and `free->prev`),
all three regions are still live, and the backend log holds the three
allocate calls and no deallocate call. -/
theorem C7_counterexample :
    (do
      let s ← Arena_create defaultConfig emptyHeap 1048576
      let (_, s) ← Arena_alloc defaultConfig s 16000 0
      let (_, s) ← Arena_alloc defaultConfig s 16000 2097152
      let (_, s) ← Arena_alloc defaultConfig s 16000 3145728
      let s ← Arena_reset s
      let f ← s.nodes s.free
      let g ← s.nodes f.prev
      pure (s.current, s.free, f.prev, g.prev, s.live, s.log))
      = some (3145728, 2097152, 1048576, 0,
          [(3145728, 16416), (2097152, 16416), (1048576, 16416)],
          [BackendCall.alloc 16416 3145728, BackendCall.alloc 16416 2097152,
            BackendCall.alloc 16416 1048576]) := by
  rfl

/-! ## C8 and C9: resizing a large allocation that is the last allocation -/

/-- C8 (failing input). After the calls of `sharedChunkRun` the chunk at
`1028096` is the tail of the chain (`current->prev->prev`) and also the head of
the free list; `Arena_destroy` links it to itself and then reads its header
again after releasing it, whatever the bound on the loop. -/
theorem C8_chunk_in_chain_and_free_list :
    (sharedChunkRun.bind fun s =>
      (s.nodes s.current).bind fun c =>
        (s.nodes c.prev).map fun d => (s.current, c.prev, d.prev, s.last, s.free, s.live))
      = some (1048576, 1003520, 1028096, 1028096, 1028096,
          [(1028096, 16417), (1003520, 20520), (1048576, 16416)]) ∧
    ∀ fuel, sharedChunkRun.bind (Arena_destroy defaultConfig fuel) = none := by
  refine ⟨rfl, ?_⟩
  intro fuel
  rcases fuel with _ | _ | _ | _ | n <;> rfl

/-- C9 (failing input). Default configuration: `A = alloc(16384)` takes the
large path and records `A` as `last_allocation`; `resize(A, 16384, 10)` then
takes the in-place path and subtracts 16384 from the cursor of `current`,
which ends `16374` bytes below the start of its payload. -/
theorem C9_cursor_below_data :
    (do
      let s ← Arena_create defaultConfig emptyHeap 1048576
      let (a, s) ← Arena_alloc defaultConfig s 16384 1028096
      let (r, s) ← Arena_resize defaultConfig s a 16384 10 0
      let c ← s.nodes s.current
      pure (a, r, s.current, data s.current, c.pos, c.end_))
      = some (1028128, 1028128, 1048576, 1048608, 1032234, 1064992) ∧
    ¬ (1048608 ≤ 1032234) := by
  exact ⟨rfl, by decide⟩

/-- A second way past `end`, without any resize. Default configuration: a chunk of
capacity 20001 is cached by a reset and becomes `current` again; two requests fill it
exactly, and the next request first pads the cursor to `end + 7` and only then finds that
it does not fit. The chunk stays in the chain with its cursor past `end`. -/
theorem retired_chunk_cursor_past_end :
    (do
      let s ← Arena_create defaultConfig emptyHeap 1048576
      let (_, s) ← Arena_alloc defaultConfig s 20001 2097152
      let s ← Arena_reset s
      let (_, s) ← Arena_alloc defaultConfig s 16000 0
      let (_, s) ← Arena_alloc defaultConfig s 16000 0
      let (_, s) ← Arena_alloc defaultConfig s 4001 0
      let (_, s) ← Arena_alloc defaultConfig s 8 3145728
      let c ← s.nodes s.current
      let n ← s.nodes c.prev
      pure (s.current, c.prev, n.pos, n.end_))
      = some (3145728, 2097152, 2117192, 2117185) := by
  rfl

/-! ## C10: the end-to-end scenario -/

/-- C10 (as amended). In the end-to-end scenario the three small requests are
served from the initial chunk at `data`, `data + 104` and `data + 160`, and
the reset leaves the free cache empty. The last call, `alloc(4096)`, takes the
large path: it makes one backend allocate call of `32 + 4096` bytes, returns
the payload of that new region, and leaves the initial chunk as `current`. -/
theorem C10_scenario_last_call (h : Heap) (node f1 f2 f3 f4 : Nat) (hnode : node ≠ 0)
    (haligned : 8 ∣ node) (hlimit : node + sizeof_ArenaNode + 4096 < ADDR_LIMIT)
    (hfresh : FreshFor 4096 [node] [] f4) :
    ∃ t, endToEnd h node f1 f2 f3 f4 =
        some (node + 32, node + 136, node + 192, f4 + 32,
          BackendCall.alloc 4128 node :: h.log, t) ∧
      t.log = BackendCall.alloc 4128 f4 :: BackendCall.alloc 4128 node :: h.log ∧
      t.current = node ∧ t.last = f4 ∧ t.free = 0 := by
  have hL := ADDR_LIMIT_eq
  have hW := WORD_eq
  have hcfg := scenarioConfig_valid
  obtain ⟨hf0, hfl, hfc, -⟩ := hfresh
  unfold sizeof_ArenaNode at hlimit hfl
  have hA : scenarioConfig.ARENA_ALIGNMENT = 8 := rfl
  have hM : scenarioConfig.ARENA_MAX_SIZE = 4096 := rfl
  have hup : ∀ p, p < ADDR_LIMIT → alignUp scenarioConfig p = (p + 7) / 8 * 8 := by
    intro p hp
    rw [alignUp_eq hcfg hp, ARENA_ALIGN_eq_mod hcfg, hA, hW]
    omega
  have hdata : data node = node + 32 := data_eq (by omega)
  have hend : wadd (data node) 4096 = node + 4128 := by
    rw [hdata]; exact wadd_eq (by omega)
  have hns : ARENA_NODE_SIZE scenarioConfig = 32 := ARENA_NODE_SIZE_eq hcfg
  have hne : f4 ≠ node := by simpa using hfc
  have hdf : data f4 = f4 + 32 := data_eq (by omega)
  -- create
  have h0 : Arena_create scenarioConfig h node =
      some (singleChunk scenarioConfig h node (node + 32) 0 h.mem) := by
    rw [Arena_create_eq scenarioConfig h hnode, Arena_created_eq_singleChunk, hdata]
  -- A = alloc(100)
  have hu1 : alignUp scenarioConfig (node + 32) = node + 32 := by
    rw [hup _ (by omega)]; omega
  have hw1 : wadd (node + 32) 100 = node + 132 := wadd_eq (by omega)
  have h1 := singleChunk_alloc scenarioConfig h node (node + 32) 0 h.mem 100 f1 (by decide)
    (by rw [hu1, hw1, hM, hend]; omega)
  rw [hu1, hw1] at h1
  -- B = alloc(50)
  have hu2 : alignUp scenarioConfig (node + 132) = node + 136 := by
    rw [hup _ (by omega)]; omega
  have hw2 : wadd (node + 136) 50 = node + 186 := wadd_eq (by omega)
  have h2 := singleChunk_alloc scenarioConfig h node (node + 132) (node + 32) h.mem 50 f2
    (by decide) (by rw [hu2, hw2, hM, hend]; omega)
  rw [hu2, hw2] at h2
  -- C = resize(A, 100, 60): A is not the last allocation
  have hu3 : alignUp scenarioConfig (node + 186) = node + 192 := by
    rw [hup _ (by omega)]; omega
  have hw3 : wadd (node + 192) 60 = node + 252 := wadd_eq (by omega)
  have h3a := singleChunk_alloc scenarioConfig h node (node + 186) (node + 136) h.mem 60 f3
    (by decide) (by rw [hu3, hw3, hM, hend]; omega)
  rw [hu3, hw3] at h3a
  have h3 := resize_fallback scenarioConfig
    (singleChunk scenarioConfig h node (node + 186) (node + 136) h.mem) (node + 32) 100 60 f3
    (by decide) (by simp only [singleChunk]; omega)
  rw [h3a] at h3
  simp only [Option.map, singleChunk_memcpy] at h3
  -- reset, then D = alloc(4096)
  obtain ⟨t, h5, hlog, -, hcur, hlast, hfree, -⟩ :=
    singleChunk_alloc_large scenarioConfig h node (data node) 0
      (fun a => if node + 192 ≤ a ∧ a < node + 192 + 100 then h.mem (node + 32 + (a - (node + 192)))
        else h.mem a) 4096 f4 (by decide) hf0 hne
  have hsz : wadd (ARENA_NODE_SIZE scenarioConfig) scenarioConfig.ARENA_MAX_SIZE = 4128 := by
    rw [hns]; rfl
  have hsz2 : wadd (ARENA_NODE_SIZE scenarioConfig) 4096 = 4128 := by
    rw [hns]; rfl
  refine ⟨t, ?_, ?_, hcur, hlast, hfree⟩
  · simp only [endToEnd, h0, h1, h2, h3, singleChunk_reset, h5, bind, Option.bind, pure, hdf]
    simp only [singleChunk, hsz]
  · rw [hlog]
    simp only [singleChunk, hsz, hsz2]

/-- Witness for C10: the scenario on an empty heap, the backend answering
`1048576` at creation and `2097152` in the last call. -/
theorem C10_scenario_last_call_witness :
    ∃ t, endToEnd emptyHeap 1048576 0 0 0 2097152 =
        some (1048576 + 32, 1048576 + 136, 1048576 + 192, 2097152 + 32,
          BackendCall.alloc 4128 1048576 :: emptyHeap.log, t) ∧
      t.log = BackendCall.alloc 4128 2097152 :: BackendCall.alloc 4128 1048576 ::
        emptyHeap.log ∧
      t.current = 1048576 ∧ t.last = 2097152 ∧ t.free = 0 :=
  C10_scenario_last_call emptyHeap 1048576 0 0 0 2097152 (by decide) ⟨131072, by decide⟩
    (by decide) ⟨by decide, by decide, by decide, by decide⟩

/-- C10 (counterexample). With the backend answering `1048576` at creation and
`2097152` in the last call, the last call of the scenario returns the payload
of the new region at `2097152` and adds an allocate call of `32 + 4096` bytes
to the backend log. -/
theorem C10_counterexample :
    (endToEnd emptyHeap 1048576 0 0 0 2097152).map
        (fun r => (r.2.2.2.1, r.2.2.2.2.1, r.2.2.2.2.2.log)) =
      some (2097184, [BackendCall.alloc 4128 1048576],
        [BackendCall.alloc 4128 2097152, BackendCall.alloc 4128 1048576]) := by
  rfl

/-! ## C11: two consecutive small allocations -/

/-- C11: in a valid state, when two small requests `n` and `m` both fit in the
current chunk, the first returns `A`, the aligned cursor, and the second returns
`B = A + n + ARENA_ALIGN(n)`, which is `A + n` rounded up to the next multiple of
`ARENA_ALIGNMENT`: `B` is a multiple of the alignment with `A + n ≤ B` and
`B < A + n + ARENA_ALIGNMENT`. The `n` bytes at `A` end where `B` starts or
before, both blocks lie in the current chunk, and no byte of memory is written. -/
theorem C11_consecutive_small_allocations (cfg : Config) (hcfg : cfg.Valid) (s : State)
    (chain fl : List Nat) (hv : ValidWith cfg s chain fl) (c : ArenaNode)
    (hc : s.nodes s.current = some c) (n m f1 f2 : Nat)
    (hn : n < cfg.ARENA_MAX_SIZE) (hm : m < cfg.ARENA_MAX_SIZE)
    (hfit1 : alignUp cfg c.pos + n ≤ c.end_)
    (hfit2 : alignUp cfg (alignUp cfg c.pos + n) + m ≤ c.end_) :
    ∃ A B s1 s2, Arena_alloc cfg s n f1 = some (A, s1) ∧
      Arena_alloc cfg s1 m f2 = some (B, s2) ∧
      A = alignUp cfg c.pos ∧ B = A + n + ARENA_ALIGN cfg n ∧
      cfg.ARENA_ALIGNMENT ∣ A ∧ cfg.ARENA_ALIGNMENT ∣ B ∧
      A + n ≤ B ∧ B < A + n + cfg.ARENA_ALIGNMENT ∧
      s.current + sizeof_ArenaNode ≤ A ∧ B + m ≤ c.end_ ∧
      s1.current = s.current ∧ s2.current = s.current ∧
      s1.mem = s.mem ∧ s2.mem = s.mem ∧ s2.log = s.log := by
  obtain ⟨rest, c', hchain, hcur0, hc', hpath, hnext, hpos, hle, hend⟩ := hv.current_node
  rw [hc] at hc'; cases hc'
  have hA := alignUp_eq hcfg (lt_of_le_of_lt hle hend)
  have hAd := alignUp_dvd hcfg (lt_of_le_of_lt hle hend)
  have hlim : ADDR_LIMIT < WORD := by rw [ADDR_LIMIT_eq, WORD_eq]; decide
  have hw1 : wadd (alignUp cfg c.pos) n = alignUp cfg c.pos + n := wadd_eq (by omega)
  have hB := alignUp_eq hcfg (show alignUp cfg c.pos + n < ADDR_LIMIT by omega)
  have hBd := alignUp_dvd hcfg (show alignUp cfg c.pos + n < ADDR_LIMIT by omega)
  have hpad := ARENA_ALIGN_add hcfg (n := n) hAd
  have hlt := (ARENA_ALIGN_lt hcfg n).1
  have hw2 : wadd (alignUp cfg (alignUp cfg c.pos + n)) m
      = alignUp cfg (alignUp cfg c.pos + n) + m := wadd_eq (by omega)
  have h1 := alloc_small_fit cfg s n f1 c hn hc (by rw [hw1]; exact hfit1)
  rw [hw1] at h1
  have h2 := alloc_small_fit cfg
    { s with
      last_allocation := alignUp cfg c.pos
      nodes := Function.update s.nodes s.current
        (some { c with pos := alignUp cfg c.pos + n }) } m f2
    { c with pos := alignUp cfg c.pos + n } hm (by simp) (by rw [hw2]; exact hfit2)
  refine ⟨_, _, _, _, h1, h2, rfl, ?_, hAd, hBd, ?_, ?_, ?_, ?_, rfl, rfl, rfl, rfl, rfl⟩
  · rw [hB, hpad]
  · rw [hB]; omega
  · rw [hB, hpad]; omega
  · have := ARENA_ALIGN_lt hcfg c.pos
    rw [hA]; simp only [sizeof_ArenaNode]; omega
  · exact hfit2

/-- C11 at a fresh default arena with `n = 100` and `m = 50`: `B = A + 104`. -/
theorem C11_consecutive_small_allocations_witness :
    ∃ A B s1 s2,
      Arena_alloc defaultConfig (Arena_created defaultConfig emptyHeap 1048576) 100 0
        = some (A, s1) ∧
      Arena_alloc defaultConfig s1 50 0 = some (B, s2) ∧
      A = alignUp defaultConfig 1048608 ∧ B = A + 100 + ARENA_ALIGN defaultConfig 100 ∧
      defaultConfig.ARENA_ALIGNMENT ∣ A ∧ defaultConfig.ARENA_ALIGNMENT ∣ B ∧
      A + 100 ≤ B ∧ B < A + 100 + defaultConfig.ARENA_ALIGNMENT ∧
      (Arena_created defaultConfig emptyHeap 1048576).current + sizeof_ArenaNode ≤ A ∧
      B + 50 ≤ 1064992 ∧
      s1.current = (Arena_created defaultConfig emptyHeap 1048576).current ∧
      s2.current = (Arena_created defaultConfig emptyHeap 1048576).current ∧
      s1.mem = (Arena_created defaultConfig emptyHeap 1048576).mem ∧
      s2.mem = (Arena_created defaultConfig emptyHeap 1048576).mem ∧
      s2.log = (Arena_created defaultConfig emptyHeap 1048576).log :=
  C11_consecutive_small_allocations defaultConfig defaultConfig_valid
    (Arena_created defaultConfig emptyHeap 1048576) [1048576] []
    (Arena_created_valid emptyHeap (by decide) (by decide))
    ⟨0, 0, 1048608, 1064992⟩ (by decide) 100 50 0 0 (by decide) (by decide)
    (by decide) (by decide)

/-! ## C12: the capacity of the current chunk -/

/-- C13, amended: in any state, a request of `ARENA_MAX_SIZE` bytes or more that returns
leaves `last_allocation` equal to the address it returns. In a valid state, with a usable
backend answer, the call does return: the address is the payload start of a chunk `N`
outside the chain, and `last_allocation` is that address, which is not null. -/
theorem C13_large_allocation_sets_last_allocation (cfg : Config) (s : State)
    (size fresh : Nat) (hsz : cfg.ARENA_MAX_SIZE ≤ size) :
    (∀ p t, Arena_alloc cfg s size fresh = some (p, t) → t.last_allocation = p) ∧
    (cfg.Valid → ∀ chain fl, ValidWith cfg s chain fl → FreshFor size chain fl fresh →
      ∃ N t, Arena_alloc cfg s size fresh = some (data N, t) ∧ N ∉ chain ∧
        t.last_allocation = data N ∧ t.last_allocation ≠ 0) := by
  refine ⟨fun p t h => (alloc_large_result hsz h).1, ?_⟩
  intro hcfg chain fl hv hfresh
  obtain ⟨node, t, c, n, ha, -, hn0, hnc, hdata, -, -, -, hla, -⟩ :=
    alloc_large_links hcfg hv hfresh hsz
  refine ⟨node, t, ha, hnc, hla, ?_⟩
  rw [hla, hdata]; omega

/-- C13 at a fresh default arena and a request of `16384` bytes. -/
theorem C13_large_allocation_sets_last_allocation_witness :
    (∀ p t, Arena_alloc defaultConfig (Arena_created defaultConfig emptyHeap 1048576) 16384
        2097152 = some (p, t) → t.last_allocation = p) ∧
    (defaultConfig.Valid → ∀ chain fl,
      ValidWith defaultConfig (Arena_created defaultConfig emptyHeap 1048576) chain fl →
      FreshFor 16384 chain fl 2097152 →
      ∃ N t, Arena_alloc defaultConfig (Arena_created defaultConfig emptyHeap 1048576) 16384
          2097152 = some (data N, t) ∧ N ∉ chain ∧
        t.last_allocation = data N ∧ t.last_allocation ≠ 0) :=
  C13_large_allocation_sets_last_allocation defaultConfig
    (Arena_created defaultConfig emptyHeap 1048576) 16384 2097152 (by decide)

/-- C13 as stated fails: in a fresh default arena, after `alloc(100)` has set
`last_allocation` to `1048608`, the call `alloc(16384)` returns `2097184` from a chunk of
its own and leaves `last_allocation = 2097184`, not the value before the call. -/
theorem C13_counterexample :
    defaultConfig.ARENA_MAX_SIZE ≤ 16384 ∧
    ((Arena_create defaultConfig emptyHeap 1048576).bind fun s =>
      (Arena_alloc defaultConfig s 100 0).bind fun r =>
        (Arena_alloc defaultConfig r.2 16384 2097152).map fun q =>
          (r.2.last_allocation, q.1, q.2.current, q.2.last_allocation))
      = some (1048608, 2097184, 1048576, 2097184) ∧
    (2097184 : Nat) ≠ 1048608 := by
  refine ⟨by decide, by rfl, by decide⟩

/-! ## C14: where a large allocation links its chunk -/

/-- C14: in a valid state a request of `ARENA_MAX_SIZE` bytes or more links its chunk `N`
directly behind `current`: `current` is the same chunk with `pos` and `end` unchanged,
`current.prev` is `N`, `N.next` is `current`, `N.prev` is the old `current.prev`, whose
`next` now points to `N` when it is not null, and `last` becomes `N` exactly when the old
`current.prev` was null and is unchanged otherwise. -/
theorem C14_large_chunk_spliced_behind_current (cfg : Config) (hcfg : cfg.Valid)
    (s : State) (chain fl : List Nat) (hv : ValidWith cfg s chain fl) (size fresh : Nat)
    (hfresh : FreshFor size chain fl fresh) (hsz : cfg.ARENA_MAX_SIZE ≤ size) :
    ∃ N t c c' n, Arena_alloc cfg s size fresh = some (data N, t) ∧ N ∉ chain ∧
      s.nodes s.current = some c ∧ t.current = s.current ∧
      t.nodes t.current = some c' ∧ c'.pos = c.pos ∧ c'.end_ = c.end_ ∧ c'.next = c.next ∧
      c'.prev = N ∧
      t.nodes N = some n ∧ n.next = t.current ∧ n.prev = c.prev ∧
      (c.prev ≠ 0 → ∃ q, t.nodes c.prev = some q ∧ q.next = N) ∧
      (t.last = N ↔ c.prev = 0) ∧ (c.prev ≠ 0 → t.last = s.last) := by
  obtain ⟨node, t, c, n, ha, hc, hn0, hnc, hdata, htc, -, -, hla, hcur, hn, hnp, hnn, -, -, -,
    hl0, hl1, -⟩ := alloc_large_links hcfg hv hfresh hsz
  refine ⟨node, t, c, { c with prev := node }, n, ha, hnc, hc, htc, by rw [htc]; exact hcur,
    rfl, rfl, rfl, rfl, hn, by rw [htc]; exact hnn, hnp, ?_, ⟨?_, hl0⟩, fun h => (hl1 h).1⟩
  · intro h
    obtain ⟨-, -, -, q, -, hq⟩ := hl1 h
    exact ⟨_, hq, rfl⟩
  · intro h
    by_contra h0
    have := (hl1 h0).1
    rw [h] at this
    exact hnc (this ▸ hv.last_node.1)

/-- C14 at the two-chunk example state, where `current.prev` is not null. -/
theorem C14_large_chunk_spliced_behind_current_witness :
    ∃ N t c c' n, Arena_alloc defaultConfig twoChunkArena 20000 3145728 = some (data N, t) ∧
      N ∉ [1048576, 2097152] ∧
      twoChunkArena.nodes twoChunkArena.current = some c ∧ t.current = twoChunkArena.current ∧
      t.nodes t.current = some c' ∧ c'.pos = c.pos ∧ c'.end_ = c.end_ ∧ c'.next = c.next ∧
      c'.prev = N ∧
      t.nodes N = some n ∧ n.next = t.current ∧ n.prev = c.prev ∧
      (c.prev ≠ 0 → ∃ q, t.nodes c.prev = some q ∧ q.next = N) ∧
      (t.last = N ↔ c.prev = 0) ∧ (c.prev ≠ 0 → t.last = twoChunkArena.last) :=
  C14_large_chunk_spliced_behind_current defaultConfig defaultConfig_valid twoChunkArena
    [1048576, 2097152] [] twoChunkArena_valid 20000 3145728
    ⟨by decide, by decide, by decide, by decide⟩ (by decide)

/-! ## C15: resizing a large allocation -/

/-- C15: in a valid, doubly linked state let `N` be a chunk of the chain, `p = N.data`,
`old_size ≥ ARENA_MAX_SIZE` and `new_size > ARENA_MAX_SIZE`, and let the backend answer
the resize with `ret`, the address `N` itself or one no chunk occupies. Then
`Arena_resize` returns `ret.data` after one backend resize from
`header + (N.end - N.data)` to `header + new_size` bytes. The chunk at `ret` has capacity
`new_size`, `pos = end`, and the links of `N`. Its `prev`, when not null, is changed in
its `next` only, which is `ret`, and `last` is unchanged; with no `prev`, `last` is `ret`.
Its `next`, when not null, is changed in its `prev` only, which is `ret`, and `current`
is unchanged; with no `next`, `current` is `ret`. Every other chunk is as before, and `N`
is gone when the region moved. -/
theorem C15_resize_large_allocation (cfg : Config) (hcfg : cfg.Valid) (s : State)
    (chain fl : List Nat) (hv : ValidWith cfg s chain fl)
    (hnl : NextLinked s.nodes 0 chain) (N : Nat) (n : ArenaNode) (hN : N ∈ chain)
    (hn : s.nodes N = some n) (old_size new_size ret : Nat)
    (hold : cfg.ARENA_MAX_SIZE ≤ old_size) (hnew : cfg.ARENA_MAX_SIZE < new_size)
    (hret0 : ret ≠ 0) (hlimit : ret + sizeof_ArenaNode + new_size < ADDR_LIMIT)
    (hret : ret = N ∨ ret ∉ chain ++ fl) :
    ∃ t n', Arena_resize cfg s (data N) old_size new_size ret = some (data ret, t) ∧
      t.log = BackendCall.resize N (sizeof_ArenaNode + (n.end_ - data N))
        (sizeof_ArenaNode + new_size) ret :: s.log ∧
      t.nodes ret = some n' ∧ n'.end_ = data ret + new_size ∧ n'.pos = n'.end_ ∧
      n'.prev = n.prev ∧ n'.next = n.next ∧
      (n'.prev ≠ 0 → ∃ q, s.nodes n'.prev = some q ∧
        t.nodes n'.prev = some { q with next := ret }) ∧
      (n'.prev = 0 → t.last = ret) ∧ (n'.prev ≠ 0 → t.last = s.last) ∧
      (n'.next ≠ 0 → ∃ m, s.nodes n'.next = some m ∧
        t.nodes n'.next = some { m with prev := ret }) ∧
      (n'.next = 0 → t.current = ret) ∧ (n'.next ≠ 0 → t.current = s.current) ∧
      (∀ x, x ≠ ret → x ≠ N → x ≠ n.prev → x ≠ n.next → t.nodes x = s.nodes x) ∧
      (ret ≠ N → t.nodes N = none) ∧ t.free = s.free := by
  have hW := WORD_eq
  have hL := ADDR_LIMIT_eq
  have hnd : chain.Nodup := (List.nodup_append.mp hv.nodup).1
  have h0 : (0 : Nat) ∉ chain := fun h => (hv.chain_path.mem_live 0 h).1 rfl
  obtain ⟨hpv, hnx, hpx⟩ := chain_neighbours chain 0 s.current hv.chain_path hnl hnd h0 N hN n hn
  obtain ⟨hlo, hhi⟩ := hv.node_ok N (List.mem_append_left _ hN) n hn
  unfold sizeof_ArenaNode at hlo hlimit
  have hnotin : ∀ x ∈ chain, x ≠ N → x ≠ ret := by
    intro x hx hxN h
    rcases hret with h' | h'
    · exact hxN (h.trans h')
    · exact h' (List.mem_append_left _ (h ▸ hx))
  have hdN : data N = N + 32 := data_eq (by omega)
  have hdr : data ret = ret + 32 := data_eq (by omega)
  have hsub : wsub (data N) (ARENA_NODE_SIZE cfg) = N := by
    rw [ARENA_NODE_SIZE_eq hcfg, hdN]
    rw [wsub_eq (by omega) (by omega)]
    omega
  have hosz : wsub (wadd (ARENA_NODE_SIZE cfg) n.end_) (data N) = 32 + (n.end_ - data N) := by
    rw [ARENA_NODE_SIZE_eq hcfg, hdN, wadd_eq (by omega), wsub_eq (by omega) (by omega)]
    omega
  have hnsz : wadd new_size (ARENA_NODE_SIZE cfg) = 32 + new_size := by
    rw [ARENA_NODE_SIZE_eq hcfg, wadd_eq (by omega)]
    omega
  have hend : wadd (data ret) new_size = data ret + new_size := by
    rw [hdr]; exact wadd_eq (by omega)
  have hp : n.prev ≠ 0 → n.prev ≠ N ∧ n.prev ≠ ret ∧ ∃ q, s.nodes n.prev = some q := by
    intro h
    rcases hpv with h' | ⟨-, hm, hne, q, hq, -⟩
    · exact absurd h' h
    · exact ⟨hne, hnotin _ hm hne, q, hq⟩
  have hx : n.next ≠ 0 → n.next ≠ N ∧ n.next ≠ ret ∧ n.next ≠ n.prev ∧
      ∃ m, s.nodes n.next = some m := by
    intro h
    rcases hnx with ⟨h', -⟩ | ⟨-, hm, hne, -, m, hmm, -⟩
    · exact absurd h' h
    · refine ⟨hne, hnotin _ hm hne, ?_, m, hmm⟩
      intro e
      by_cases hp0 : n.prev = 0
      · exact h (e.trans hp0)
      · exact hpx hp0 e.symm
  obtain ⟨t, hres, hlog, -, hfree, -, hnode, hgone, hl0, hl1, hc0, hc1, hq, hm, hframe⟩ :=
    resize_large_spec cfg s (data N) old_size new_size ret N n ⟨hold, hnew⟩ hsub hn hret0 hp hx
  refine ⟨t, _, hres, ?_, hnode, hend, rfl, rfl, rfl, ?_, hl0, hl1, ?_, hc0, hc1, hframe,
    hgone, hfree⟩
  · rw [hlog, hosz, hnsz]; rfl
  · intro h
    obtain ⟨-, -, q, hq'⟩ := hp h
    exact ⟨q, hq', hq q h hq'⟩
  · intro h
    obtain ⟨-, -, -, m, hm'⟩ := hx h
    exact ⟨m, hm', hm m h hm'⟩

/-- C15 at the two-chunk example state: the chunk at `2097152` grows from `16384` to
`20000` bytes and the backend moves it to `3145728`. -/
theorem C15_resize_large_allocation_witness :
    ∃ t n', Arena_resize defaultConfig twoChunkArena (data 2097152) 16384 20000 3145728
        = some (data 3145728, t) ∧
      t.log = BackendCall.resize 2097152
        (sizeof_ArenaNode + ((⟨0, 1048576, 2113568, 2113568⟩ : ArenaNode).end_ - data 2097152))
        (sizeof_ArenaNode + 20000) 3145728 :: twoChunkArena.log ∧
      t.nodes 3145728 = some n' ∧ n'.end_ = data 3145728 + 20000 ∧ n'.pos = n'.end_ ∧
      n'.prev = (⟨0, 1048576, 2113568, 2113568⟩ : ArenaNode).prev ∧
      n'.next = (⟨0, 1048576, 2113568, 2113568⟩ : ArenaNode).next ∧
      (n'.prev ≠ 0 → ∃ q, twoChunkArena.nodes n'.prev = some q ∧
        t.nodes n'.prev = some { q with next := 3145728 }) ∧
      (n'.prev = 0 → t.last = 3145728) ∧ (n'.prev ≠ 0 → t.last = twoChunkArena.last) ∧
      (n'.next ≠ 0 → ∃ m, twoChunkArena.nodes n'.next = some m ∧
        t.nodes n'.next = some { m with prev := 3145728 }) ∧
      (n'.next = 0 → t.current = 3145728) ∧
      (n'.next ≠ 0 → t.current = twoChunkArena.current) ∧
      (∀ x, x ≠ 3145728 → x ≠ 2097152 →
        x ≠ (⟨0, 1048576, 2113568, 2113568⟩ : ArenaNode).prev →
        x ≠ (⟨0, 1048576, 2113568, 2113568⟩ : ArenaNode).next →
        t.nodes x = twoChunkArena.nodes x) ∧
      (3145728 ≠ 2097152 → t.nodes 2097152 = none) ∧ t.free = twoChunkArena.free :=
  C15_resize_large_allocation defaultConfig defaultConfig_valid twoChunkArena
    [1048576, 2097152] [] twoChunkArena_valid twoChunkArena_linked 2097152
    ⟨0, 1048576, 2113568, 2113568⟩ (by decide) (by decide) 16384 20000 3145728
    (by decide) (by decide) (by decide) (by decide) (Or.inr (by decide))

/-! ## C16: the padding `ARENA_ALIGN` -/

/-- C16: for every word size `w`, every power of two `A = 2 ^ j` that a word can hold and
every address `p`, the padding `k = ARENA_ALIGN(p) = (-p) & (A - 1)` satisfies `0 ≤ k < A`,
`p + k` is a multiple of `A`, no smaller `k'` makes `p + k'` a multiple of `A`, and `k = 0`
exactly when `p` is a multiple of `A`; the padded cursor `(p + k) mod 2 ^ w` is a multiple
of `A`, and when it does not wrap it lies in `[p, p + A)`. At `w = 64` this is the macro of
the program, and `alignUp`, the cursor the small path of `Arena_alloc` stores, is
`(p + k) mod 2 ^ 64`. -/
theorem C16_padding_is_least (w j p : Nat) (hj : j < w) :
    ARENA_ALIGN_w w (2 ^ j) p < 2 ^ j ∧
    2 ^ j ∣ p + ARENA_ALIGN_w w (2 ^ j) p ∧
    (∀ k', 2 ^ j ∣ p + k' → ARENA_ALIGN_w w (2 ^ j) p ≤ k') ∧
    (ARENA_ALIGN_w w (2 ^ j) p = 0 ↔ 2 ^ j ∣ p) ∧
    2 ^ j ∣ (p + ARENA_ALIGN_w w (2 ^ j) p) % 2 ^ w ∧
    (p + ARENA_ALIGN_w w (2 ^ j) p < 2 ^ w →
      p ≤ (p + ARENA_ALIGN_w w (2 ^ j) p) % 2 ^ w ∧
      (p + ARENA_ALIGN_w w (2 ^ j) p) % 2 ^ w < p + 2 ^ j) ∧
    (w = 64 → ∀ cfg : Config, cfg.ARENA_ALIGNMENT = 2 ^ j →
      ARENA_ALIGN cfg p = ARENA_ALIGN_w w (2 ^ j) p ∧
      alignUp cfg p = (p + ARENA_ALIGN_w w (2 ^ j) p) % 2 ^ w) := by
  have hA : 0 < 2 ^ j := Nat.pos_pow_of_pos _ (by decide)
  have hW : 0 < 2 ^ w := Nat.pos_pow_of_pos _ (by decide)
  have hAW : 2 ^ j ∣ 2 ^ w := pow_dvd_pow 2 (le_of_lt hj)
  have hk := ARENA_ALIGN_w_eq_mod hj p
  have hlt : ARENA_ALIGN_w w (2 ^ j) p < 2 ^ j := by rw [hk]; exact Nat.mod_lt _ hA
  have hdvd : 2 ^ j ∣ p + ARENA_ALIGN_w w (2 ^ j) p := by
    have h1 : 2 ^ j ∣ p + (2 ^ w - p % 2 ^ w) % 2 ^ w := hAW.trans (dvd_add_neg _ p hW)
    have h2 : p + ARENA_ALIGN_w w (2 ^ j) p ≡ p + (2 ^ w - p % 2 ^ w) % 2 ^ w [MOD 2 ^ j] := by
      rw [hk]; exact Nat.ModEq.add_left p (Nat.mod_modEq _ _)
    exact (Nat.modEq_zero_iff_dvd.1 (h2.trans (Nat.modEq_zero_iff_dvd.2 h1)))
  have hleast : ∀ k', 2 ^ j ∣ p + k' → ARENA_ALIGN_w w (2 ^ j) p ≤ k' := by
    intro k' hk'
    have h1 : p + ARENA_ALIGN_w w (2 ^ j) p ≡ p + k' [MOD 2 ^ j] :=
      (Nat.modEq_zero_iff_dvd.2 hdvd).trans (Nat.modEq_zero_iff_dvd.2 hk').symm
    have h2 : ARENA_ALIGN_w w (2 ^ j) p ≡ k' [MOD 2 ^ j] := Nat.ModEq.add_left_cancel' p h1
    have h3 : ARENA_ALIGN_w w (2 ^ j) p = k' % 2 ^ j := by
      have := h2
      unfold Nat.ModEq at this
      rw [Nat.mod_eq_of_lt hlt] at this
      exact this
    rw [h3]
    exact Nat.mod_le _ _
  refine ⟨hlt, hdvd, hleast, ⟨?_, ?_⟩, (Nat.dvd_mod_iff hAW).2 hdvd, ?_, ?_⟩
  · intro h0
    rw [h0] at hdvd
    exact hdvd
  · intro hp
    exact Nat.le_zero.1 (hleast 0 hp)
  · intro hnw
    rw [Nat.mod_eq_of_lt hnw]
    omega
  · intro hw cfg hcfg
    subst hw
    constructor
    · rw [ARENA_ALIGN_eq_w, hcfg]
    · unfold alignUp wadd WORD
      rw [ARENA_ALIGN_eq_w, hcfg]

/-- C16 at 64 bits, alignment `8` and the address `1048609`. -/
theorem C16_padding_is_least_witness :
    ARENA_ALIGN_w 64 (2 ^ 3) 1048609 < 2 ^ 3 ∧
    2 ^ 3 ∣ 1048609 + ARENA_ALIGN_w 64 (2 ^ 3) 1048609 ∧
    (∀ k', 2 ^ 3 ∣ 1048609 + k' → ARENA_ALIGN_w 64 (2 ^ 3) 1048609 ≤ k') ∧
    (ARENA_ALIGN_w 64 (2 ^ 3) 1048609 = 0 ↔ 2 ^ 3 ∣ 1048609) ∧
    2 ^ 3 ∣ (1048609 + ARENA_ALIGN_w 64 (2 ^ 3) 1048609) % 2 ^ 64 ∧
    (1048609 + ARENA_ALIGN_w 64 (2 ^ 3) 1048609 < 2 ^ 64 →
      1048609 ≤ (1048609 + ARENA_ALIGN_w 64 (2 ^ 3) 1048609) % 2 ^ 64 ∧
      (1048609 + ARENA_ALIGN_w 64 (2 ^ 3) 1048609) % 2 ^ 64 < 1048609 + 2 ^ 3) ∧
    (64 = 64 → ∀ cfg : Config, cfg.ARENA_ALIGNMENT = 2 ^ 3 →
      ARENA_ALIGN cfg 1048609 = ARENA_ALIGN_w 64 (2 ^ 3) 1048609 ∧
      alignUp cfg 1048609 = (1048609 + ARENA_ALIGN_w 64 (2 ^ 3) 1048609) % 2 ^ 64) :=
  C16_padding_is_least 64 3 1048609 (by decide)

/-! ## C17: the chunk list after a run of valid calls -/

/-- C17 (failing input). The calls of `sharedChunkRun` are valid uses and all return. In
the state they reach, following `prev` from `current` visits `1048576`, `1003520`,
`1028096` and ends; `last` is `1028096`; and the free list, followed from `free`, is the
chunk `1028096` again. The free list shares a chunk with the chain, so the state is valid
for no chain and no free list. -/
theorem C17_free_list_shares_chunk_with_chain :
    ∃ s, sharedChunkRun = some s ∧
      PrevPath s.nodes s.current [1048576, 1003520, 1028096] ∧ s.last = 1028096 ∧
      PrevPath s.nodes s.free [1028096] ∧ 1028096 ∈ [1048576, 1003520, 1028096] ∧
      ∀ chain fl, ¬ ValidWith defaultConfig s chain fl := by
  have hsome : sharedChunkRun.isSome = true := by rfl
  obtain ⟨s, hs⟩ := Option.isSome_iff_exists.1 hsome
  have h1 : sharedChunkRun.map (fun s => (s.current, s.last, s.free, s.nodes 1048576,
      s.nodes 1003520, s.nodes 1028096)) = some (1048576, 1028096, 1028096,
        some ⟨1003520, 0, 1044512, 1064992⟩, some ⟨1028096, 1048576, 1024040, 1024040⟩,
        some ⟨0, 1003520, 1044513, 1044513⟩) := by rfl
  rw [hs] at h1
  simp only [Option.map_some', Option.some.injEq, Prod.mk.injEq] at h1
  obtain ⟨hcur, hlast, hfree, hn1, hn2, hn3⟩ := h1
  have hchain : PrevPath s.nodes s.current [1048576, 1003520, 1028096] := by
    rw [hcur]
    exact ⟨rfl, by decide, _, hn1, rfl, by decide, _, hn2, rfl, by decide, _, hn3, rfl⟩
  have hfl : PrevPath s.nodes s.free [1028096] := by
    rw [hfree]
    exact ⟨rfl, by decide, _, hn3, rfl⟩
  refine ⟨s, hs, hchain, hlast, hfl, by decide, ?_⟩
  intro chain fl hv
  have e1 := PrevPath.unique hv.chain_path hchain
  have e2 := PrevPath.unique hv.free_path hfl
  have hnd := hv.nodup
  rw [e1, e2] at hnd
  exact absurd hnd (by decide)

/-! ## C18: returned addresses are aligned -/

/-- C18: let `ARENA_ALIGNMENT` be a power of two and let the payload of every chunk, those
the state holds and the one the backend may answer with, start at a multiple of it. Then
in any state whatever, every address `Arena_alloc` returns is a multiple of
`ARENA_ALIGNMENT`, for every size: the padded cursor on the small path, the payload start
of the new or cached chunk otherwise. In a valid state with a usable backend answer the
call does return. -/
theorem C18_returned_addresses_aligned (cfg : Config) (j : Nat) (hj : j < 64)
    (hA : cfg.ARENA_ALIGNMENT = 2 ^ j) (s : State) (size fresh : Nat)
    (hchunks : ∀ a n, s.nodes a = some n → cfg.ARENA_ALIGNMENT ∣ data a)
    (hfresh : cfg.ARENA_ALIGNMENT ∣ data fresh) :
    (∀ p t, Arena_alloc cfg s size fresh = some (p, t) → cfg.ARENA_ALIGNMENT ∣ p) ∧
    (cfg.Valid → ∀ chain fl, ValidWith cfg s chain fl →
      FreshFor (max size cfg.ARENA_MAX_SIZE) chain fl fresh →
      ∃ p t, Arena_alloc cfg s size fresh = some (p, t) ∧ cfg.ARENA_ALIGNMENT ∣ p) := by
  have main : ∀ p t, Arena_alloc cfg s size fresh = some (p, t) → cfg.ARENA_ALIGNMENT ∣ p := by
    intro p t h
    by_cases hsz : cfg.ARENA_MAX_SIZE ≤ size
    · obtain ⟨-, node, u, hcr, rfl⟩ := alloc_large_result hsz h
      rcases create_node_origin hcr with ⟨rfl, n, hn⟩ | rfl
      · exact hchunks _ n hn
      · exact hfresh
    · obtain ⟨c, hc, ⟨rfl, -⟩ | ⟨-, node, u, hcr, rfl⟩⟩ := alloc_small_result (not_le.1 hsz) h
      · exact alignUp_dvd_of_pow hj hA c.pos
      · rcases create_node_origin hcr with ⟨rfl, n, hn⟩ | rfl
        · by_cases hf : s.free = s.current
          · exact hchunks _ c (hf ▸ hc)
          · simp only [State.setNode, Function.update_noteq hf] at hn
            exact hchunks _ n hn
        · exact hfresh
  refine ⟨main, ?_⟩
  intro hcfg chain fl hv hfr
  obtain ⟨p, t, -, -, h, -⟩ := Arena_alloc_valid hcfg hv hfr
  exact ⟨p, t, h, main p t h⟩

/-- C18 at a fresh default arena whose chunks start at multiples of `8`. -/
theorem C18_returned_addresses_aligned_witness :
    (∀ p t, Arena_alloc defaultConfig (Arena_created defaultConfig emptyHeap 1048576) 16000
        2097152 = some (p, t) → defaultConfig.ARENA_ALIGNMENT ∣ p) ∧
    (defaultConfig.Valid → ∀ chain fl,
      ValidWith defaultConfig (Arena_created defaultConfig emptyHeap 1048576) chain fl →
      FreshFor (max 16000 defaultConfig.ARENA_MAX_SIZE) chain fl 2097152 →
      ∃ p t, Arena_alloc defaultConfig (Arena_created defaultConfig emptyHeap 1048576) 16000
        2097152 = some (p, t) ∧ defaultConfig.ARENA_ALIGNMENT ∣ p) :=
  C18_returned_addresses_aligned defaultConfig 3 (by decide) (by decide)
    (Arena_created defaultConfig emptyHeap 1048576) 16000 2097152
    (by
      intro a n h
      by_cases ha : a = 1048576
      · subst ha; decide
      · simp [Arena_created, emptyHeap, Function.update_noteq ha] at h)
    (by decide)

/-! ## C19: a backend failure on the small path -/

/-- C19, amended: a small request that does not fit in `current`, with an empty free
cache and a backend that answers null. `Arena_alloc` does not report a failure: it writes
`node->end` through the null answer, which has no defined behaviour. In the state `e` in
which that happens `current`, `free`, `last`, `last_allocation`, the live regions and the
bytes are as before the call, the backend has been asked once, and one header has
changed: the cursor of `current` has been advanced by the padding `ARENA_ALIGN(pos)`,
less than `ARENA_ALIGNMENT` bytes, and nothing at all if `pos` was aligned. -/
theorem C19_backend_failure_state (cfg : Config) (hcfg : cfg.Valid) (s : State)
    (c : ArenaNode) (size : Nat) (hnull : s.nodes 0 = none)
    (hc : s.nodes s.current = some c) (hpos : c.pos < ADDR_LIMIT)
    (hsz : size < cfg.ARENA_MAX_SIZE) (hfit : ¬ wadd (alignUp cfg c.pos) size ≤ c.end_)
    (hfree : s.free = 0) :
    ∃ e, Arena_alloc_traced cfg s size 0 = Except.error e ∧
      Arena_alloc cfg s size 0 = none ∧
      e.current = s.current ∧ e.free = s.free ∧ e.last = s.last ∧
      e.last_allocation = s.last_allocation ∧ e.live = s.live ∧ e.mem = s.mem ∧
      e.log = BackendCall.alloc (wadd (ARENA_NODE_SIZE cfg) cfg.ARENA_MAX_SIZE) 0 :: s.log ∧
      e.nodes = Function.update s.nodes s.current
        (some { c with pos := c.pos + ARENA_ALIGN cfg c.pos }) ∧
      ARENA_ALIGN cfg c.pos < cfg.ARENA_ALIGNMENT ∧
      (cfg.ARENA_ALIGNMENT ∣ c.pos → e.nodes = s.nodes) := by
  have hcur : s.current ≠ 0 := by
    intro h
    rw [h, hnull] at hc
    cases hc
  have hup : alignUp cfg c.pos = c.pos + ARENA_ALIGN cfg c.pos := alignUp_eq hcfg hpos
  have htr : Arena_alloc_traced cfg s size 0 = Except.error
      { s with
        nodes := Function.update s.nodes s.current
          (some { c with pos := c.pos + ARENA_ALIGN cfg c.pos })
        log := BackendCall.alloc (wadd (ARENA_NODE_SIZE cfg) cfg.ARENA_MAX_SIZE) 0 :: s.log } := by
    unfold Arena_alloc_traced
    rw [if_neg (not_le.2 hsz)]
    unfold alignUp at hup hfit
    simp [traced, hc, State.setPos, State.setNode, State.setEnd, bind, Except.bind, hup,
      Arena_create_node_traced, hfree, ARENA_BACKEND_ALLOC, Function.update_noteq hcur.symm,
      hnull, Except.map, not_le.1 (hup ▸ hfit)]
  refine ⟨_, htr, ?_, rfl, rfl, rfl, rfl, rfl, rfl, rfl, rfl, (ARENA_ALIGN_lt hcfg c.pos).1, ?_⟩
  · rw [← Arena_alloc_traced_toOption, htr]; rfl
  · intro hd
    simp only [ARENA_ALIGN_of_dvd hcfg hd, Nat.add_zero]
    exact Function.update_eq_self_iff.2 hc.symm

/-- C19 at a fresh default arena whose cursor stands one byte past the payload start,
for a request of `16383` bytes. -/
theorem C19_backend_failure_state_witness :
    ∃ e, Arena_alloc_traced defaultConfig
        (singleChunk defaultConfig emptyHeap 1048576 1048609 1048608 emptyHeap.mem) 16383 0
        = Except.error e ∧
      Arena_alloc defaultConfig
        (singleChunk defaultConfig emptyHeap 1048576 1048609 1048608 emptyHeap.mem) 16383 0
        = none ∧
      e.current = (singleChunk defaultConfig emptyHeap 1048576 1048609 1048608
        emptyHeap.mem).current ∧
      e.free = (singleChunk defaultConfig emptyHeap 1048576 1048609 1048608 emptyHeap.mem).free ∧
      e.last = (singleChunk defaultConfig emptyHeap 1048576 1048609 1048608 emptyHeap.mem).last ∧
      e.last_allocation = (singleChunk defaultConfig emptyHeap 1048576 1048609 1048608
        emptyHeap.mem).last_allocation ∧
      e.live = (singleChunk defaultConfig emptyHeap 1048576 1048609 1048608 emptyHeap.mem).live ∧
      e.mem = (singleChunk defaultConfig emptyHeap 1048576 1048609 1048608 emptyHeap.mem).mem ∧
      e.log = BackendCall.alloc
          (wadd (ARENA_NODE_SIZE defaultConfig) defaultConfig.ARENA_MAX_SIZE) 0 ::
        (singleChunk defaultConfig emptyHeap 1048576 1048609 1048608 emptyHeap.mem).log ∧
      e.nodes = Function.update
        (singleChunk defaultConfig emptyHeap 1048576 1048609 1048608 emptyHeap.mem).nodes
        (singleChunk defaultConfig emptyHeap 1048576 1048609 1048608 emptyHeap.mem).current
        (some { (⟨0, 0, 1048609, 1064992⟩ : ArenaNode) with
          pos := (⟨0, 0, 1048609, 1064992⟩ : ArenaNode).pos +
            ARENA_ALIGN defaultConfig (⟨0, 0, 1048609, 1064992⟩ : ArenaNode).pos }) ∧
      ARENA_ALIGN defaultConfig (⟨0, 0, 1048609, 1064992⟩ : ArenaNode).pos
        < defaultConfig.ARENA_ALIGNMENT ∧
      (defaultConfig.ARENA_ALIGNMENT ∣ (⟨0, 0, 1048609, 1064992⟩ : ArenaNode).pos →
        e.nodes =
          (singleChunk defaultConfig emptyHeap 1048576 1048609 1048608 emptyHeap.mem).nodes) :=
  C19_backend_failure_state defaultConfig defaultConfig_valid
    (singleChunk defaultConfig emptyHeap 1048576 1048609 1048608 emptyHeap.mem)
    ⟨0, 0, 1048609, 1064992⟩ 16383 (by decide) (by decide) (by decide) (by decide)
    (by decide) rfl

/-- C19 as stated fails. Default configuration: after `alloc(1)` the cursor of `current`
is `1048609`. A request of `16383` bytes does not fit once the cursor is padded, the free
cache is empty, and the backend answers null: the call faults, and in the state in which
it does the cursor of `current` is `1048616`, not `1048609`. -/
theorem C19_counterexample :
    ((Arena_create defaultConfig emptyHeap 1048576).bind fun s =>
      (Arena_alloc defaultConfig s 1 0).map fun r =>
        ((r.2.nodes r.2.current).map ArenaNode.pos, r.2.free,
          (Arena_alloc defaultConfig r.2 16383 0).isSome,
          match Arena_alloc_traced defaultConfig r.2 16383 0 with
          | Except.error e =>
            some (e.current, (e.nodes e.current).map ArenaNode.pos, e.free, e.last_allocation,
              e.log.head?)
          | Except.ok _ => none))
      = some (some 1048609, 0, false,
          some (1048576, some 1048616, 0, 1048608, some (BackendCall.alloc 16416 0))) ∧
    (1048616 : Nat) ≠ 1048609 := by
  exact ⟨by rfl, by decide⟩

/-! ## C20: the fallback resize copies too much -/

/-- C20 (failing input). The chunk at `2097152` holds `32768` payload bytes in a region of
`32800` bytes. Resizing it to `16385` payload bytes asks the fallback for `16417` bytes;
with the new region at `3145728` the fallback requests `16417` bytes, releases the old
region with `32800`, and copies `32800` bytes: the byte at `3145728 + 16417`, the first one
past the new region, changes from `47` to `149`, the byte at `2097152 + 16417`, and so
does every byte up to `3145728 + 32799`. -/
theorem C20_fallback_copies_past_new_region :
    ((Arena_backend_resize largeChunkArena 2097152 32800 16417 3145728).map fun r =>
      (r.1, r.2.log.take 2, largeChunkArena.mem (3145728 + 16417), r.2.mem (3145728 + 16417),
        largeChunkArena.mem (2097152 + 16417), r.2.mem (3145728 + 32799),
        largeChunkArena.mem (3145728 + 32799), r.2.mem (3145728 + 32800) ==
          largeChunkArena.mem (3145728 + 32800)))
      = some (3145728, [BackendCall.dealloc 2097152 32800, BackendCall.alloc 16417 3145728],
          47, 149, 149, 216, 114, true) ∧
    min 32800 16417 = 16417 := by
  exact ⟨by rfl, by decide⟩

end ArenaSpec
